import Mathlib

/-!
superstring: tokenizer and escaping engine.

A shallow embedding of `super::string` (`superstring.hh`, `superstring.cc`).

* A byte (`char`) is a natural number; a `std::string` is the list of its bytes.
* A `const char*` argument is `none` for `nullptr` and `some p` for a pointer to the
  bytes `p` followed by a terminator; what C code reads through it is `c_str p`.
* A `std::vector<string>` is a list, `push_back` appends at the end.
* Allocation failure (`malloc` returning `nullptr`) is not modelled.
* Where what the code does depends on whether plain `char` is signed, the definition
  takes the flag `charSigned`; an access outside a table has no defined outcome and is
  `none`.
* Loops whose index advances by a varying amount take a `fuel` argument; the callers
  pass a bound that the loop cannot exhaust.
-/

namespace super

/-! ## Data model -/

/-- The bytes of an ASCII literal. -/
def bytes (s : String) : List Nat := s.toList.map Char.toNat

/-- The C string read through a pointer to the given bytes: everything before the
first NUL. -/
def c_str (p : List Nat) : List Nat := p.takeWhile (fun c => c != 0)

/-- The class `super::string`: the `std::string` base object and the `_null` flag. -/
structure string where
  _null : Bool
  base : List Nat
deriving DecidableEq

namespace string

/-- `string::string()`. -/
def new : string := ⟨false, []⟩

/-- `string::string(const char* value)`. -/
def of_c_str (value : Option (List Nat)) : string :=
  match value with
  | none => ⟨true, []⟩
  | some p => ⟨false, c_str p⟩

/-- `string::string(const std::string& value)`. -/
def of_std (value : List Nat) : string := ⟨false, value⟩

/-- `string::string(size_t size, char initial)`. -/
def filled (size : Nat) (initial : Nat) : string := ⟨false, List.replicate size initial⟩

/-- `string::string(const string& value)`: the base is copied only when the value is
not null. -/
def copy (value : string) : string :=
  if value._null then ⟨true, []⟩ else ⟨false, value.base⟩

/-- `string::assign(const string& value)`, as the new value of the receiver. -/
def assign (_this : string) (value : string) : string :=
  if value._null then ⟨true, []⟩ else ⟨false, value.base⟩

/-- `string::assign(const std::string& value)`, as the new value of the receiver. -/
def assign_std (_this : string) (value : List Nat) : string := ⟨false, value⟩

/-- `string::length()`. -/
def length (this : string) : Nat := if this._null then 0 else this.base.length

/-- `string::is_null()`; `base_type::c_str()` is never `nullptr`. -/
def is_null (this : string) : Bool := this._null

/-- `string::is_empty()`. -/
def is_empty (this : string) : Bool := this._null || this.base.length == 0

/-- `string::is_one_of(char value, const char* chars)`. -/
def is_one_of (value : Nat) (chars : Option (List Nat)) : Bool :=
  match chars with
  | none => false
  | some p => (c_str p).any (fun q => value == q)

/-! ## Tokenizer -/

/-- The static `tokenize(char* value, const char* delimiters, char** state)`.
A `char*` into the working copy is the list of the bytes from there to the
terminator, `none` is `nullptr`. Returns the token (the C string at the returned
pointer after the terminating write) and the new `*state`. -/
def tokenize (value : Option (List Nat)) (delimiters : List Nat) (state : Option (List Nat)) :
    Option (List Nat) × Option (List Nat) :=
  let isDelim := fun c => is_one_of c (some delimiters)
  -- `value == nullptr`: continue from `*state`; otherwise skip `strspn` bytes.
  let start : Option (List Nat) :=
    match value with
    | none => state
    | some v => some (v.dropWhile isDelim)
  match start with
  | none => (none, state)
  | some v =>
    -- `strpbrk(value, delimiters)`
    match v.dropWhile (fun c => !isDelim c) with
    | [] => (some v, none)
    | _ :: rest => (some (v.takeWhile (fun c => !isDelim c)), some rest)

/-- The `while (token != nullptr)` loop shared by the two appending `split`
overloads; every call of `tokenize` with a non-null state shortens the state or
clears it, so `fuel` above the length of the copy is never exhausted. -/
def split_loop (delimiters : List Nat) :
    Nat → Option (List Nat) → Option (List Nat) → List string → Nat → Nat × List string
  | 0, _, _, result, count => (count, result)
  | _ + 1, none, _, result, count => (count, result)
  | fuel + 1, some token, state, result, count =>
    let next := tokenize none delimiters state
    split_loop delimiters fuel next.1 next.2 (result ++ [of_c_str (some token)]) (count + 1)

/-- `string::split(const char* delimiters, std::vector<string>& result)`: the
returned count and the vector afterwards. -/
def split (this : string) (delimiters : Option (List Nat)) (result : List string) :
    Nat × List string :=
  match delimiters with
  | none => (0, result)
  | some d =>
    if this._null || this.base.length == 0 || c_str d == [] then (0, result)
    else
      let temp := c_str this.base
      let first := tokenize (some temp) d none
      split_loop d (temp.length + 2) first.1 first.2 result 0

/-- `string::split(char delimiter, std::vector<string>& result)`. -/
def split_char (this : string) (delimiter : Nat) (result : List string) : Nat × List string :=
  if delimiter == 0 then (0, result)
  else if this._null || this.base.length == 0 then (0, result)
  else
    let temp := c_str this.base
    let first := tokenize (some temp) [delimiter, 0] none
    split_loop [delimiter, 0] (temp.length + 2) first.1 first.2 result 0

/-- The loops `while (*temp && is_one_of(*temp, delimiters))` of `split_with`
(leading and trailing delimiters): each delimiter is appended as a one-character
string unless it is in `omit`. `temp` is the rest of the working copy. -/
def split_with_delimiters (delimiters omit_ : Option (List Nat)) :
    List Nat → List string → Nat → List Nat × List string × Nat
  | [], result, count => ([], result, count)
  | c :: temp, result, count =>
    if is_one_of c delimiters then
      if !(omit_.isSome && is_one_of c omit_) then
        split_with_delimiters delimiters omit_ temp (result ++ [of_c_str (some [c, 0])]) (count + 1)
      else split_with_delimiters delimiters omit_ temp result count
    else (c :: temp, result, count)

/-- The main loop `while (*temp)` of `split_with(const char*, vector&, const char*)`.
One round: mark `start`, step over one byte, accumulate non-delimiters, store the
token, store the ending delimiter (unless omitted), then the trailing delimiters.
Each round consumes at least one byte, so `fuel` of the length of the copy is enough. -/
def split_with_tokens (delimiters omit_ : Option (List Nat)) :
    Nat → List Nat → List string → Nat → List string × Nat
  | 0, _, result, count => (result, count)
  | _ + 1, [], result, count => (result, count)
  | fuel + 1, c :: temp, result, count =>
    let run := temp.takeWhile (fun x => !is_one_of x delimiters)
    let result := result ++ [of_c_str (some (c :: run ++ [0]))]
    let count := count + 1
    match temp.dropWhile (fun x => !is_one_of x delimiters) with
    | [] => (result, count)
    | d :: temp =>
      let kept := !(omit_.isSome && is_one_of d omit_)
      let result := if kept then result ++ [of_c_str (some [d, 0])] else result
      let count := if kept then count + 1 else count
      let after := split_with_delimiters delimiters omit_ temp result count
      split_with_tokens delimiters omit_ fuel after.1 after.2.1 after.2.2

/-- `string::split_with(const char* delimiters, std::vector<string>& result,
const char* omit)`: the returned count and the vector afterwards. -/
def split_with (this : string) (delimiters : Option (List Nat)) (result : List string)
    (omit_ : Option (List Nat)) : Nat × List string :=
  match delimiters with
  | none => (0, result)
  | some d =>
    if c_str d == [] || this.is_empty then (0, result)
    else
      let copy := c_str this.base
      let lead := split_with_delimiters (some d) omit_ copy result 0
      let out := split_with_tokens (some d) omit_ copy.length lead.1 lead.2.1 lead.2.2
      (out.2, out.1)

/-- The loops `while (*temp && *temp == delimiter)` of `split_with(char, vector&)`. -/
def split_with_char_delimiters (delimiter : Nat) :
    List Nat → List string → Nat → List Nat × List string × Nat
  | [], result, count => ([], result, count)
  | c :: temp, result, count =>
    if c == delimiter then
      split_with_char_delimiters delimiter temp
        (result ++ [of_c_str (some [delimiter, 0])]) (count + 1)
    else (c :: temp, result, count)

/-- The main loop `while (*temp)` of `split_with(char, vector&)`. -/
def split_with_char_tokens (delimiter : Nat) :
    Nat → List Nat → List string → Nat → List string × Nat
  | 0, _, result, count => (result, count)
  | _ + 1, [], result, count => (result, count)
  | fuel + 1, c :: temp, result, count =>
    let run := temp.takeWhile (fun x => x != delimiter)
    let result := result ++ [of_c_str (some (c :: run ++ [0]))]
    let count := count + 1
    match temp.dropWhile (fun x => x != delimiter) with
    | [] => (result, count)
    | _ :: temp =>
      let result := result ++ [of_c_str (some [delimiter, 0])]
      let count := count + 1
      let after := split_with_char_delimiters delimiter temp result count
      split_with_char_tokens delimiter fuel after.1 after.2.1 after.2.2

/-- `string::split_with(char delimiter, std::vector<string>& result)`. -/
def split_with_char (this : string) (delimiter : Nat) (result : List string) :
    Nat × List string :=
  if delimiter == 0 || this.is_empty then (0, result)
  else
    let copy := c_str this.base
    let lead := split_with_char_delimiters delimiter copy result 0
    let out := split_with_char_tokens delimiter copy.length lead.1 lead.2.1 lead.2.2
    (out.2, out.1)

/-- The scan rule of the specification for `split_with`: the source cut into its
maximal delimiter-free runs and its single delimiter characters, in positional
order (adjacent bytes stay together exactly when neither is a delimiter). -/
def scan_rule (isDelim : Nat → Bool) (source : List Nat) : List string :=
  (source.splitBy (fun a b => !isDelim a && !isDelim b)).map (fun t => ⟨false, t⟩)

/-- A one-character token. -/
def single (c : Nat) : string := ⟨false, [c]⟩

end string

/-- Prepend `g` to the first group of a grouping. -/
def consFront {α : Type} (g : List α) : List (List α) → List (List α)
  | [] => []
  | t :: ts => (g ++ t) :: ts

/-- The relation under which adjacent bytes stay in one group: neither satisfies `p`. -/
def sameRun {α : Type} (p : α → Bool) : α → α → Bool := fun a b => !p a && !p b

/-! ## Escaping engine -/

/-- The enumeration `string::escaping`. -/
inductive escaping where
  | undefined
  | json
  | rfc3986
  | url
  | entities
  | regex
deriving DecidableEq

/-- `std::isdigit` in the "C" locale. -/
def isdigit (c : Nat) : Bool := 48 ≤ c && c ≤ 57

/-- `std::isalnum` in the "C" locale. -/
def isalnum (c : Nat) : Bool :=
  (48 ≤ c && c ≤ 57) || (65 ≤ c && c ≤ 90) || (97 ≤ c && c ≤ 122)

/-- `std::tolower` in the "C" locale. -/
def tolower (c : Nat) : Nat := if 65 ≤ c && c ≤ 90 then c + 32 else c

/-- `std::isspace` in the "C" locale. -/
def isspace (c : Nat) : Bool := c == 32 || (9 ≤ c && c ≤ 13)

/-- The digit table `string_escape_url_hex_[]`, "0123456789ABCDEF", at index `k`. -/
def string_escape_url_hex_ (k : Nat) : Nat := (bytes "0123456789ABCDEF").getD k 0

namespace string

/-- `string::append(char value)`: a NUL appended to an empty or null string only clears
the null flag; otherwise the byte is pushed and the flag is left as it is. -/
def append_char (this : string) (value : Nat) : string :=
  if this.is_empty && value == 0 then { this with _null := false }
  else { this with base := this.base ++ [value] }

/-! ### JSON / C-style escapes -/

/-- The static `escaped_length(const string& value)`. The test
`ch <= 0x1F && ch >= 0x00` holds exactly for the bytes 0..31 whether `char` is signed
or not. -/
def escaped_length (value : string) : Nat :=
  value.base.foldl (fun result ch =>
    if ch == 34 || ch == 92 || ch == 8 || ch == 12 || ch == 10 || ch == 13 || ch == 9 then
      result + 2
    else if ch ≤ 0x1F then result + 1 + 5
    else result + 1) 0

/-- The output of `snprintf(p, 6, "u%04X", int(c))` without its terminator, for
`0 <= c <= 0x1F`: the letter u and four upper-case hexadecimal digits. -/
def snprintf_u04X (c : Nat) : List Nat :=
  [117, string_escape_url_hex_ (c / 4096 % 16), string_escape_url_hex_ (c / 256 % 16),
    string_escape_url_hex_ (c / 16 % 16), string_escape_url_hex_ (c % 16)]

/-- Store the bytes `bs` at `buf[i], buf[i+1], ...`. -/
def store (buf : List Nat) (i : Nat) : List Nat → List Nat
  | [] => buf
  | b :: bs => store (buf.set i b) (i + 1) bs

/-- One pass of the `for (const auto& c : value)` loop of `escape_json`, on the buffer
of `result` (its `size` bytes and the terminator slot) and the index `i`. -/
def escape_json_step (st : List Nat × Nat) (c : Nat) : List Nat × Nat :=
  let result := st.1
  let i := st.2
  if c == 34 then (result.set i 34, i + 2)          -- result[i++] = '"'; i++;
  else if c == 92 then (result, i + 2)              -- i += 2;
  else if c == 8 then (result.set i 98, i + 2)      -- result[i++] = 'b'; i++;
  else if c == 12 then (result.set i 102, i + 2)    -- result[i++] = 'f'; i++;
  else if c == 10 then (result.set i 110, i + 2)    -- result[i++] = 'n'; i++;
  else if c == 13 then (result.set i 114, i + 2)    -- result[i++] = 'r'; i++;
  else if c == 9 then (result.set i 116, i + 2)     -- result[i++] = 't'; i++;
  else if c ≤ 0x1F then
    -- snprintf(&result[i + 1], 6, "u%04X", int(c)); i += 6; result[i] = '\\';
    ((store result (i + 1) (snprintf_u04X c ++ [0])).set (i + 6) 92, i + 6)
  else (result.set i c, i + 1)                      -- result[i++] = c;

/-- The static `escape_json(string& value)`. -/
def escape_json (value : string) : string :=
  let n := value.length
  if n == 0 then copy value
  else
    let size := escaped_length value
    if size == n then copy value
    else
      let result := List.replicate size 92 ++ [0]
      ⟨false, (value.base.foldl escape_json_step (result, 0)).1.take size⟩

/-- What `strtoul(buffer, nullptr, base)` returns modulo 2^16 for a buffer of at most
four bytes (no overflow can occur): white space is skipped, a sign is accepted, with
base 16 a `0x` prefix is accepted, then digits are read while they are valid. -/
def strtoul (buffer : List Nat) (base : Nat) : Nat :=
  let digit := fun (c : Nat) =>
    if 48 ≤ c && c ≤ 57 then c - 48
    else if 97 ≤ c && c ≤ 122 then c - 87
    else if 65 ≤ c && c ≤ 90 then c - 55
    else base
  let s := (c_str buffer).dropWhile isspace
  let negative := s.head? == some 45
  let s := if s.head? == some 45 || s.head? == some 43 then s.tail else s
  let s :=
    match s with
    | 48 :: x :: h :: rest =>
      if base == 16 && (x == 120 || x == 88) && digit h < 16 then h :: rest else s
    | _ => s
  let v := (s.takeWhile (fun c => digit c < base)).foldl (fun acc c => acc * base + digit c) 0
  if negative then (65536 - v % 65536) % 65536 else v % 65536

/-- The state of the loop of `unescape_json`: the index `i` into `src` and the bytes
stored so far through `dst` (`j` is their number). -/
structure json_state where
  i : Nat
  dst : List Nat
deriving DecidableEq

/-- The static `parse_octal(src, i, n, dst, j)`; `none` is `return false`. -/
def parse_octal (src : List Nat) (n : Nat) (st : json_state) : Option json_state :=
  if (n : Int) - (st.i : Int) < 2
      || !is_one_of (src.getD st.i 0) (some (bytes "0123567"))
      || !is_one_of (src.getD (st.i + 1) 0) (some (bytes "0123567")) then none
  else
    let buffer := [src.getD st.i 0, src.getD (st.i + 1) 0, 0, 0]
    some ⟨st.i + 2, st.dst ++ [strtoul buffer 8 % 256]⟩

/-- The static `parse_hexadecimal(src, i, n, dst, j)`. -/
def parse_hexadecimal (src : List Nat) (n : Nat) (st : json_state) : Option json_state :=
  if (n : Int) - (st.i : Int) < 2 then none
  else
    let buffer := [src.getD st.i 0, src.getD (st.i + 1) 0, 0, 0]
    some ⟨st.i + 2, st.dst ++ [strtoul buffer 16 % 256]⟩

/-- The static `parse_unicode(src, i, n, dst, j)`: the 16-bit unit is stored through
an `unsigned short*`, low byte first. -/
def parse_unicode (src : List Nat) (n : Nat) (st : json_state) : Option json_state :=
  if (n : Int) - (st.i : Int) < 4 then none
  else
    let buffer :=
      [src.getD st.i 0, src.getD (st.i + 1) 0, src.getD (st.i + 2) 0, src.getD (st.i + 3) 0, 0]
    let unit := strtoul buffer 16 % 65536
    some ⟨st.i + 4, st.dst ++ [unit % 256, unit / 256]⟩

/-- The body of the `for` loop of `unescape_json` at index `st.i < n`, without the
final `++i`; `none` is `return false`. Note `char c2 = src[i++];`: `c2` is read at the
index of `c1`, then `i` moves on. -/
def unescape_json_body (src : List Nat) (n : Nat) (st : json_state) : Option json_state :=
  let c1 := src.getD st.i 0
  if c1 == 92 && st.i + 1 < n then
    let c2 := src.getD st.i 0
    let st : json_state := ⟨st.i + 1, st.dst⟩
    if c2 == 97 then some ⟨st.i, st.dst ++ [0x07]⟩
    else if c2 == 98 then some ⟨st.i, st.dst ++ [0x08]⟩
    else if c2 == 102 then some ⟨st.i, st.dst ++ [0x0C]⟩
    else if c2 == 110 then some ⟨st.i, st.dst ++ [0x0A]⟩
    else if c2 == 114 then some ⟨st.i, st.dst ++ [0x0D]⟩
    else if c2 == 116 then some ⟨st.i, st.dst ++ [0x09]⟩
    else if c2 == 118 then some ⟨st.i, st.dst ++ [0x0B]⟩
    else if c2 == 92 then some ⟨st.i, st.dst ++ [0x5C]⟩
    else if c2 == 39 then some ⟨st.i, st.dst ++ [0x27]⟩
    else if 48 ≤ c2 && c2 ≤ 57 then parse_octal src n st
    else if c2 == 120 then parse_hexadecimal src n st
    else if c2 == 117 then parse_unicode src n st
    else some ⟨st.i, st.dst ++ [c1, c2]⟩
  else some ⟨st.i, st.dst ++ [c1]⟩

/-- The loop `for (size_t i = 0, j = 0; i < n; ++i)` of `unescape_json`. Every pass
increases `i`, so `fuel = n` passes are enough. -/
def unescape_json_loop (src : List Nat) (n : Nat) : Nat → json_state → Option json_state
  | 0, st => some st
  | fuel + 1, st =>
    if st.i < n then
      match unescape_json_body src n st with
      | none => none
      | some st => unescape_json_loop src n fuel ⟨st.i + 1, st.dst⟩
    else some st

/-- What a call `unescape_json(value, result)` leaves behind: the returned flag, the
string `result` as the caller reads it afterwards, and the bytes that were stored
through `dst` into the storage of `result`. -/
structure unescape_json_outcome where
  returned : Bool
  result : string
  stored : List Nat
deriving DecidableEq

/-- The static `unescape_json(string& value, string& result)`.

* `if (n == 0) return string();` converts a default-constructed string to `bool`
  through `operator bool`, that is `to_bool()`, which is `false` for a string whose
  trimmed length is zero.
* `result.clear(); result.reserve(n);` leaves `result` with length zero, and the
  loop stores through `char* dst = &result[0]` only: nothing in the function changes
  the length of `result`, so the caller reads back an empty, non-null string. -/
def unescape_json (value : string) (result : string) : unescape_json_outcome :=
  let n := value.length
  if n == 0 then ⟨false, result, []⟩
  else
    match unescape_json_loop value.base n n ⟨0, []⟩ with
    | none => ⟨false, ⟨false, []⟩, []⟩
    | some st => ⟨true, ⟨false, []⟩, st.dst⟩

/-! ### URL escapes -/

/-- Entry `i` of `string_escape_url_rfc3986_` after `string_escape_url_initialize`. -/
def string_escape_url_rfc3986_ (i : Nat) : Nat :=
  if isalnum i || i == 126 || i == 45 || i == 46 || i == 95 then i else 0

/-- Entry `i` of `string_escape_url_html5_` after `string_escape_url_initialize`. -/
def string_escape_url_html5_ (i : Nat) : Nat :=
  if isalnum i || i == 42 || i == 45 || i == 46 || i == 95 then i
  else if i == 32 then 43 else 0

/-- The static `escape_url_hex(unsigned value, char* result)`: `result[0]` and
`result[1]`. The value is the byte converted to `unsigned`; its two low hexadecimal
digits are those of the byte whether `char` is signed or not. -/
def escape_url_hex (value : Nat) : Nat × Nat :=
  (string_escape_url_hex_ (value % 16), string_escape_url_hex_ ((value / 16) % 16))

/-- The loop of `escape_url` over the C string `s`. The table is indexed with the
plain `char`; where `char` is signed (`charSigned`) a byte above 0x7F is a negative
index, outside the table, and the outcome is undefined (`none`). -/
def escape_url_loop (charSigned : Bool) (table : Nat → Nat) :
    List Nat → List Nat → Option (List Nat)
  | [], result => some result
  | s :: rest, result =>
    if charSigned && 128 ≤ s then none
    else if table s != 0 then escape_url_loop charSigned table rest (result ++ [table s])
    else
      let temp := escape_url_hex s
      escape_url_loop charSigned table rest (result ++ [37, temp.1, temp.2])

/-- The static `escape_url(const char* table, string& value)`. -/
def escape_url (charSigned : Bool) (table : Nat → Nat) (value : string) : Option string :=
  if value.length == 0 then some string.new
  else (escape_url_loop charSigned table (c_str value.base) []).map (fun r => ⟨false, r⟩)

/-- The static `unescape_url_hex(char value)`, as a byte. -/
def unescape_url_hex (value : Nat) : Nat :=
  if isdigit value then value - 48 else (tolower value + 256 - 97 + 10) % 256

/-- The loop of `unescape_url` from index `i`; `src[k]` beyond the end reads the
terminator. Every pass increases `i`. -/
def unescape_url_loop (src : List Nat) : Nat → Nat → List Nat → List Nat
  | 0, _, os => os
  | fuel + 1, i, os =>
    if i < src.length then
      let c := src.getD i 0
      if c == 37 then
        if src.getD (i + 1) 0 != 0 && src.getD (i + 2) 0 != 0 then
          let h := ((unescape_url_hex (src.getD (i + 1) 0) * 16) % 256)
            ||| unescape_url_hex (src.getD (i + 2) 0)
          unescape_url_loop src fuel (i + 2 + 1) (os ++ [h])
        else unescape_url_loop src fuel (i + 1) os
      else if c == 43 then unescape_url_loop src fuel (i + 1) (os ++ [32])
      else unescape_url_loop src fuel (i + 1) (os ++ [c])
    else os

/-- The static `unescape_url(const string& value)`. -/
def unescape_url (value : string) : List Nat :=
  unescape_url_loop value.base value.base.length 0 []

end string

/-! ### HTML / XML entities -/

/-- The table `escape_entities_table_[]` (its 96 names; the entry after them is
`nullptr`). -/
def escape_entities_table_ : List String := [
  "nbsp", "iexcl", "cent", "pound", "curren", "yen", "brvbar", "sect",
  "uml", "copy", "ordf", "laquo", "not", "shy", "reg", "macr",
  "deg", "plusmn", "sup2", "sup3", "acute", "micro", "para", "middot",
  "cedil", "sup1", "ordm", "raquo", "frac14", "frac12", "frac34", "iquest",
  "Agrave", "Aacute", "Acirc", "Atilde", "Auml", "Aring", "AElig", "Ccedil",
  "Egrave", "Eacute", "Ecirc", "Euml", "Igrave", "Iacute", "Icirc", "Iuml",
  "ETH", "Ntilde", "Ograve", "Oacute", "Ocirc", "Otilde", "Ouml", "times",
  "Oslash", "Ugrave", "Uacute", "Ucirc", "Uuml", "Yacute", "THORN", "szlig",
  "agrave", "aacute", "acirc", "atilde", "auml", "aring", "aelig", "ccedil",
  "egrave", "eacute", "ecirc", "euml", "igrave", "iacute", "icirc", "iuml",
  "eth", "ntilde", "ograve", "oacute", "ocirc", "otilde", "ouml", "divide",
  "oslash", "ugrave", "uacute", "ucirc", "uuml", "yacute", "thorn", "yuml"]

/-- The table `string_unescape_entity_names_[]` without its `nullptr` sentinel. -/
def string_unescape_entity_names_ : List (String × Nat) := [
  ("nbsp", 160), ("iexcl", 161), ("cent", 162), ("pound", 163), ("curren", 164),
  ("yen", 165), ("brvbar", 166), ("sect", 167), ("uml", 168), ("copy", 169),
  ("ordf", 170), ("laquo", 171), ("not", 172), ("shy", 173), ("reg", 174),
  ("macr", 175), ("deg", 176), ("plusmn", 177), ("sup2", 178), ("sup3", 179),
  ("acute", 180), ("micro", 181), ("para", 182), ("middot", 183), ("cedil", 184),
  ("sup1", 185), ("ordm", 186), ("raquo", 187), ("frac14", 188), ("frac12", 189),
  ("frac34", 190), ("iquest", 191), ("Agrave", 192), ("Aacute", 193), ("Acirc", 194),
  ("Atilde", 195), ("Auml", 196), ("Aring", 197), ("AElig", 198), ("Ccedil", 199),
  ("Egrave", 200), ("Eacute", 201), ("Ecirc", 202), ("Euml", 203), ("Igrave", 204),
  ("Iacute", 205), ("Icirc", 206), ("Iuml", 207), ("ETH", 208), ("Ntilde", 209),
  ("Ograve", 210), ("Oacute", 211), ("Ocirc", 212), ("Otilde", 213), ("Ouml", 214),
  ("times", 215), ("Oslash", 216), ("Ugrave", 217), ("Uacute", 218), ("Ucirc", 219),
  ("Uuml", 220), ("Yacute", 221), ("THORN", 222), ("szlig", 223), ("agrave", 224),
  ("aacute", 225), ("acirc", 226), ("atilde", 227), ("auml", 228), ("aring", 229),
  ("aelig", 230), ("ccedil", 231), ("egrave", 232), ("eacute", 233), ("ecirc", 234),
  ("euml", 235), ("igrave", 236), ("iacute", 237), ("icirc", 238), ("iuml", 239),
  ("eth", 240), ("ntilde", 241), ("ograve", 242), ("oacute", 243), ("ocirc", 244),
  ("otilde", 245), ("ouml", 246), ("divide", 247), ("oslash", 248), ("ugrave", 249),
  ("uacute", 250), ("ucirc", 251), ("uuml", 252), ("yacute", 253), ("thorn", 254),
  ("yuml", 255), ("fnof", 402), ("Alpha", 913), ("Beta", 914), ("Gamma", 915),
  ("Delta", 916), ("Epsilon", 917), ("Zeta", 918), ("Eta", 919), ("Theta", 920),
  ("Iota", 921), ("Kappa", 922), ("Lambda", 923), ("Mu", 924), ("Nu", 925),
  ("Xi", 926), ("Omicron", 927), ("Pi", 928), ("Rho", 929), ("Sigma", 931),
  ("Tau", 932), ("Upsilon", 933), ("Phi", 934), ("Chi", 935), ("Psi", 936),
  ("Omega", 937), ("alpha", 945), ("beta", 946), ("gamma", 947), ("delta", 948),
  ("epsilon", 949), ("zeta", 950), ("eta", 951), ("theta", 952), ("iota", 953),
  ("kappa", 954), ("lambda", 955), ("mu", 956), ("nu", 957), ("xi", 958),
  ("omicron", 959), ("pi", 960), ("rho", 961), ("sigmaf", 962), ("sigma", 963),
  ("tau", 964), ("upsilon", 965), ("phi", 966), ("chi", 967), ("psi", 968),
  ("omega", 969), ("thetasym", 977), ("upsih", 978), ("piv", 982), ("bull", 8226),
  ("hellip", 8230), ("prime", 8242), ("Prime", 8243), ("oline", 8254), ("frasl", 8260),
  ("weierp", 8472), ("image", 8465), ("real", 8476), ("trade", 8482), ("alefsym", 8501),
  ("larr", 8592), ("uarr", 8593), ("rarr", 8594), ("darr", 8595), ("harr", 8596),
  ("crarr", 8629), ("lArr", 8656), ("uArr", 8657), ("rArr", 8658), ("dArr", 8659),
  ("hArr", 8660), ("forall", 8704), ("part", 8706), ("exist", 8707), ("empty", 8709),
  ("nabla", 8711), ("isin", 8712), ("notin", 8713), ("ni", 8715), ("prod", 8719),
  ("sum", 8721), ("minus", 8722), ("lowast", 8727), ("radic", 8730), ("prop", 8733),
  ("infin", 8734), ("and", 8743), ("or", 8744), ("cap", 8745), ("cup", 8746),
  ("int", 8747), ("there4", 8756), ("sim", 8764), ("cong", 8773), ("asymp", 8776),
  ("ne", 8800), ("equiv", 8801), ("le", 8804), ("ge", 8805), ("sub", 8834),
  ("sup", 8835), ("nsub", 8836), ("sube", 8838), ("supe", 8839), ("oplus", 8853),
  ("otimes", 8855), ("perp", 8869), ("sdot", 8901), ("lceil", 8968), ("rceil", 8969),
  ("lfloor", 8970), ("rfloor", 8971), ("lang", 9001), ("rang", 9002), ("loz", 9674),
  ("spades", 9824), ("clubs", 9827), ("hearts", 9829), ("diams", 9830), ("quot", 34),
  ("amp", 38), ("lt", 60), ("gt", 62), ("OElig", 338), ("oelig", 339),
  ("Scaron", 352), ("scaron", 353), ("Yuml", 376), ("circ", 710), ("tilde", 732),
  ("ensp", 8194), ("emsp", 8195), ("thinsp", 8201), ("zwnj", 8204), ("zwj", 8205),
  ("lrm", 8206), ("rlm", 8207), ("ndash", 8211), ("mdash", 8212), ("lsquo", 8216),
  ("rsquo", 8217), ("sbquo", 8218), ("ldquo", 8220), ("rdquo", 8221), ("bdquo", 8222),
  ("dagger", 8224), ("Dagger", 8225), ("permil", 8240), ("lsaquo", 8249), ("rsaquo", 8250),
  ("euro", 8364)]

namespace string

/-- `vsnprintf(buffer, size, format, ap)` for a format without conversion
specifications (C99 7.19.6.12): at most `size - 1` bytes are stored before the
terminator, and the length of the whole output is returned. -/
def vsnprintf_plain (size : Nat) (format : List Nat) : List Nat × Int :=
  ((c_str format).take (size - 1), ((c_str format).length : Int))

/-- The static `do_format(&buffer, format, ap)` for a format without conversion
specifications: the buffer on success, `none` for `return false`. The first pass
passes `size = strlen(format)` and a second pass is made only when `need > size`. -/
def do_format (format : Option (List Nat)) : Option (List Nat) :=
  match format with
  | none => none
  | some f =>
    let size := (c_str f).length
    let first := vsnprintf_plain size f
    if first.2 < 0 then none
    else if first.2 > (size : Int) then
      let second := vsnprintf_plain (first.2.toNat + 1) f
      if second.2 < 0 then none else some second.1
    else some first.1

/-- `bool string::append(const char* format, ...)` called with a format without
conversion specifications and no further argument. For a call `result.append("...")`
on a non-const `string` this overload is the one selected: it matches the argument
exactly and, unlike `string append(const char*) const`, binds the object without
adding `const`. -/
def append_format (this : string) (format : Option (List Nat)) : string :=
  match do_format format with
  | some buffer => { this with base := this.base ++ c_str buffer }
  | none => this

/-- The `switch` of `escape_entities` for one byte `s` of the C string, applied to
`result`. In the `default` branch the test `*s >= char(0xA0)` and the index
`*s - 0xA0U` depend on whether `char` is signed (`charSigned`): with a signed `char`
the test holds for the bytes below 0x80 and from 0xA0 on, and the index, computed in
`unsigned`, lies outside the table, so the outcome is undefined (`none`). -/
def escape_entities_step (charSigned : Bool) (result : string) (s : Nat) : Option string :=
  if s == 39 then some (append_format result (some (bytes "&apos;")))
  else if s == 34 then some (append_format result (some (bytes "&quot;")))
  else if s == 38 then some (append_format result (some (bytes "&amp;")))
  else if s == 60 then some (append_format result (some (bytes "&lt;")))
  else if s == 62 then some (append_format result (some (bytes "&gt;")))
  else if s == 0x80 then some (append_format result (some (bytes "&euro;")))
  else if s == 0x85 then some (append_format result (some (bytes "&hellip;")))
  else if s == 0x86 then some (append_format result (some (bytes "&dagger;")))
  else if s == 0x87 then some (append_format result (some (bytes "&ddagger;")))
  else if s == 0x89 then some (append_format result (some (bytes "&permil;")))
  else if s == 0x95 then some (append_format result (some (bytes "&bullet")))
  else if s == 0x96 then some (append_format result (some (bytes "&endash;")))
  else if s == 0x97 then some (append_format result (some (bytes "&emdash;")))
  else if s == 0x99 then some (append_format result (some (bytes "&trade;")))
  else if charSigned then
    if s < 0x80 || 0xA0 ≤ s then none else some (append_char result s)
  else if 0xA0 ≤ s then
    let name := (escape_entities_table_.get? (s - 0xA0)).map bytes
    some (append_char (append_format (append_char result 38) name) 59)
  else some (append_char result s)

/-- The loop `for (; *s; ++s)` of `escape_entities`. -/
def escape_entities_loop (charSigned : Bool) : List Nat → string → Option string
  | [], result => some result
  | s :: rest, result =>
    match escape_entities_step charSigned result s with
    | none => none
    | some result => escape_entities_loop charSigned rest result

/-- The static `escape_entities(const string& value)`. -/
def escape_entities (charSigned : Bool) (value : string) : Option string :=
  escape_entities_loop charSigned (c_str value.base) string.new

/-- The states of the parser in `unescape_entities`. -/
inductive state where
  | none
  | begin
  | name
  | number
  | decimal
  | hexadecimal
deriving DecidableEq

/-- The variables of `unescape_entities` that live across loop passes: the state
`ms`, the name `mn`, the code `cc` (an `unsigned`, 32 bits) and the output `os`. -/
structure entity_machine where
  ms : state
  mn : List Nat
  cc : Nat
  os : List Nat
deriving DecidableEq

/-- `string_unescape_entity_map_.find(mn)` after `string_unescape_entity_initialize`. -/
def string_unescape_entity_map_ (mn : List Nat) : Option Nat :=
  (string_unescape_entity_names_.find? (fun e => bytes e.1 == mn)).map (fun e => e.2)

/-- The bytes emitted for the code `cc` when `gc` is set. -/
def put_code (cc : Nat) : List Nat :=
  if cc ≥ 0x800 then
    [(0xE0 ||| ((cc >>> 12) &&& 0x0F)) % 256, (0x80 ||| ((cc >>> 6) &&& 0x3F)) % 256,
      (0x80 ||| (cc &&& 0x3F)) % 256]
  else if cc ≥ 0x80 then
    [(0xC0 ||| ((cc >>> 6) &&& 0x1F)) % 256, (0x80 ||| (cc &&& 0x3F)) % 256]
  else [cc % 256]

/-- The `switch (ms)` of one loop pass on the byte `ch`: the machine afterwards and
the flags `pc` and `gc`. -/
def entity_switch (m : entity_machine) (ch : Nat) : entity_machine × Bool × Bool :=
  let letter := (97 ≤ ch && ch ≤ 122) || (65 ≤ ch && ch ≤ 90)
  let digit := 48 ≤ ch && ch ≤ 57
  match m.ms with
  | state.none => (m, false, false)
  | state.begin =>
    if ch == 35 then ({ m with ms := state.number }, true, false)
    else if letter then ({ m with mn := m.mn ++ [ch], ms := state.name }, true, false)
    else ({ m with os := m.os ++ [38], ms := state.none }, false, false)
  | state.name =>
    let r : entity_machine × Bool × Bool :=
      if letter || digit then ({ m with mn := m.mn ++ [ch] }, true, false)
      else if ch == 59 then
        match string_unescape_entity_map_ m.mn with
        | some v => ({ m with cc := v }, true, true)
        | Option.none => (m, false, false)
      else (m, false, false)
    if !r.2.1 then ({ r.1 with os := r.1.os ++ [38] ++ r.1.mn, ms := state.none }, r.2.1, r.2.2)
    else r
  | state.number =>
    if ch == 120 || ch == 88 then ({ m with ms := state.hexadecimal, cc := 0 }, true, false)
    else if digit then ({ m with cc := ch - 48, ms := state.decimal }, true, false)
    else ({ m with ms := state.none }, false, false)
  | state.decimal =>
    if digit then ({ m with cc := (m.cc * 10 + ch - 48) % 2 ^ 32 }, true, false)
    else if ch == 59 then (m, true, true)
    else ({ m with ms := state.none }, false, false)
  | state.hexadecimal =>
    if digit then ({ m with cc := (m.cc * 16 + ch - 48) % 2 ^ 32 }, true, false)
    else if 97 ≤ ch && ch ≤ 102 then
      ({ m with cc := (m.cc * 16 + ch - 97 + 10) % 2 ^ 32 }, true, false)
    else if 65 ≤ ch && ch ≤ 70 then
      ({ m with cc := (m.cc * 16 + ch - 65 + 10) % 2 ^ 32 }, true, false)
    else if ch == 59 then (m, true, true)
    else ({ m with ms := state.none }, false, false)

/-- One pass of the `for (;;)` loop of `unescape_entities` on the byte `ch`. -/
def entity_step (m : entity_machine) (ch : Nat) : entity_machine :=
  let r := entity_switch m ch
  let m := r.1
  let pc := r.2.1
  let gc := r.2.2
  if gc then { m with os := m.os ++ put_code m.cc, ms := state.none }
  else if !pc && m.ms == state.none then
    if ch == 38 then { m with ms := state.begin, mn := [] }
    else { m with os := m.os ++ [ch] }
  else m

/-- The static `unescape_entities(const string& value)`: the stream reads every byte
of the base string, and what is pending at the end of input is not written. -/
def unescape_entities (value : string) : List Nat :=
  (value.base.foldl entity_step ⟨state.none, [], 0, []⟩).os

/-! ### Regular-expression literals -/

/-- One pass of the loop of `escape_regex`. -/
def escape_regex_step (result : string) (c : Nat) : string :=
  if c == 9 then append_char (append_char result 92) 116
  else if c == 10 then append_char (append_char result 92) 110
  else if c == 13 then append_char (append_char result 92) 114
  else if c == 11 then append_char (append_char result 92) 118
  else if c == 12 then append_char (append_char result 92) 102
  else if (bytes ".^$*+-?()[]" ++ [123, 125, 92, 47]).contains c then
    -- the cases . ^ $ * + - ? ( ) [ ] and the braces, the backslash and the slash
    append_char (append_char result 92) c
  else append_char result c

/-- The static `escape_regex(const string& value)`. -/
def escape_regex (value : string) : string :=
  value.base.foldl escape_regex_step string.new

/-! ### The public operations -/

/-- `string& string::escape(escaping value)`: the receiver afterwards; `none` where
the outcome is undefined. -/
def escape (charSigned : Bool) (this : string) (value : escaping) : Option string :=
  match value with
  | escaping.json => some (assign this (escape_json this))
  | escaping.url => (escape_url charSigned string_escape_url_html5_ this).map (assign this)
  | escaping.rfc3986 => (escape_url charSigned string_escape_url_rfc3986_ this).map (assign this)
  | escaping.entities => (escape_entities charSigned this).map (assign this)
  | escaping.regex => some (assign this (escape_regex this))
  | escaping.undefined => some this

/-- `string& string::unescape(escaping value)`: the receiver afterwards. -/
def unescape (this : string) (value : escaping) : string :=
  match value with
  | escaping.json =>
    let r := unescape_json this string.new
    if !r.returned then this else assign this r.result
  | escaping.rfc3986 => assign_std this (unescape_url this)
  | escaping.url => assign_std this (unescape_url this)
  | escaping.entities => assign_std this (unescape_entities this)
  | escaping.regex => this
  | escaping.undefined => this

end string

/-! ## Classifier, parser and bounded cast -/

/-- The values of a `long double` as far as `parse_cast` distinguishes them. -/
inductive ldouble where
  | nan
  | inf
  | neg_inf
  | finite (v : Rat)
deriving DecidableEq

namespace string

/-- `string::clone()`. -/
def clone (this : string) : string :=
  if this._null then of_c_str none else copy this

/-- `string::non_empty()`. -/
def non_empty (this : string) : Bool := !this._null && this.base.length > 0

/-- The byte `value[0]` read through `std::string::operator[]`: the terminator when
the base string is empty. -/
def front (this : string) : Nat := this.base.getD 0 0

/-- `string& string::trim_left()`. -/
def trim_left (this : string) : string :=
  if this.is_empty then this else { this with base := this.base.dropWhile isspace }

/-- `string& string::trim_right()`. -/
def trim_right (this : string) : string :=
  if this.is_empty then this else { this with base := this.base.rdropWhile isspace }

/-- `string& string::trim()`, in place. -/
def trim_in_place (this : string) : string :=
  if this.is_empty then this else trim_right (trim_left this)

/-- `string string::trim() const`. -/
def trim (this : string) : string :=
  if this.is_empty then clone this else trim_in_place (clone this)

/-- `string& string::to_lower()`, in place. -/
def to_lower_in_place (this : string) : string :=
  if this.is_empty then this else { this with base := this.base.map tolower }

/-- `string string::to_lower() const`. -/
def to_lower (this : string) : string :=
  if this.is_empty then clone this else to_lower_in_place (clone this)

/-- `string::substring(size_t start, size_t count)`; `count = none` is
`std::string::npos`. -/
def substring (this : string) (start : Nat) (count : Option Nat) : string :=
  if this.is_empty then clone this
  else
    let n := this.base.length
    if start ≥ n then of_c_str none
    else
      match count with
      | none => of_std (this.base.drop start)
      | some k =>
        if start + k > n then of_std (this.base.drop start)
        else of_std ((this.base.drop start).take k)

/-- `value = value.substr(pos)` through `std::string::substr` and
`operator=(std::string&&)`, for `pos` within the string. -/
def assign_substr (this : string) (pos : Nat) : string := ⟨false, this.base.drop pos⟩

/-- `string::consists_of(const char* chars)`: the loop runs over the C string. -/
def consists_of (this : string) (chars : Option (List Nat)) : Bool :=
  match chars with
  | none => false
  | some p =>
    if this.is_empty then false
    else (c_str this.base).all (fun c => is_one_of c (some p))

/-- The loop of `string::compare_to(const char* value)` on the two C strings. -/
def compare_to_loop : List Nat → List Nat → Int
  | [], [] => 0
  | _ :: _, [] => 1
  | [], _ :: _ => -1
  | p :: ps, q :: qs => if (p : Int) - q != 0 then (p : Int) - q else compare_to_loop ps qs

/-- `string::compare_to(const char* value)` for bytes below 0x80. -/
def compare_to (this : string) (value : Option (List Nat)) : Int :=
  match value with
  | none => if this._null then 0 else 1
  | some q => if this._null then -1 else compare_to_loop (c_str this.base) (c_str q)

/-- `string::starts_with(const char* value)` with `insensitive = false`. -/
def starts_with (this : string) (value : Option (List Nat)) : Bool :=
  match value with
  | none => this._null
  | some v =>
    let pfx := of_c_str (some v)
    if this.base.length < pfx.length then false
    else
      let substring := of_std (this.base.take pfx.length)
      compare_to substring (some (c_str pfx.base)) == 0

/-- `string::index_of(char value, size_t start)`; `start = none` is the default
argument `std::string::npos`, which is never below the length. -/
def index_of (this : string) (value : Nat) (start : Option Nat) : Int :=
  if this.is_empty then -1
  else
    let n := this.base.length
    match start with
    | none => -1
    | some s =>
      if n == 0 || s ≥ n then -1
      else
        let p := c_str (this.base.drop s)
        if p.contains value then (p.indexOf value : Int) else -1

/-- Comparison `value == "literal"` of the base string with a C string. -/
def eq_literal (this : string) (literal : String) : Bool := this.base == bytes literal

/-- `string::is_decimal_integer()`. -/
def is_decimal_integer (this : string) : Bool :=
  if this._null || this.base.length == 0 then false
  else
    let value := trim this
    if value.length == 0 then false
    else
      let lead := front value
      let value := if lead == 43 || lead == 45 then assign_substr value 1 else value
      is_one_of (front value) (some (bytes "123456789"))
        && consists_of value (some (bytes "0123456789"))

/-- `string::is_signed_decimal_integer()`. -/
def is_signed_decimal_integer (this : string) : Bool :=
  if this._null || this.base.length == 0 then false
  else
    let value := trim this
    if value.length == 0 then false
    else
      let lead := front value
      if lead != 43 && lead != 45 then false
      else
        let value := assign_substr value 1
        is_one_of (front value) (some (bytes "123456789"))
          && consists_of value (some (bytes "0123456789"))

/-- `string::is_unsigned_decimal_integer()`: after the sign test the first byte is
removed with `value = value.substr(1)` here as well. -/
def is_unsigned_decimal_integer (this : string) : Bool :=
  if this._null || this.base.length == 0 then false
  else
    let value := trim this
    if value.length == 0 then false
    else
      let lead := front value
      if lead == 43 || lead == 45 then false
      else
        let value := assign_substr value 1
        is_one_of (front value) (some (bytes "123456789"))
          && consists_of value (some (bytes "0123456789"))

/-- `string::is_hexadecimal_integer()`. -/
def is_hexadecimal_integer (this : string) : Bool :=
  if this._null || this.base.length == 0 then false
  else
    let value := to_lower_in_place (trim this)
    if value.length == 0 then false
    else if !starts_with value (some (bytes "0x")) then false
    else consists_of (substring value 2 none) (some (bytes "0123456789abcdef"))

/-- `string::is_octal_integer()`. -/
def is_octal_integer (this : string) : Bool :=
  if this._null || this.base.length == 0 then false
  else
    let value := trim this
    if this.length == 0 || front value != 48 then false
    else consists_of value (some (bytes "01234567"))

/-- `string::is_binary_integer()`. -/
def is_binary_integer (this : string) : Bool :=
  if this._null || this.base.length == 0 then false
  else
    let value := to_lower_in_place (trim this)
    if value.length == 0 || !starts_with value (some (bytes "0b")) then false
    else consists_of (substring value 2 none) (some (bytes "01"))

/-- `string::is_integer()`. -/
def is_integer (this : string) : Bool :=
  if this._null || this.base.length == 0 then false
  else is_decimal_integer this || is_hexadecimal_integer this || is_octal_integer this
    || is_binary_integer this

/-- `string::is_boolean()`. -/
def is_boolean (this : string) : Bool :=
  if this._null || this.base.length == 0 then false
  else
    let value := to_lower_in_place (trim this)
    eq_literal value "true" || eq_literal value "false" || eq_literal value "1"
      || eq_literal value "0"

/-- `string::is_decimal_float()`. -/
def is_decimal_float (this : string) : Bool :=
  if this._null || this.base.length == 0 then false
  else
    let value := trim this
    if value.length == 0 then false
    else
      let value := to_lower_in_place value
      if eq_literal value "nan" || eq_literal value "qnan" || eq_literal value "snan" then true
      else
        let lead := front value
        let value := if lead == 43 || lead == 45 then substring value 1 none else value
        if eq_literal value "inf" then true
        else
          let dot := index_of value 46 none
          if dot == -1 then false
          else
            let whole := substring value 0 (some dot.toNat)
            if non_empty whole && (!is_one_of (front whole) (some (bytes "123456789"))
                || !consists_of whole (some (bytes "0123456789"))) then false
            else
              let fraction := substring value (dot.toNat + 1) (some (value.length - dot.toNat))
              let exp := index_of fraction 101 none
              let exponent := if exp > -1 then assign_substr fraction (exp.toNat + 1) else string.new
              let fraction := if exp > -1 then substring fraction 0 (some exp.toNat) else fraction
              if !consists_of fraction (some (bytes "0123456789")) then false
              else if non_empty exponent then
                let exponent :=
                  if front exponent == 43 || front exponent == 45 then substring exponent 1 none
                  else exponent
                is_one_of (front exponent) (some (bytes "123456789"))
                  && consists_of exponent (some (bytes "0123456789"))
              else true

/-- `string::is_hexadecimal_float()`. -/
def is_hexadecimal_float (this : string) : Bool :=
  if this._null || this.base.length == 0 then false
  else
    let value := trim this
    if value.length == 0 then false
    else
      let value := to_lower_in_place value
      if eq_literal value "nan" || eq_literal value "qnan" || eq_literal value "snan" then true
      else
        let lead := front value
        let value := if lead == 43 || lead == 45 then substring value 1 none else value
        if eq_literal value "inf" then true
        else if !starts_with value (some (bytes "0x")) then false
        else
          let value := substring value 2 none
          let dot := index_of value 46 none
          if dot == -1 then false
          else
            let whole := substring value 0 (some dot.toNat)
            if non_empty whole && !consists_of whole (some (bytes "0123456789abcdef")) then false
            else
              let fraction := substring value (dot.toNat + 1) (some (value.length - dot.toNat))
              let exp := index_of fraction 112 none
              let exponent := if exp > -1 then assign_substr fraction (exp.toNat + 1) else string.new
              let fraction := if exp > -1 then substring fraction 0 (some exp.toNat) else fraction
              if !consists_of fraction (some (bytes "0123456789abcdef")) then false
              else if non_empty exponent then
                let exponent :=
                  if front exponent == 43 || front exponent == 45 then substring exponent 1 none
                  else exponent
                consists_of exponent (some (bytes "0123456789abcdef"))
              else true

/-- `string::is_float()`. -/
def is_float (this : string) : Bool := is_decimal_float this || is_hexadecimal_float this

/-- `strtoull(start, &end, base)` on the C string `start`: the returned value and
whether the call sets `errno` to `ERANGE`. White space is skipped, a sign is accepted,
with base 16 a `0x` prefix is accepted, digits are read while they are valid; a value
that does not fit in 64 bits gives `ULLONG_MAX` and `ERANGE`. -/
def strtoull (start : List Nat) (base : Nat) : Nat × Bool :=
  let digit := fun (c : Nat) =>
    if 48 ≤ c && c ≤ 57 then c - 48
    else if 97 ≤ c && c ≤ 122 then c - 87
    else if 65 ≤ c && c ≤ 90 then c - 55
    else base
  let s := (c_str start).dropWhile isspace
  let negative := s.head? == some 45
  let s := if s.head? == some 45 || s.head? == some 43 then s.tail else s
  let s :=
    match s with
    | 48 :: x :: h :: rest =>
      if base == 16 && (x == 120 || x == 88) && digit h < 16 then h :: rest else s
    | _ => s
  let v := (s.takeWhile (fun c => digit c < base)).foldl (fun acc c => acc * base + digit c) 0
  if v ≥ 2 ^ 64 then (2 ^ 64 - 1, true)
  else if negative then ((2 ^ 64 - v) % 2 ^ 64, false)
  else (v, false)

/-- `string::parse_integer(unsigned long long& result, bool& negative)`: `none` for
`return false`, otherwise the values stored in `result` and `negative`. `erange` says
whether `errno` is `ERANGE` when the function is entered (it is never reset). -/
def parse_integer (erange : Bool) (this : string) : Option (Nat × Bool) :=
  if this._null || this.base.length == 0 then none
  else
    let str := trim this
    if str.length == 0 then none
    else if is_binary_integer str then
      let str := substring str 2 none
      let r := strtoull str.base 2
      if (r.1 == 2 ^ 64 - 1 || r.1 == 2 ^ 63) && (erange || r.2) then none
      else some (r.1, false)
    else if is_octal_integer str then
      let str := substring str 1 none
      let r := strtoull str.base 8
      if (r.1 == 2 ^ 64 - 1 || r.1 == 0) && (erange || r.2) then none
      else some (r.1, false)
    else if is_decimal_integer str then
      let neg := front str == 45
      let str := if front str == 43 || front str == 45 then substring str 1 none else str
      let r := strtoull str.base 10
      if (r.1 == 2 ^ 64 - 1 || r.1 == 0) && (erange || r.2) then none
      else some (r.1, neg)
    else if is_hexadecimal_integer str then
      let str := substring str 2 none
      let r := strtoull str.base 16
      if (r.1 == 2 ^ 64 - 1 || r.1 == 0) && (erange || r.2) then none
      else some (r.1, false)
    else none

/-- `string::parse_boolean(bool& result)`. -/
def parse_boolean (this : string) : Option Bool :=
  if this._null || this.base.length == 0 then none
  else
    let str := trim this
    if str.length == 0 then none
    else
      let str := to_lower_in_place str
      if eq_literal str "true" || eq_literal str "1" then some true
      else if eq_literal str "false" || eq_literal str "0" then some false
      else none

/-- `string::parse_float(long double& result)`. The platform function `strtold` is a
parameter: for a C string it gives the value and whether it sets `errno` to `ERANGE`. -/
def parse_float (strtold : List Nat → ldouble × Bool) (erange : Bool) (this : string) :
    Option ldouble :=
  if this._null || this.base.length == 0 then none
  else
    let str := trim this
    if str.length == 0 then none
    else
      let str := to_lower_in_place str
      if eq_literal str "nan" || eq_literal str "qnan" || eq_literal str "nan?" then
        some ldouble.nan
      else if eq_literal str "snan" then some ldouble.nan
      else if eq_literal str "inf" || eq_literal str "+inf" then some ldouble.inf
      else if eq_literal str "-inf" then some ldouble.neg_inf
      else if is_decimal_float str || is_hexadecimal_float str then
        let r := strtold (c_str str.base)
        if (r.1 == ldouble.inf || r.1 == ldouble.finite 0) && (erange || r.2) then none
        else some r.1
      else none

end string

/-- An integer type `T` of `parse_cast`: its width and whether it is signed. -/
structure int_type where
  bits : Nat
  is_signed : Bool
deriving DecidableEq

namespace int_type

/-- `std::numeric_limits<T>::min()`. -/
def minimum (T : int_type) : Int := if T.is_signed then -(2 ^ (T.bits - 1) : Int) else 0

/-- `std::numeric_limits<T>::max()`. -/
def maximum (T : int_type) : Int :=
  if T.is_signed then (2 ^ (T.bits - 1) : Int) - 1 else (2 ^ T.bits : Int) - 1

/-- Conversion of an integer to `T` (modulo 2^bits). -/
def convert (T : int_type) (v : Int) : Int :=
  let r := v % (2 ^ T.bits : Int)
  if T.is_signed && r ≥ (2 ^ (T.bits - 1) : Int) then r - (2 ^ T.bits : Int) else r

end int_type

namespace string

/-- The template `parse_cast<T>(value, zero, one, minimum, maximum, nan)` for an
integer type `T`. -/
def parse_cast (strtold : List Nat → ldouble × Bool) (erange : Bool) (T : int_type)
    (value : string) (zero one minimum maximum nan : Int) : Int :=
  if value.is_empty then nan
  else if is_boolean value then
    match parse_boolean value with
    | some boolean => if boolean then one else zero
    | none => nan
  else if is_float value then
    match parse_float strtold erange value with
    | some ldouble.nan => nan
    | some ldouble.inf => maximum
    | some ldouble.neg_inf => minimum
    | some (ldouble.finite real) =>
      if real < (minimum : Rat) then minimum
      else if real > (maximum : Rat) then maximum
      else T.convert (Int.tdiv real.num real.den)
    | none => nan
  else if is_integer value then
    match parse_integer erange value with
    | some (integer, negative) =>
      -- `unsigned long long(maximum)`: the maximum of an integer type is not negative
      if !negative && (integer : Int) > maximum then maximum
      else if negative && (integer : Int) > maximum then minimum
      else if negative then T.convert (-(T.convert integer))
      else T.convert integer
    | none => nan
  else nan

/-- `string::to_byte()`. -/
def to_byte (strtold : List Nat → ldouble × Bool) (erange : Bool) (this : string) : Int :=
  parse_cast strtold erange ⟨8, false⟩ this 0 1 0 0xFF 0

/-- `string::to_short()`. -/
def to_short (strtold : List Nat → ldouble × Bool) (erange : Bool) (this : string) : Int :=
  parse_cast strtold erange ⟨16, true⟩ this 0 1 (-32768) 32767 0

/-- `string::to_ushort()`. -/
def to_ushort (strtold : List Nat → ldouble × Bool) (erange : Bool) (this : string) : Int :=
  parse_cast strtold erange ⟨16, false⟩ this 0 1 0 65535 0

/-- `string::to_int()`. -/
def to_int (strtold : List Nat → ldouble × Bool) (erange : Bool) (this : string) : Int :=
  parse_cast strtold erange ⟨32, true⟩ this 0 1 (-2147483648) 2147483647 0

/-- `string::to_uint()`. -/
def to_uint (strtold : List Nat → ldouble × Bool) (erange : Bool) (this : string) : Int :=
  parse_cast strtold erange ⟨32, false⟩ this 0 1 0 4294967295 0

/-- `string::to_long()`; `long_bits` is the width of `long` (32 or 64). -/
def to_long (strtold : List Nat → ldouble × Bool) (erange : Bool) (long_bits : Nat)
    (this : string) : Int :=
  parse_cast strtold erange ⟨long_bits, true⟩ this 0 1
    (int_type.minimum ⟨long_bits, true⟩) (int_type.maximum ⟨long_bits, true⟩) 0

/-- `string::to_ulong()`. -/
def to_ulong (strtold : List Nat → ldouble × Bool) (erange : Bool) (long_bits : Nat)
    (this : string) : Int :=
  parse_cast strtold erange ⟨long_bits, false⟩ this 0 1 0
    (int_type.maximum ⟨long_bits, false⟩) 0

/-- `string::to_llong()`. -/
def to_llong (strtold : List Nat → ldouble × Bool) (erange : Bool) (this : string) : Int :=
  parse_cast strtold erange ⟨64, true⟩ this 0 1 (-9223372036854775808) 9223372036854775807 0

/-- `string::to_ullong()`. -/
def to_ullong (strtold : List Nat → ldouble × Bool) (erange : Bool) (this : string) : Int :=
  parse_cast strtold erange ⟨64, false⟩ this 0 1 0 18446744073709551615 0

end string

/-! ## Definitions used to state the claims -/

/-- The value of a decimal or hexadecimal digit character (either case). -/
def digit_value (c : Nat) : Nat :=
  if 48 ≤ c && c ≤ 57 then c - 48
  else if 97 ≤ c && c ≤ 102 then c - 87
  else if 65 ≤ c && c ≤ 70 then c - 55
  else 0

/-- Whether `c` is a hexadecimal digit character (either case). -/
def is_hex_digit (c : Nat) : Bool :=
  (48 ≤ c && c ≤ 57) || (97 ≤ c && c ≤ 102) || (65 ≤ c && c ≤ 70)

/-- The number denoted by a numeral, most significant digit first. -/
def numeral_value (base : Nat) (digits : List Nat) : Nat :=
  digits.foldl (fun a c => a * base + digit_value c) 0

/-- Specification of URL unescaping: every `%` is followed by two hexadecimal digits. -/
def url_well_formed : List Nat → Bool
  | [] => true
  | c :: rest =>
    if c == 37 then
      match rest with
      | x :: y :: rest2 => is_hex_digit x && is_hex_digit y && url_well_formed rest2
      | _ => false
    else url_well_formed rest

/-- Specification of URL unescaping: each `%XY` replaced by the byte `16*X+Y`, each
`+` by a space, every other byte unchanged. -/
def url_decoded : List Nat → List Nat
  | [] => []
  | c :: rest =>
    let tail := url_decoded rest
    if c == 37 then
      match rest with
      | x :: y :: rest2 => (16 * digit_value x + digit_value y) :: url_decoded rest2
      | _ => tail
    else if c == 43 then 32 :: tail
    else c :: tail

/-- The bytes that the HTML5 table passes on: alphanumerics, `-`, `.`, `_`, `*`, and the
space (as `+`). -/
def html5_passes (b : Nat) : Bool :=
  isalnum b || b == 45 || b == 46 || b == 95 || b == 42 || b == 32

/-- Specification of the UTF-8 forms of a code point below 0x10000. -/
def utf8_form (n : Nat) : List Nat :=
  if n < 0x80 then [n]
  else if n < 0x800 then [0xC0 ||| (n >>> 6), 0x80 ||| (n &&& 0x3F)]
  else [0xE0 ||| (n >>> 12), 0x80 ||| ((n >>> 6) &&& 0x3F), 0x80 ||| (n &&& 0x3F)]

/-- Specification of `escape(regex)`: whether a character is escaped. -/
def regex_is_escaped (c : Nat) : Bool :=
  c == 9 || c == 10 || c == 13 || c == 11 || c == 12
    || (bytes ".^$*+-?()[]" ++ [123, 125, 92, 47]).contains c

/-- Specification of `escape(regex)`: what is emitted for one character. -/
def regex_escaped_char (c : Nat) : List Nat :=
  if c == 9 then [92, 116]
  else if c == 10 then [92, 110]
  else if c == 13 then [92, 114]
  else if c == 11 then [92, 118]
  else if c == 12 then [92, 102]
  else if regex_is_escaped c then [92, c]
  else [c]

/-- Specification of the decimal integer grammar on a trimmed string: an optional
`+` or `-`, one digit 1-9, then digits 0-9. -/
def decimal_integer_grammar (s : List Nat) : Bool :=
  let body := if s.head? == some 43 || s.head? == some 45 then s.tail else s
  match body with
  | [] => false
  | d :: ds => (49 ≤ d && d ≤ 57) && ds.all (fun c => 48 ≤ c && c ≤ 57)

/-- A string with the white space at both ends removed. -/
def trimmed (s : List Nat) : List Nat := (s.dropWhile isspace).rdropWhile isspace

namespace string

/-- The loop of `unescape_url` written as a scan of the rest of the input. -/
def unescape_url_scan : List Nat → List Nat
  | [] => []
  | c :: rest =>
    let tail := unescape_url_scan rest
    if c == 37 then
      match rest with
      | x :: y :: rest2 =>
        if x != 0 && y != 0 then
          (((unescape_url_hex x * 16) % 256) ||| unescape_url_hex y) :: unescape_url_scan rest2
        else tail
      | _ => tail
    else if c == 43 then 32 :: tail
    else c :: tail

end string

/-! ## Edit distance, hash code and the remaining tokenizer overloads -/

/-- The enumeration `hash_code_part`. -/
inductive hash_code_part where
  | low
  | high
  | both
deriving DecidableEq

/-- The macro `rotl_64(a, n)` on 64-bit values (`_rotl64`, `__builtin_rotateleft64`). -/
def rotl_64 (a n : Nat) : Nat := ((a <<< n) ||| (a >>> (64 - n))) % 2 ^ 64

/-- The static `fmix_64(uint64_t k)`. -/
def fmix_64 (k : Nat) : Nat :=
  let k := k ^^^ (k >>> 33)
  let k := (k * 0xFF51AFD7ED558CCD) % 2 ^ 64
  let k := k ^^^ (k >>> 33)
  let k := (k * 0xC4CEB9FE1A85EC53) % 2 ^ 64
  k ^^^ (k >>> 33)

/-- The byte `data[k]` as a `uint8_t`. -/
def byte_at (data : List Nat) (k : Nat) : Nat := data.getD k 0 % 256

/-- The 64-bit word `block[k]` read from `data` (`const uint64_t*`), low byte first. -/
def block_at (data : List Nat) (k : Nat) : Nat :=
  (List.range 8).foldl (fun w j => w ||| (byte_at data (8 * k + j) <<< (8 * j))) 0

/-- One pass of the block loop of `murmur3_x64_128` on the pair `(h1, h2)`. -/
def murmur3_block (data : List Nat) (h : Nat × Nat) (i : Nat) : Nat × Nat :=
  let c1 := 0x87C37B91114253D5
  let c2 := 0x4CF5AD432745937F
  let k1 := block_at data (i * 2 + 0)
  let k2 := block_at data (i * 2 + 1)
  let k1 := (k1 * c1) % 2 ^ 64
  let k1 := rotl_64 k1 31
  let k1 := (k1 * c2) % 2 ^ 64
  let h1 := h.1 ^^^ k1
  let h1 := rotl_64 h1 27
  let h1 := (h1 + h.2) % 2 ^ 64
  let h1 := (h1 * 5 + 0x52DCE729) % 2 ^ 64
  let k2 := (k2 * c2) % 2 ^ 64
  let k2 := rotl_64 k2 33
  let k2 := (k2 * c1) % 2 ^ 64
  let h2 := h.2 ^^^ k2
  let h2 := rotl_64 h2 31
  let h2 := (h2 + h1) % 2 ^ 64
  let h2 := (h2 * 5 + 0x38495AB5) % 2 ^ 64
  (h1, h2)

/-- The `switch (bytes & 15)` of `murmur3_x64_128` with its fall-through: the statement
of `case c` runs exactly when `bytes & 15` is at least `c`. -/
def murmur3_tail (tail : List Nat) (t : Nat) (h : Nat × Nat) : Nat × Nat :=
  let c1 := 0x87C37B91114253D5
  let c2 := 0x4CF5AD432745937F
  let k2 := 0
  let k2 := if 15 ≤ t then k2 ^^^ (byte_at tail 14 <<< 48) else k2
  let k2 := if 14 ≤ t then k2 ^^^ (byte_at tail 13 <<< 40) else k2
  let k2 := if 13 ≤ t then k2 ^^^ (byte_at tail 12 <<< 32) else k2
  let k2 := if 12 ≤ t then k2 ^^^ (byte_at tail 11 <<< 24) else k2
  let k2 := if 11 ≤ t then k2 ^^^ (byte_at tail 10 <<< 16) else k2
  let k2 := if 10 ≤ t then k2 ^^^ (byte_at tail 9 <<< 8) else k2
  let k2 := if 9 ≤ t then k2 ^^^ (byte_at tail 8 <<< 0) else k2
  let h2 :=
    if 9 ≤ t then h.2 ^^^ ((rotl_64 ((k2 * c2) % 2 ^ 64) 33 * c1) % 2 ^ 64) else h.2
  let k1 := 0
  let k1 := if 8 ≤ t then k1 ^^^ (byte_at tail 7 <<< 56) else k1
  let k1 := if 7 ≤ t then k1 ^^^ (byte_at tail 6 <<< 48) else k1
  let k1 := if 6 ≤ t then k1 ^^^ (byte_at tail 5 <<< 40) else k1
  let k1 := if 5 ≤ t then k1 ^^^ (byte_at tail 4 <<< 32) else k1
  let k1 := if 4 ≤ t then k1 ^^^ (byte_at tail 3 <<< 24) else k1
  let k1 := if 3 ≤ t then k1 ^^^ (byte_at tail 2 <<< 16) else k1
  let k1 := if 2 ≤ t then k1 ^^^ (byte_at tail 1 <<< 8) else k1
  let k1 := if 1 ≤ t then k1 ^^^ (byte_at tail 0 <<< 0) else k1
  let h1 :=
    if 1 ≤ t then h.1 ^^^ ((rotl_64 ((k1 * c1) % 2 ^ 64) 31 * c2) % 2 ^ 64) else h.1
  (h1, h2)

/-- The static `murmur3_x64_128(value, bytes, seed, result)`: `result[0]` and
`result[1]`. -/
def murmur3_x64_128 (value : List Nat) (bytes : Nat) (seed : Nat) : Nat × Nat :=
  let blocks := bytes / 16
  let h := (List.range blocks).foldl (murmur3_block value) (seed % 2 ^ 64, seed % 2 ^ 64)
  let h := murmur3_tail (value.drop (blocks * 16)) (bytes % 16) h
  let h1 := h.1 ^^^ bytes
  let h2 := h.2 ^^^ bytes
  let h1 := (h1 + h2) % 2 ^ 64
  let h2 := (h2 + h1) % 2 ^ 64
  let h1 := fmix_64 h1
  let h2 := fmix_64 h2
  let h1 := (h1 + h2) % 2 ^ 64
  let h2 := (h2 + h1) % 2 ^ 64
  (h1, h2)

/-! ### MurmurHash3 x64 128 as published

The reference algorithm that `hash_code` is compared with: the input is read as 16-byte
blocks of two little-endian 64-bit words, the remaining bytes form the little-endian
words `k1` (the first eight of them) and `k2` (the others), and the two lanes are
finalized with the length. -/

/-- The value of a run of bytes read with the low byte first. -/
def little_endian : List Nat → Nat
  | [] => 0
  | b :: bs => b % 256 + 256 * little_endian bs

/-- The reference mixing of the word `k1` before it enters the lane `h1`. -/
def murmur3_reference_mix1 (k1 : Nat) : Nat :=
  (rotl_64 ((k1 * 0x87C37B91114253D5) % 2 ^ 64) 31 * 0x4CF5AD432745937F) % 2 ^ 64

/-- The reference mixing of the word `k2` before it enters the lane `h2`. -/
def murmur3_reference_mix2 (k2 : Nat) : Nat :=
  (rotl_64 ((k2 * 0x4CF5AD432745937F) % 2 ^ 64) 33 * 0x87C37B91114253D5) % 2 ^ 64

/-- The reference step for one block with the words `k1` and `k2`. -/
def murmur3_reference_round (h : Nat × Nat) (k1 k2 : Nat) : Nat × Nat :=
  let h1 := h.1 ^^^ murmur3_reference_mix1 k1
  let h1 := ((rotl_64 h1 27 + h.2) % 2 ^ 64 * 5 + 0x52DCE729) % 2 ^ 64
  let h2 := h.2 ^^^ murmur3_reference_mix2 k2
  let h2 := ((rotl_64 h2 31 + h1) % 2 ^ 64 * 5 + 0x38495AB5) % 2 ^ 64
  (h1, h2)

/-- The words of `n` successive 16-byte blocks of `data` folded into the state `h` by
`round`. -/
def fold_blocks {σ : Type} (round : σ → Nat → Nat → σ) : Nat → List Nat → σ → σ
  | 0, _, h => h
  | n + 1, data, h =>
    fold_blocks round n (data.drop 16)
      (round h (little_endian (data.take 8)) (little_endian ((data.drop 8).take 8)))

/-- The reference body: `n` blocks taken from the front of `data`. -/
def murmur3_reference_blocks (n : Nat) (data : List Nat) (h : Nat × Nat) : Nat × Nat :=
  fold_blocks murmur3_reference_round n data h

/-- The reference MurmurHash3 x64 128 of `data` started with `h1 = h2 = seed`: the
words `h1` and `h2`. -/
def murmur3_reference (data : List Nat) (seed : Nat) : Nat × Nat :=
  let len := data.length
  let h := murmur3_reference_blocks (len / 16) data (seed % 2 ^ 64, seed % 2 ^ 64)
  let tail := data.drop (16 * (len / 16))
  let h2 :=
    if 9 ≤ tail.length then h.2 ^^^ murmur3_reference_mix2 (little_endian (tail.drop 8))
    else h.2
  let h1 :=
    if 1 ≤ tail.length then h.1 ^^^ murmur3_reference_mix1 (little_endian (tail.take 8))
    else h.1
  let h1 := h1 ^^^ len
  let h2 := h2 ^^^ len
  let h1 := (h1 + h2) % 2 ^ 64
  let h2 := (h2 + h1) % 2 ^ 64
  let h1 := fmix_64 h1
  let h2 := fmix_64 h2
  let h1 := (h1 + h2) % 2 ^ 64
  let h2 := (h2 + h1) % 2 ^ 64
  (h1, h2)

namespace string

/-- `string::hash_code(hash_code_part part, unsigned long long seed)`. -/
def hash_code (this : string) (part : hash_code_part) (seed : Nat) : Nat :=
  if this._null then 0
  else
    let n := this.base.length
    if n == 0 then 2 ^ 64 - 1
    else
      let result := murmur3_x64_128 this.base n seed
      match part with
      | hash_code_part.both => result.1 ^^^ result.2
      | hash_code_part.high => result.2
      | hash_code_part.low => result.1

/-- The entry `delta[i][j]` of the table of `distance`. -/
def delta_at (delta : List (List Nat)) (i j : Nat) : Nat := (delta.getD i []).getD j 0

/-- The assignment `delta[i][j] = v`. -/
def delta_set (delta : List (List Nat)) (i j v : Nat) : List (List Nat) :=
  delta.set i ((delta.getD i []).set j v)

/-- The body of the inner loop of `distance` for the indices `i` and `j`. -/
def distance_cell (pp qq : List Nat) (delta : List (List Nat)) (i j : Nat) :
    List (List Nat) :=
  let p := pp.getD (i - 1) 0
  let q := qq.getD (j - 1) 0
  let cost := min (delta_at delta (i - 1) j + 1)
    (min (delta_at delta i (j - 1) + 1)
      (delta_at delta (i - 1) (j - 1) + (if p == q then 0 else 1)))
  let cost :=
    if i > 2 && j > 2 then
      let t := delta_at delta (i - 2) (j - 2) + 1
      let t := if pp.getD (i - 2) 0 != q then t + 1 else t
      let t := if p != qq.getD (j - 2) 0 then t + 1 else t
      if cost > t then t else cost
    else cost
  delta_set delta i j cost

/-- `string::distance(const std::string& value)`. -/
def distance (this : string) (value : List Nat) : Nat :=
  let m := value.length
  let n := this.length
  if this._null || n == 0 then m
  else if m == 0 then n
  else
    let m := m + 1
    let n := n + 1
    -- delta[i].resize(m); delta[i][0] = i;
    let delta := (List.range n).map (fun i => (List.replicate m 0).set 0 i)
    -- delta[0][i] = i;
    let delta := (List.range m).foldl (fun d i => delta_set d 0 i i) delta
    let delta := (List.range' 1 (n - 1)).foldl
      (fun d i => (List.range' 1 (m - 1)).foldl (fun d j => distance_cell this.base value d i j) d)
      delta
    delta_at delta (n - 1) (m - 1)

/-- `std::vector<string> string::split_with(const char* delimiters, const char* omit)`:
a delimiter string of length one is passed on to the single-character overload, which
takes no omit argument. -/
def split_with_vector (this : string) (delimiters : Option (List Nat))
    (omit_ : Option (List Nat)) : List string :=
  match delimiters with
  | none => []
  | some d =>
    if c_str d == [] then []
    else
      let n := (c_str d).length
      if n == 0 then []
      else if n == 1 then (split_with_char this ((c_str d).getD 0 0) []).2
      else (split_with this (some d) [] omit_).2

/-- Whether `errno` is `ERANGE` after `parse_integer` has run, given whether it was on
entry: only the `strtoull` call of the branch taken can set it. -/
def parse_integer_erange (erange : Bool) (this : string) : Bool :=
  if this._null || this.base.length == 0 then erange
  else
    let str := trim this
    if str.length == 0 then erange
    else if is_binary_integer str then erange || (strtoull (substring str 2 none).base 2).2
    else if is_octal_integer str then erange || (strtoull (substring str 1 none).base 8).2
    else if is_decimal_integer str then
      let str := if front str == 43 || front str == 45 then substring str 1 none else str
      erange || (strtoull str.base 10).2
    else if is_hexadecimal_integer str then
      erange || (strtoull (substring str 2 none).base 16).2
    else erange

end string

/-! ### The bytes written by `escape_json` -/

namespace string

/-- The bytes that one pass of the loop of `escape_json` leaves in the result for the
source byte `c`: the byte it stores, if any, and the backslashes of the initial fill
that it steps over. -/
def escape_json_bytes (c : Nat) : List Nat :=
  if c == 34 then [34, 92]
  else if c == 92 then [92, 92]
  else if c == 8 then [98, 92]
  else if c == 12 then [102, 92]
  else if c == 10 then [110, 92]
  else if c == 13 then [114, 92]
  else if c == 9 then [116, 92]
  else if c ≤ 0x1F then 92 :: snprintf_u04X c
  else [c]

/-- The upper-case hexadecimal digit of the value `k` below 16. -/
def upper_hex (k : Nat) : Nat := if k < 10 then 48 + k else 55 + k

end string

/-! ## Null state, the order of the integer grammars and the entries of the distance table -/

namespace string

/-- `string& string::nullify()`: the receiver afterwards. -/
def nullify (_this : string) : string := ⟨true, []⟩

/-- `string& string::clear()`: the receiver afterwards. -/
def clear (_this : string) : string := ⟨false, []⟩

/-- The four integer grammars that `parse_integer` tells apart. -/
inductive integer_grammar where
  | binary
  | octal
  | decimal
  | hexadecimal
deriving DecidableEq

/-- The classifier that `parse_integer` calls for a grammar. -/
def accepts (g : integer_grammar) (str : string) : Bool :=
  match g with
  | integer_grammar.binary => is_binary_integer str
  | integer_grammar.octal => is_octal_integer str
  | integer_grammar.decimal => is_decimal_integer str
  | integer_grammar.hexadecimal => is_hexadecimal_integer str

/-- The branch of `parse_integer` for a grammar, on the trimmed string `str`. -/
def parse_integer_branch (erange : Bool) (g : integer_grammar) (str : string) :
    Option (Nat × Bool) :=
  match g with
  | integer_grammar.binary =>
    let str := substring str 2 none
    let r := strtoull str.base 2
    if (r.1 == 2 ^ 64 - 1 || r.1 == 2 ^ 63) && (erange || r.2) then none
    else some (r.1, false)
  | integer_grammar.octal =>
    let str := substring str 1 none
    let r := strtoull str.base 8
    if (r.1 == 2 ^ 64 - 1 || r.1 == 0) && (erange || r.2) then none
    else some (r.1, false)
  | integer_grammar.decimal =>
    let neg := front str == 45
    let str := if front str == 43 || front str == 45 then substring str 1 none else str
    let r := strtoull str.base 10
    if (r.1 == 2 ^ 64 - 1 || r.1 == 0) && (erange || r.2) then none
    else some (r.1, neg)
  | integer_grammar.hexadecimal =>
    let str := substring str 2 none
    let r := strtoull str.base 16
    if (r.1 == 2 ^ 64 - 1 || r.1 == 0) && (erange || r.2) then none
    else some (r.1, false)

/-- `parse_integer` with its `if ... else if` chain rearranged to try the grammars in
the given order: the branch of the first grammar of `order` whose classifier accepts
the trimmed string. The source has the order binary, octal, decimal, hexadecimal. -/
def parse_integer_in_order (erange : Bool) (order : List integer_grammar) (this : string) :
    Option (Nat × Bool) :=
  if this._null || this.base.length == 0 then none
  else
    let str := trim this
    if str.length == 0 then none
    else
      match order.find? (fun g => accepts g str) with
      | some g => parse_integer_branch erange g str
      | none => none

/-- The value that the loops of `distance` store in `delta[i][j]`, as a recurrence on
the indices: the first row and column hold the index, and every other entry is the
`cost` computed from the entries above, to the left, diagonally above and, when
`i > 2 && j > 2`, two rows and two columns back. -/
def distance_entry (pp qq : List Nat) : Nat → Nat → Nat
  | 0, j => j
  | i + 1, 0 => i + 1
  | i + 1, j + 1 =>
    let p := pp.getD i 0
    let q := qq.getD j 0
    let cost := min (distance_entry pp qq i (j + 1) + 1)
      (min (distance_entry pp qq (i + 1) j + 1)
        (distance_entry pp qq i j + (if p == q then 0 else 1)))
    if i + 1 > 2 && j + 1 > 2 then
      let t := distance_entry pp qq (i - 1) (j - 1) + 1
      let t := if pp.getD (i - 1) 0 != q then t + 1 else t
      let t := if p != qq.getD (j - 1) 0 then t + 1 else t
      if cost > t then t else cost
    else cost
termination_by i j => i + j
decreasing_by all_goals simp_wf <;> omega

/-- A table of `n` rows of `m` entries. -/
def table_shape (delta : List (List Nat)) (n m : Nat) : Prop :=
  delta.length = n ∧ ∀ r, r < n → (delta.getD r []).length = m

/-- The state of `delta` when the loops of `distance` reach the indices `i` and `j`: the
first row and column, the rows above `i` and the entries of row `i` to the left of `j`
hold their final values. -/
def table_filled (pp qq : List Nat) (delta : List (List Nat)) (i j : Nat) : Prop :=
  table_shape delta (pp.length + 1) (qq.length + 1)
    ∧ ∀ r c, r < pp.length + 1 → c < qq.length + 1 →
        (r = 0 ∨ c = 0 ∨ r < i ∨ (r = i ∧ c < j)) →
        delta_at delta r c = distance_entry pp qq r c

end string

/-! ## The bytes written by `escape_url` and the table reads of `escape_entities` -/

namespace string

/-- The bytes pushed by one pass of the loop of `escape_url` for the byte `s`: the table
entry where it is not 0, else `%` and the two bytes stored by `escape_url_hex`. -/
def escape_url_bytes (table : Nat → Nat) (s : Nat) : List Nat :=
  if table s != 0 then [table s] else [37, (escape_url_hex s).1, (escape_url_hex s).2]

/-- The bytes that the loop of `escape_url` walks: none when `length()` is 0 (an empty or
null receiver, which is returned before the loop), else the C string of the receiver. -/
def escape_url_input (value : string) : List Nat :=
  if value.length == 0 then [] else c_str value.base

/-- Whether the pass of the loop of `escape_entities` on the byte `s` stays inside
`escape_entities_table_`: it does where `char` is unsigned, and where `char` is signed
for the five ASCII cases of the `switch` and for the bytes 0x80 to 0x9F (the other bytes
pass the test `*s >= char(0xA0)` and index the table with `*s - 0xA0U`, out of range). -/
def escape_entities_in_range (charSigned : Bool) (s : Nat) : Bool :=
  !charSigned || s == 39 || s == 34 || s == 38 || s == 60 || s == 62
    || (0x80 ≤ s && s < 0xA0)

end string

/-! ## Auxiliary facts -/

section splitBy

variable {α : Type}

theorem consFront_consFront (g h : List α) (x : List (List α)) :
    consFront g (consFront h x) = consFront (g ++ h) x := by
  cases x <;> simp [consFront]

theorem splitBy_loop_append (r : α → α → Bool) (l : List α) (a : α) (g : List α)
    (gs : List (List α)) :
    List.splitBy.loop r l a g gs = gs.reverse ++ List.splitBy.loop r l a g [] := by
  induction l generalizing a g gs with
  | nil => simp [List.splitBy.loop]
  | cons b l ih =>
    simp only [List.splitBy.loop]
    cases r a b
    · simp only
      rw [ih b [] ((a :: g).reverse :: gs), ih b [] [(a :: g).reverse]]
      simp
    · simp only
      rw [ih b (a :: g) gs]

theorem splitBy_loop_front (r : α → α → Bool) (l : List α) (a : α) (g : List α) :
    List.splitBy.loop r l a g [] = consFront g.reverse (List.splitBy.loop r l a [] []) := by
  induction l generalizing a g with
  | nil => simp [List.splitBy.loop, consFront]
  | cons b l ih =>
    simp only [List.splitBy.loop]
    cases r a b
    · simp only
      rw [splitBy_loop_append r l b [] [(a :: g).reverse],
        splitBy_loop_append r l b [] [[a].reverse]]
      simp [consFront]
    · simp only
      rw [ih b (a :: g), ih b [a], consFront_consFront]
      simp

theorem splitBy_cons_cons_false (r : α → α → Bool) (a b : α) (l : List α) (h : r a b = false) :
    List.splitBy r (a :: b :: l) = [a] :: List.splitBy r (b :: l) := by
  simp only [List.splitBy, List.splitBy.loop, h]
  rw [splitBy_loop_append]
  simp

theorem splitBy_cons_cons_true (r : α → α → Bool) (a b : α) (l : List α) (h : r a b = true) :
    List.splitBy r (a :: b :: l) = consFront [a] (List.splitBy r (b :: l)) := by
  simp only [List.splitBy, List.splitBy.loop, h]
  rw [splitBy_loop_front]
  simp

theorem splitBy_delim_cons (p : α → Bool) (a : α) (l : List α) (ha : p a = true) :
    List.splitBy (sameRun p) (a :: l) = [a] :: List.splitBy (sameRun p) l := by
  cases l with
  | nil => simp [List.splitBy, List.splitBy.loop]
  | cons b l => exact splitBy_cons_cons_false _ a b l (by simp [sameRun, ha])

theorem splitBy_run (p : α → Bool) (run : List α) (a : α) (rest : List α)
    (ha : p a = false) (hrun : ∀ x ∈ run, p x = false)
    (hrest : ∀ d ∈ rest.head?, p d = true) :
    List.splitBy (sameRun p) (a :: (run ++ rest)) = (a :: run) :: List.splitBy (sameRun p) rest := by
  induction run generalizing a with
  | nil =>
    cases rest with
    | nil => simp [List.splitBy, List.splitBy.loop]
    | cons d rest =>
      have hd : p d = true := hrest d (by simp)
      simpa using splitBy_cons_cons_false (sameRun p) a d rest (by simp [sameRun, hd])
  | cons b run ih =>
    have hb : p b = false := hrun b (by simp)
    have := splitBy_cons_cons_true (sameRun p) a b (run ++ rest) (by simp [sameRun, ha, hb])
    rw [List.cons_append, this, ih b hb (fun x hx => hrun x (by simp [hx]))]
    simp [consFront]

theorem splitBy_delims (p : α → Bool) (l : List α) :
    List.splitBy (sameRun p) l
      = (l.takeWhile p).map (fun c => [c]) ++ List.splitBy (sameRun p) (l.dropWhile p) := by
  induction l with
  | nil => simp
  | cons a l ih =>
    by_cases ha : p a = true
    · rw [splitBy_delim_cons p a l ha, ih]
      simp [List.takeWhile_cons, List.dropWhile_cons, ha]
    · simp [List.takeWhile_cons, List.dropWhile_cons, ha]

end splitBy

namespace string

theorem c_str_of_no_nul (l : List Nat) (h : 0 ∉ l) : c_str l = l := by
  unfold c_str
  rw [List.takeWhile_eq_self_iff]
  intro x hx
  have : x ≠ 0 := fun e => h (e ▸ hx)
  simp [this]

theorem c_str_append_nul (l : List Nat) (h : 0 ∉ l) : c_str (l ++ [0]) = l := by
  induction l with
  | nil => simp [c_str]
  | cons a l ih =>
    have ha : a ≠ 0 := fun e => h (by simp [e])
    have hl : 0 ∉ l := fun e => h (by simp [e])
    have := ih hl
    simp only [c_str] at this ⊢
    simp [List.takeWhile_cons, ha, this]

theorem no_nul_c_str (l : List Nat) : 0 ∉ c_str l := by
  intro h
  have := List.mem_takeWhile_imp h
  simp at this

theorem is_one_of_ne_zero (c : Nat) (d : List Nat) (h : is_one_of c (some d) = true) : c ≠ 0 := by
  simp only [is_one_of, List.any_eq_true] at h
  obtain ⟨q, hq, hcq⟩ := h
  have : c = q := by simpa using hcq
  intro e
  exact no_nul_c_str d (by rw [← e, this]; exact hq)

theorem scan_rule_eq (p : Nat → Bool) (s : List Nat) :
    scan_rule p s = (s.splitBy (sameRun p)).map (fun t => ⟨false, t⟩) := rfl

theorem split_with_delimiters_none (d : List Nat) (temp : List Nat) (result : List string)
    (count : Nat) :
    split_with_delimiters (some d) none temp result count
      = (temp.dropWhile (fun c => is_one_of c (some d)),
         result ++ (temp.takeWhile (fun c => is_one_of c (some d))).map single,
         count + (temp.takeWhile (fun c => is_one_of c (some d))).length) := by
  induction temp generalizing result count with
  | nil => simp [split_with_delimiters]
  | cons c temp ih =>
    by_cases hc : is_one_of c (some d) = true
    · have h0 := is_one_of_ne_zero c d hc
      simp only [split_with_delimiters, hc, if_true, Option.isSome_none, Bool.false_and,
        Bool.not_false, List.takeWhile_cons, List.dropWhile_cons]
      rw [ih]
      simp [of_c_str, c_str, List.takeWhile_cons, h0, single]
      omega
    · simp [split_with_delimiters, hc, List.takeWhile_cons, List.dropWhile_cons]

theorem head_dropWhile_not {α : Type} (p : α → Bool) (l : List α) :
    ∀ x ∈ (l.dropWhile p).head?, p x = false := by
  induction l with
  | nil => simp
  | cons a l ih =>
    by_cases ha : p a = true
    · simpa [List.dropWhile_cons, ha] using ih
    · simp [List.dropWhile_cons, ha]

theorem split_with_tokens_none (d : List Nat) (fuel : Nat) (temp : List Nat)
    (result : List string) (count : Nat)
    (hfuel : temp.length ≤ fuel) (hnul : 0 ∉ temp)
    (hhead : ∀ c ∈ temp.head?, is_one_of c (some d) = false) :
    split_with_tokens (some d) none fuel temp result count
      = (result ++ scan_rule (fun c => is_one_of c (some d)) temp,
         count + (scan_rule (fun c => is_one_of c (some d)) temp).length) := by
  induction fuel generalizing temp result count with
  | zero =>
    have : temp = [] := List.length_eq_zero.mp (by omega)
    subst this
    simp [split_with_tokens, scan_rule]
  | succ fuel ih =>
    cases temp with
    | nil => simp [split_with_tokens, scan_rule]
    | cons c temp =>
      have hc : is_one_of c (some d) = false := hhead c (by simp)
      have hc0 : c ≠ 0 := fun e => hnul (by simp [e])
      have ht0 : 0 ∉ temp := fun e => hnul (by simp [e])
      have hsplit : temp = temp.takeWhile (fun x => !is_one_of x (some d))
          ++ temp.dropWhile (fun x => !is_one_of x (some d)) :=
        (List.takeWhile_append_dropWhile _ _).symm
      have hrun : ∀ x ∈ temp.takeWhile (fun x => !is_one_of x (some d)),
          (fun c => is_one_of c (some d)) x = false := by
        intro x hx
        simpa using List.mem_takeWhile_imp hx
      have hrest : ∀ x ∈ (temp.dropWhile (fun x => !is_one_of x (some d))).head?,
          (fun c => is_one_of c (some d)) x = true := by
        intro x hx
        simpa using head_dropWhile_not (fun x => !is_one_of x (some d)) temp x hx
      have hrun0 : 0 ∉ c :: temp.takeWhile (fun x => !is_one_of x (some d)) := by
        intro e
        rcases List.mem_cons.mp e with e | e
        · exact hc0 e.symm
        · exact ht0 (List.takeWhile_subset _ e)
      have hscan : scan_rule (fun c => is_one_of c (some d)) (c :: temp)
          = ⟨false, c :: temp.takeWhile (fun x => !is_one_of x (some d))⟩
            :: scan_rule (fun c => is_one_of c (some d))
                (temp.dropWhile (fun x => !is_one_of x (some d))) := by
        rw [scan_rule_eq, scan_rule_eq]
        conv_lhs => rw [hsplit]
        rw [splitBy_run (fun c => is_one_of c (some d)) _ c _ hc hrun hrest]
        simp
      have hlen := (List.dropWhile_sublist (fun x => !is_one_of x (some d)) (l := temp)).length_le
      have hsub := List.dropWhile_subset (fun x => !is_one_of x (some d)) (l := temp)
      simp only [split_with_tokens]
      rw [hscan]
      simp only [of_c_str, c_str_append_nul _ hrun0]
      generalize temp.dropWhile (fun x => !is_one_of x (some d)) = rest at hrest hlen hsub
      cases rest with
      | nil => simp [scan_rule]
      | cons e rest =>
        have he : is_one_of e (some d) = true := hrest e (by simp)
        have he0 : e ≠ 0 := is_one_of_ne_zero e d he
        have hr0 : 0 ∉ rest := fun h0 => ht0 (hsub (List.mem_cons_of_mem _ h0))
        simp only [Option.isSome_none, Bool.false_and, Bool.not_false, if_true]
        rw [split_with_delimiters_none]
        simp only
        rw [ih]
        · rw [scan_rule_eq _ (e :: rest),
            splitBy_delim_cons (fun c => is_one_of c (some d)) e rest he,
            splitBy_delims (fun c => is_one_of c (some d)) rest]
          simp [scan_rule_eq, c_str, List.takeWhile_cons, he0, single]
          omega
        · have := (List.dropWhile_sublist (fun c => is_one_of c (some d)) (l := rest)).length_le
          simp only [List.length_cons] at hlen hfuel
          omega
        · exact fun h0 => hr0 (List.dropWhile_subset _ h0)
        · exact head_dropWhile_not (fun c => is_one_of c (some d)) rest

theorem is_one_of_single (c delimiter : Nat) (h : delimiter ≠ 0) :
    is_one_of c (some [delimiter, 0]) = (c == delimiter) := by
  simp [is_one_of, c_str, List.takeWhile_cons, h]

theorem split_with_char_delimiters_eq (delimiter : Nat) (h : delimiter ≠ 0) (temp : List Nat)
    (result : List string) (count : Nat) :
    split_with_char_delimiters delimiter temp result count
      = split_with_delimiters (some [delimiter, 0]) none temp result count := by
  induction temp generalizing result count with
  | nil => simp [split_with_char_delimiters, split_with_delimiters]
  | cons c temp ih =>
    simp only [split_with_char_delimiters, split_with_delimiters, is_one_of_single _ _ h]
    by_cases hc : c = delimiter
    · subst hc
      simp [ih]
    · simp [hc]

theorem split_with_char_tokens_eq (delimiter : Nat) (h : delimiter ≠ 0) (fuel : Nat)
    (temp : List Nat) (result : List string) (count : Nat) :
    split_with_char_tokens delimiter fuel temp result count
      = split_with_tokens (some [delimiter, 0]) none fuel temp result count := by
  induction fuel generalizing temp result count with
  | zero => simp [split_with_char_tokens, split_with_tokens]
  | succ fuel ih =>
    cases temp with
    | nil => simp [split_with_char_tokens, split_with_tokens]
    | cons c temp =>
      have hfun : (fun x => !is_one_of x (some [delimiter, 0])) = (fun x => x != delimiter) := by
        funext x
        rw [is_one_of_single _ _ h]
        rfl
      simp only [split_with_char_tokens, split_with_tokens, hfun]
      cases hrest : temp.dropWhile (fun x => x != delimiter) with
      | nil => simp
      | cons e rest =>
        have he : e = delimiter := by
          have := head_dropWhile_not (fun x => x != delimiter) temp e (by simp [hrest])
          simpa using this
        subst he
        simp [ih, split_with_char_delimiters_eq _ h]

/-- The single-character overload is the set overload on the one-element set. -/
theorem split_with_char_eq (this : string) (delimiter : Nat) (h : delimiter ≠ 0)
    (result : List string) :
    split_with_char this delimiter result = split_with this (some [delimiter, 0]) result none := by
  simp [split_with_char, split_with, h, c_str, List.takeWhile_cons,
    split_with_char_delimiters_eq _ h, split_with_char_tokens_eq _ h]

/-- On a source without NUL bytes the set overload appends the tokens of the scan
rule and returns their number. -/
theorem split_with_eq_scan_rule (this : string) (delimiters : List Nat) (result : List string)
    (hne : this.is_empty = false) (hnul : 0 ∉ this.base) (hd : c_str delimiters ≠ []) :
    split_with this (some delimiters) result none
      = ((scan_rule (fun c => is_one_of c (some delimiters)) this.base).length,
         result ++ scan_rule (fun c => is_one_of c (some delimiters)) this.base) := by
  simp only [split_with, hne, beq_iff_eq, hd, Bool.or_false, decide_False, if_false,
    Bool.false_eq_true, c_str_of_no_nul _ hnul]
  rw [split_with_delimiters_none, split_with_tokens_none]
  · rw [scan_rule_eq, scan_rule_eq,
      splitBy_delims (fun c => is_one_of c (some delimiters)) this.base]
    simp [single]
  · exact (List.dropWhile_sublist _).length_le
  · exact fun h0 => hnul (List.dropWhile_subset _ h0)
  · exact head_dropWhile_not _ _

theorem flatten_scan_rule (p : Nat → Bool) (s : List Nat) :
    ((scan_rule p s).map string.base).flatten = s := by
  rw [scan_rule_eq, List.map_map]
  have : (string.base ∘ fun t => (⟨false, t⟩ : string)) = id := rfl
  rw [this, List.map_id, List.flatten_splitBy]

/-- In `unescape_json` the byte `c2` is read where `c1` was read, so inside the
`switch` it is always the backslash: an escape stores one backslash and skips the
byte after it, whatever that byte is. -/
theorem unescape_json_body_eq (src : List Nat) (n : Nat) (st : json_state) :
    unescape_json_body src n st
      = some (if src.getD st.i 0 == 92 && st.i + 1 < n then ⟨st.i + 1, st.dst ++ [92]⟩
              else ⟨st.i, st.dst ++ [src.getD st.i 0]⟩) := by
  unfold unescape_json_body
  generalize src.getD st.i 0 = c1
  by_cases h : (c1 == 92 && decide (st.i + 1 < n)) = true
  · have h1 : c1 = 92 := by
      simp only [Bool.and_eq_true, beq_iff_eq] at h
      exact h.1
    subst h1
    simp only [h, if_true]
    rfl
  · simp only [h, if_false, Bool.false_eq_true]

/-- The loop of `unescape_json` never takes a `return false`. -/
theorem unescape_json_loop_isSome (src : List Nat) (n fuel : Nat) (st : json_state) :
    (unescape_json_loop src n fuel st).isSome = true := by
  induction fuel generalizing st with
  | zero => simp [unescape_json_loop]
  | succ fuel ih =>
    simp only [unescape_json_loop, unescape_json_body_eq]
    split
    · exact ih _
    · rfl

/-- `unescape_json` reports failure only for a string of length zero. -/
theorem unescape_json_returned (value result : string) :
    (unescape_json value result).returned = (value.length != 0) := by
  unfold unescape_json
  by_cases hn : value.length = 0
  · simp [hn]
  · have h := unescape_json_loop_isSome value.base value.length value.length ⟨0, []⟩
    simp only [hn, beq_iff_eq, if_false]
    cases hl : unescape_json_loop value.base value.length value.length ⟨0, []⟩ with
    | none => simp [hl] at h
    | some st => simp [hn]

/-- After `unescape(json)` a receiver of non-zero length is the empty string. -/
theorem unescape_json_receiver (this : string) (h : this.length ≠ 0) :
    unescape this escaping.json = ⟨false, []⟩ := by
  have hr := unescape_json_returned this string.new
  have hres : (unescape_json this string.new).result = ⟨false, []⟩ := by
    unfold unescape_json
    simp only [h, beq_iff_eq, if_false]
    split <;> rfl
  simp [unescape, hr, h, hres, assign]

/-- On a non-null source without NUL bytes both appending `split_with` overloads leave
the given vector in place and append tokens whose concatenation is the source. -/
theorem split_with_appended (this : string) (delimiters : List Nat) (delimiter : Nat)
    (result : List string)
    (hnn : this._null = false) (hnul : 0 ∉ this.base)
    (hd : c_str delimiters ≠ []) (hd1 : delimiter ≠ 0) :
    (∃ tokens, split_with this (some delimiters) result none = (tokens.length, result ++ tokens)
        ∧ (tokens.map string.base).flatten = this.base)
    ∧ (∃ tokens, split_with_char this delimiter result = (tokens.length, result ++ tokens)
        ∧ (tokens.map string.base).flatten = this.base) := by
  by_cases he : this.is_empty = true
  · have hb : this.base = [] := by
      simpa [is_empty, hnn] using he
    constructor
    · exact ⟨[], by simp [split_with, he], by simp [hb]⟩
    · exact ⟨[], by simp [split_with_char, he], by simp [hb]⟩
  · have hne : this.is_empty = false := by simpa using he
    have hd' : c_str [delimiter, 0] ≠ [] := by simp [c_str, List.takeWhile_cons, hd1]
    constructor
    · exact ⟨_, split_with_eq_scan_rule this delimiters result hne hnul hd,
        flatten_scan_rule _ _⟩
    · refine ⟨scan_rule (fun c => is_one_of c (some [delimiter, 0])) this.base, ?_,
        flatten_scan_rule _ _⟩
      rw [split_with_char_eq this delimiter hd1]
      exact split_with_eq_scan_rule this [delimiter, 0] result hne hnul hd'

end string

/-! ## The claims -/

namespace string

/-- C1. JSON round trip on the one-character string consisting of a double quote:
`escape(json)` produces the two bytes quote, backslash, and `unescape(json)` of that
leaves the receiver empty (the bytes it stored are quote, backslash again), so the
round trip does not give back the double quote. -/
theorem json_round_trip_fails_on_quote :
    (∀ charSigned, escape charSigned ⟨false, [34]⟩ escaping.json
        = some ⟨false, [34, 92]⟩)
    ∧ unescape ⟨false, [34, 92]⟩ escaping.json = ⟨false, []⟩
    ∧ (unescape_json ⟨false, [34, 92]⟩ string.new).stored = [34, 92]
    ∧ unescape ⟨false, [34, 92]⟩ escaping.json ≠ ⟨false, [34]⟩ := by
  decide

/-- C2. URL round trip on the one-character string consisting of a space:
`escape(rfc3986)` produces "%02" and `unescape(rfc3986)` of that is the single byte
0x02, not the space. -/
theorem url_round_trip_fails_on_space :
    (∀ charSigned, escape charSigned ⟨false, bytes " "⟩ escaping.rfc3986
        = some ⟨false, bytes "%02"⟩)
    ∧ unescape ⟨false, bytes "%02"⟩ escaping.rfc3986 = ⟨false, [2]⟩
    ∧ unescape ⟨false, bytes "%02"⟩ escaping.rfc3986 ≠ ⟨false, bytes " "⟩ := by
  decide

/-- C3. Entity round trip on the one-character string consisting of an apostrophe:
`escape(entities)` produces "&apos" (the formatting `append` stores one byte less than
its format), `unescape(entities)` of that is empty, and the name table has no entry
"apos", so that even the full reference "&apos;" is returned as it is. -/
theorem entity_round_trip_fails_on_apostrophe :
    (∀ charSigned, escape charSigned ⟨false, [39]⟩ escaping.entities
        = some ⟨false, bytes "&apos"⟩)
    ∧ unescape ⟨false, bytes "&apos"⟩ escaping.entities = ⟨false, []⟩
    ∧ string_unescape_entity_map_ (bytes "apos") = none
    ∧ unescape ⟨false, bytes "&apos;"⟩ escaping.entities = ⟨false, bytes "&apos;"⟩ := by
  decide

/-- C4. `split` on "a,,b,c" with the delimiter set "," appends the four tokens
"a", "", "b", "c" and returns 4: the adjacent delimiter produces an empty token. -/
theorem split_adjacent_delimiters_empty_token :
    split ⟨false, bytes "a,,b,c"⟩ (some (bytes ",")) []
        = (4, [⟨false, bytes "a"⟩, ⟨false, []⟩, ⟨false, bytes "b"⟩, ⟨false, bytes "c"⟩])
    ∧ split_char ⟨false, bytes "a,,b,c"⟩ 44 []
        = (4, [⟨false, bytes "a"⟩, ⟨false, []⟩, ⟨false, bytes "b"⟩, ⟨false, bytes "c"⟩]) := by
  decide

/-- C5, as stated, fails on a source with an embedded NUL: for the three bytes
a, NUL, b and the delimiter set "," the source is one delimiter-free run of three
bytes, while `split_with` appends the single token "a". -/
theorem scan_rule_fails_on_embedded_nul :
    (⟨false, [97, 0, 98]⟩ : string).is_empty = false
    ∧ c_str (bytes ",") ≠ []
    ∧ scan_rule (fun c => is_one_of c (some (bytes ","))) [97, 0, 98] = [⟨false, [97, 0, 98]⟩]
    ∧ split_with ⟨false, [97, 0, 98]⟩ (some (bytes ",")) [] none = (1, [⟨false, [97]⟩])
    ∧ split_with ⟨false, [97, 0, 98]⟩ (some (bytes ",")) [] none
        ≠ ((scan_rule (fun c => is_one_of c (some (bytes ","))) [97, 0, 98]).length,
            scan_rule (fun c => is_one_of c (some (bytes ","))) [97, 0, 98]) := by
  decide

/-- C5, amended. For every non-empty source without NUL bytes and every non-empty
delimiter set, `split_with` without an omit set appends exactly the tokens of the
scan rule (one token per maximal delimiter-free run and one one-character token per
delimiter character, in positional order) and returns their number; the same holds
for the single-character overload with a delimiter other than NUL. -/
theorem split_with_scan_rule (this : string) (delimiters : List Nat) (delimiter : Nat)
    (result : List string)
    (hne : this.is_empty = false) (hnul : 0 ∉ this.base)
    (hd : c_str delimiters ≠ []) (hd1 : delimiter ≠ 0) :
    split_with this (some delimiters) result none
        = ((scan_rule (fun c => is_one_of c (some delimiters)) this.base).length,
           result ++ scan_rule (fun c => is_one_of c (some delimiters)) this.base)
    ∧ split_with_char this delimiter result
        = ((scan_rule (fun c => c == delimiter) this.base).length,
           result ++ scan_rule (fun c => c == delimiter) this.base) := by
  refine ⟨split_with_eq_scan_rule this delimiters result hne hnul hd, ?_⟩
  rw [split_with_char_eq this delimiter hd1,
    split_with_eq_scan_rule this [delimiter, 0] result hne hnul
      (by simp [c_str, List.takeWhile_cons, hd1])]
  have hfun : (fun c => is_one_of c (some [delimiter, 0])) = (fun c => c == delimiter) := by
    funext c
    exact is_one_of_single c delimiter hd1
  rw [hfun]

/-- C5, the example of the specification: ",a,,b," with the delimiter "," yields
",", "a", ",", ",", "b", "," and the count 6, on both overloads. -/
theorem split_with_scan_rule_witness :
    (⟨false, bytes ",a,,b,"⟩ : string).is_empty = false
    ∧ 0 ∉ (⟨false, bytes ",a,,b,"⟩ : string).base
    ∧ c_str (bytes ",") ≠ []
    ∧ (44 : Nat) ≠ 0
    ∧ (split_with ⟨false, bytes ",a,,b,"⟩ (some (bytes ",")) [] none
        = ((scan_rule (fun c => is_one_of c (some (bytes ","))) (bytes ",a,,b,")).length,
           [] ++ scan_rule (fun c => is_one_of c (some (bytes ","))) (bytes ",a,,b,"))
      ∧ split_with_char ⟨false, bytes ",a,,b,"⟩ 44 []
        = ((scan_rule (fun c => c == 44) (bytes ",a,,b,")).length,
           [] ++ scan_rule (fun c => c == 44) (bytes ",a,,b,")))
    ∧ scan_rule (fun c => c == 44) (bytes ",a,,b,")
        = [single 44, ⟨false, bytes "a"⟩, single 44, single 44, ⟨false, bytes "b"⟩, single 44] :=
  ⟨by decide, by decide, by decide, by decide,
    split_with_scan_rule ⟨false, bytes ",a,,b,"⟩ (bytes ",") 44 []
      (by decide) (by decide) (by decide) (by decide),
    by decide⟩

/-- C6. For every non-null source without NUL bytes and every non-empty delimiter
set, `split_with` without an omit set keeps the vector it was given and appends
tokens that concatenate, in order, to the source, and the returned count is their
number; the same holds for the single-character overload with a delimiter other than
NUL. -/
theorem split_with_concat (this : string) (delimiters : List Nat) (delimiter : Nat)
    (result : List string)
    (hnn : this._null = false) (hnul : 0 ∉ this.base)
    (hd : c_str delimiters ≠ []) (hd1 : delimiter ≠ 0) :
    ((split_with this (some delimiters) result none).2.take result.length = result
      ∧ (((split_with this (some delimiters) result none).2.drop result.length).map
            string.base).flatten = this.base
      ∧ (split_with this (some delimiters) result none).1
          = ((split_with this (some delimiters) result none).2.drop result.length).length)
    ∧ ((split_with_char this delimiter result).2.take result.length = result
      ∧ (((split_with_char this delimiter result).2.drop result.length).map
            string.base).flatten = this.base
      ∧ (split_with_char this delimiter result).1
          = ((split_with_char this delimiter result).2.drop result.length).length) := by
  obtain ⟨⟨t1, h1, f1⟩, ⟨t2, h2, f2⟩⟩ :=
    split_with_appended this delimiters delimiter result hnn hnul hd hd1
  rw [h1, h2]
  simp [f1, f2]

/-- C6 on the source "a,,b" with the delimiter ",", appended to a vector that already
holds one string. -/
theorem split_with_concat_witness :
    (⟨false, bytes "a,,b"⟩ : string)._null = false
    ∧ 0 ∉ (⟨false, bytes "a,,b"⟩ : string).base
    ∧ c_str (bytes ",") ≠ []
    ∧ (44 : Nat) ≠ 0
    ∧ (((split_with ⟨false, bytes "a,,b"⟩ (some (bytes ",")) [single 120] none).2.take 1
          = [single 120]
        ∧ (((split_with ⟨false, bytes "a,,b"⟩ (some (bytes ",")) [single 120] none).2.drop
              1).map string.base).flatten = bytes "a,,b"
        ∧ (split_with ⟨false, bytes "a,,b"⟩ (some (bytes ",")) [single 120] none).1
            = ((split_with ⟨false, bytes "a,,b"⟩ (some (bytes ",")) [single 120] none).2.drop
                1).length)
      ∧ ((split_with_char ⟨false, bytes "a,,b"⟩ 44 [single 120]).2.take 1 = [single 120]
        ∧ (((split_with_char ⟨false, bytes "a,,b"⟩ 44 [single 120]).2.drop 1).map
              string.base).flatten = bytes "a,,b"
        ∧ (split_with_char ⟨false, bytes "a,,b"⟩ 44 [single 120]).1
            = ((split_with_char ⟨false, bytes "a,,b"⟩ 44 [single 120]).2.drop 1).length)) :=
  ⟨by decide, by decide, by decide, by decide,
    split_with_concat ⟨false, bytes "a,,b"⟩ (bytes ",") 44 [single 120]
      (by decide) (by decide) (by decide) (by decide)⟩

/-- C7. `escape(json)` of the one-character string consisting of a double quote is
the two bytes double quote, backslash, in that order (not backslash, double quote);
likewise a newline becomes the letter n followed by a backslash. -/
theorem escape_json_quote_reversed :
    ∀ charSigned,
      escape charSigned ⟨false, [34]⟩ escaping.json = some ⟨false, [34, 92]⟩
      ∧ escape charSigned ⟨false, [10]⟩ escaping.json = some ⟨false, [110, 92]⟩
      ∧ escape charSigned ⟨false, [34]⟩ escaping.json ≠ some ⟨false, [92, 34]⟩ := by
  decide

/-- C8. `unescape(json)` of the two-character string backslash, n: the helper
returns true after storing the single byte 0x5C (not 0x0A), and the receiver is left
empty. -/
theorem unescape_json_backslash_n :
    (unescape_json ⟨false, [92, 110]⟩ string.new).returned = true
    ∧ (unescape_json ⟨false, [92, 110]⟩ string.new).stored = [0x5C]
    ∧ unescape ⟨false, [92, 110]⟩ escaping.json = ⟨false, []⟩
    ∧ unescape ⟨false, [92, 110]⟩ escaping.json ≠ ⟨false, [0x0A]⟩ := by
  decide

/-- C9. `unescape(json)` of the three-character string backslash, x, 4 (a truncated
hexadecimal escape): the helper returns true, having stored backslash and 4, and the
receiver does not stay as it was but becomes empty. -/
theorem unescape_json_truncated_escape :
    (unescape_json ⟨false, [92, 120, 52]⟩ string.new).returned = true
    ∧ (unescape_json ⟨false, [92, 120, 52]⟩ string.new).stored = [92, 52]
    ∧ unescape ⟨false, [92, 120, 52]⟩ escaping.json = ⟨false, []⟩
    ∧ unescape ⟨false, [92, 120, 52]⟩ escaping.json ≠ ⟨false, [92, 120, 52]⟩ := by
  decide

/-- C10. `escape(rfc3986)` writes the low hexadecimal digit first: a single space
becomes "%02" (not "%20") and "/" becomes "%F2" (not "%2F"). -/
theorem escape_rfc3986_digits_swapped :
    ∀ charSigned,
      escape charSigned ⟨false, bytes " "⟩ escaping.rfc3986 = some ⟨false, bytes "%02"⟩
      ∧ escape charSigned ⟨false, bytes "/"⟩ escaping.rfc3986 = some ⟨false, bytes "%F2"⟩
      ∧ escape_url_hex 0x20 = (48, 50) := by
  decide

end string

/-! ## Auxiliary facts on the URL forms -/

namespace string

theorem unescape_url_scan_nil : unescape_url_scan [] = [] := rfl

theorem unescape_url_scan_plus (rest : List Nat) :
    unescape_url_scan (43 :: rest) = 32 :: unescape_url_scan rest := by
  rcases rest with _ | ⟨x, _ | ⟨y, r⟩⟩ <;> simp [unescape_url_scan]

theorem unescape_url_scan_other (c : Nat) (rest : List Nat) (h1 : c ≠ 37) (h2 : c ≠ 43) :
    unescape_url_scan (c :: rest) = c :: unescape_url_scan rest := by
  rcases rest with _ | ⟨x, _ | ⟨y, r⟩⟩ <;> simp [unescape_url_scan, h1, h2]

theorem unescape_url_scan_percent_end : unescape_url_scan [37] = [] := by
  simp [unescape_url_scan]

theorem unescape_url_scan_percent_one (x : Nat) :
    unescape_url_scan [37, x] = unescape_url_scan [x] := by
  simp [unescape_url_scan]

theorem unescape_url_scan_percent (x y : Nat) (rest : List Nat) :
    unescape_url_scan (37 :: x :: y :: rest)
      = if x != 0 && y != 0 then
          (((unescape_url_hex x * 16) % 256) ||| unescape_url_hex y) :: unescape_url_scan rest
        else unescape_url_scan (x :: y :: rest) := by
  simp [unescape_url_scan]

theorem getD_append_offset (pre rest : List Nat) (k : Nat) :
    (pre ++ rest).getD (pre.length + k) 0 = rest.getD k 0 := by
  simp [List.getD_eq_getElem?_getD, List.getElem?_append_right]

/-- The loop of `unescape_url`, started at the end of `pre` with enough fuel, appends
the scan of the rest. -/
theorem unescape_url_loop_eq_scan (fuel : Nat) (pre rest os : List Nat)
    (hfuel : rest.length ≤ fuel) :
    unescape_url_loop (pre ++ rest) fuel pre.length os = os ++ unescape_url_scan rest := by
  induction fuel generalizing pre rest os with
  | zero =>
    have : rest = [] := List.length_eq_zero.mp (by omega)
    subst this
    simp [unescape_url_loop, unescape_url_scan]
  | succ fuel ih =>
    cases rest with
    | nil => simp [unescape_url_loop, unescape_url_scan]
    | cons c rest =>
      have hlt : pre.length < (pre ++ c :: rest).length := by simp
      have h0 : (pre ++ c :: rest).getD pre.length 0 = c := by
        simpa using getD_append_offset pre (c :: rest) 0
      have h1 : (pre ++ c :: rest).getD (pre.length + 1) 0 = rest.getD 0 0 := by
        simpa using getD_append_offset pre (c :: rest) 1
      have h2 : (pre ++ c :: rest).getD (pre.length + 2) 0 = rest.getD 1 0 := by
        simpa using getD_append_offset pre (c :: rest) 2
      have hstep : ∀ os2, unescape_url_loop (pre ++ c :: rest) fuel (pre.length + 1) os2
          = os2 ++ unescape_url_scan rest := by
        intro os2
        have := ih (pre ++ [c]) rest os2 (by simpa using hfuel)
        simpa using this
      rw [unescape_url_loop]
      simp only [hlt, if_true, h0, h1, h2]
      by_cases hc : c = 37
      · subst hc
        simp only [beq_self_eq_true, if_true]
        cases rest with
        | nil => simp [hstep, unescape_url_scan_percent_end, unescape_url_scan_nil]
        | cons x rest =>
          cases rest with
          | nil =>
            simp [hstep, unescape_url_scan_percent_one]
          | cons y rest =>
            rw [unescape_url_scan_percent]
            simp only [List.getD_cons_zero, List.getD_cons_succ]
            by_cases hxy : (x != 0 && y != 0) = true
            · simp only [hxy, if_true]
              have := ih (pre ++ [37, x, y]) rest
                (os ++ [((unescape_url_hex x * 16) % 256) ||| unescape_url_hex y])
                (by simp at hfuel ⊢; omega)
              simpa [Nat.add_assoc] using this
            · simp only [hxy, if_false, Bool.false_eq_true]
              exact hstep os
      · by_cases hp : c = 43
        · subst hp
          simp [hstep, unescape_url_scan_plus]
        · simp [hc, hp, hstep, unescape_url_scan_other c rest hc hp]

theorem unescape_url_eq_scan (value : string) :
    unescape_url value = unescape_url_scan value.base := by
  have := unescape_url_loop_eq_scan value.base.length [] value.base [] (le_refl _)
  simpa [unescape_url] using this

theorem lor_nibbles (x y : Nat) (hx : x < 16) (hy : y < 16) :
    ((x * 16) % 256) ||| y = 16 * x + y := by
  interval_cases x <;> interval_cases y <;> rfl

theorem unescape_url_hex_digit (c : Nat) (h : is_hex_digit c = true) :
    unescape_url_hex c = digit_value c ∧ digit_value c < 16 ∧ c ≠ 0 := by
  simp only [is_hex_digit, Bool.or_eq_true, Bool.and_eq_true, decide_eq_true_eq] at h
  simp only [unescape_url_hex, isdigit, tolower, digit_value, Bool.and_eq_true,
    decide_eq_true_eq]
  rcases h with (h | h) | h
  · simp [h]; omega
  · have h3 : ¬ (48 ≤ c ∧ c ≤ 57) := by omega
    have h4 : ¬ (65 ≤ c ∧ c ≤ 90) := by omega
    simp [h3, h4, h]; omega
  · have h3 : ¬ (48 ≤ c ∧ c ≤ 57) := by omega
    have h4 : (65 ≤ c ∧ c ≤ 90) := by omega
    have h5 : ¬ (97 ≤ c ∧ c ≤ 102) := by omega
    simp [h3, h4, h5, h]; omega

theorem url_decoded_plus (rest : List Nat) :
    url_decoded (43 :: rest) = 32 :: url_decoded rest := by
  rcases rest with _ | ⟨x, _ | ⟨y, r⟩⟩ <;> simp [url_decoded]

theorem url_decoded_other (c : Nat) (rest : List Nat) (h1 : c ≠ 37) (h2 : c ≠ 43) :
    url_decoded (c :: rest) = c :: url_decoded rest := by
  rcases rest with _ | ⟨x, _ | ⟨y, r⟩⟩ <;> simp [url_decoded, h1, h2]

theorem url_decoded_percent (x y : Nat) (rest : List Nat) :
    url_decoded (37 :: x :: y :: rest)
      = (16 * digit_value x + digit_value y) :: url_decoded rest := by
  simp [url_decoded]

theorem url_well_formed_other (c : Nat) (rest : List Nat) (h1 : c ≠ 37) :
    url_well_formed (c :: rest) = url_well_formed rest := by
  rcases rest with _ | ⟨x, _ | ⟨y, r⟩⟩ <;> simp [url_well_formed, h1]

theorem url_well_formed_percent (rest : List Nat) (h : url_well_formed (37 :: rest) = true) :
    ∃ x y rest2, rest = x :: y :: rest2 ∧ is_hex_digit x = true ∧ is_hex_digit y = true
      ∧ url_well_formed rest2 = true := by
  rcases rest with _ | ⟨x, _ | ⟨y, r⟩⟩
  · simp [url_well_formed] at h
  · simp [url_well_formed] at h
  · simp only [url_well_formed, beq_self_eq_true, if_true, Bool.and_eq_true] at h
    exact ⟨x, y, r, rfl, h.1.1, h.1.2, h.2⟩

/-- A well-formed prefix is decoded as specified, whatever follows it. -/
theorem unescape_url_scan_append (n : Nat) (pre suffix : List Nat) (hn : pre.length ≤ n)
    (h : url_well_formed pre = true) :
    unescape_url_scan (pre ++ suffix) = url_decoded pre ++ unescape_url_scan suffix := by
  induction n generalizing pre with
  | zero =>
    have : pre = [] := List.length_eq_zero.mp (by omega)
    subst this
    simp [url_decoded]
  | succ n ih =>
    cases pre with
    | nil => simp [url_decoded]
    | cons c rest =>
      by_cases hc : c = 37
      · subst hc
        obtain ⟨x, y, rest2, hrest, hx, hy, hwf⟩ := url_well_formed_percent rest h
        subst hrest
        have hx3 := unescape_url_hex_digit x hx
        have hy3 := unescape_url_hex_digit y hy
        have hxy : (x != 0 && y != 0) = true := by simp [hx3.2.2, hy3.2.2]
        simp only [List.cons_append]
        rw [unescape_url_scan_percent, url_decoded_percent]
        simp only [hxy, if_true]
        rw [ih rest2 (by simp at hn; omega) hwf, hx3.1, hy3.1,
          lor_nibbles _ _ hx3.2.1 hy3.2.1]
        simp
      · have hwf : url_well_formed rest = true := by
          rw [← url_well_formed_other c rest hc]; exact h
        have hlen : rest.length ≤ n := by simp at hn; omega
        by_cases hp : c = 43
        · subst hp
          simp only [List.cons_append]
          rw [unescape_url_scan_plus, url_decoded_plus, ih rest hlen hwf]
          simp
        · simp only [List.cons_append]
          rw [unescape_url_scan_other c _ hc hp, url_decoded_other c _ hc hp, ih rest hlen hwf]
          simp

theorem unescape_url_scan_truncated (t : List Nat) (ht : t.length < 2) :
    unescape_url_scan (37 :: t) = unescape_url_scan t := by
  rcases t with _ | ⟨x, _ | ⟨y, r⟩⟩
  · simp [unescape_url_scan]
  · simp [unescape_url_scan]
  · simp only [List.length_cons] at ht
    omega

end string

/-! ## Auxiliary facts on the other escapes -/

namespace string

theorem isalnum_lt (b : Nat) (h : isalnum b = true) : b < 128 ∧ b ≠ 0 := by
  simp only [isalnum, Bool.or_eq_true, Bool.and_eq_true, decide_eq_true_eq] at h
  omega

theorem html5_passes_facts (b : Nat) (h : html5_passes b = true) :
    b < 128 ∧ b ≠ 0 ∧ string_escape_url_html5_ b = (if b == 32 then 43 else b) := by
  simp only [html5_passes, Bool.or_eq_true, beq_iff_eq] at h
  by_cases h32 : b = 32
  · subst h32
    decide
  · have hsafe : (isalnum b || b == 42 || b == 45 || b == 46 || b == 95) = true := by
      simp only [Bool.or_eq_true, beq_iff_eq]
      tauto
    have hb : b < 128 ∧ b ≠ 0 := by
      rcases h with ((((h | h) | h) | h) | h) | h
      · exact isalnum_lt b h
      all_goals omega
    refine ⟨hb.1, hb.2, ?_⟩
    simp only [string_escape_url_html5_, hsafe, if_true]
    simp [h32]

theorem escape_url_loop_html5 (charSigned : Bool) (s result : List Nat)
    (h : ∀ b ∈ s, html5_passes b = true) :
    escape_url_loop charSigned string_escape_url_html5_ s result
      = some (result ++ s.map (fun b => if b == 32 then 43 else b)) := by
  induction s generalizing result with
  | nil => simp [escape_url_loop]
  | cons b s ih =>
    obtain ⟨hlt, hne, htab⟩ := html5_passes_facts b (h b (by simp))
    have hnz : (if b == 32 then 43 else b) ≠ 0 := by
      by_cases h32 : b = 32 <;> simp [h32, hne]
    have hsig : (charSigned && decide (128 ≤ b)) = false := by
      have : ¬ 128 ≤ b := by omega
      simp [this]
    rw [escape_url_loop]
    simp only [hsig, Bool.false_eq_true, if_false, htab]
    have : ((if b == 32 then 43 else b) != 0) = true := by simpa using hnz
    simp only [this, if_true]
    rw [ih _ (fun x hx => h x (by simp [hx]))]
    simp

theorem escape_url_loop_bytes (charSigned : Bool) (table : Nat → Nat) (s result : List Nat)
    (h : charSigned = true → ∀ b ∈ s, b < 128) :
    escape_url_loop charSigned table s result
      = some (result ++ s.flatMap (escape_url_bytes table)) := by
  induction s generalizing result with
  | nil => simp [escape_url_loop]
  | cons b s ih =>
    have hsig : (charSigned && decide (128 ≤ b)) = false := by
      cases charSigned with
      | false => rfl
      | true =>
        have : b < 128 := h rfl b (by simp)
        simp [this]
    have htail : charSigned = true → ∀ x ∈ s, x < 128 :=
      fun hc x hx => h hc x (by simp [hx])
    rw [escape_url_loop]
    simp only [hsig, Bool.false_eq_true, if_false, List.flatMap_cons]
    by_cases ht : (table b != 0) = true
    · simp only [ht, if_true]
      rw [ih _ htail]
      simp [escape_url_bytes, ht]
    · simp only [ht, Bool.false_eq_true, if_false]
      rw [ih _ htail]
      simp [escape_url_bytes, ht]

theorem escape_url_eq_bytes (charSigned : Bool) (table : Nat → Nat) (this : string)
    (h : charSigned = true → ∀ b ∈ escape_url_input this, b < 128) :
    (escape_url charSigned table this).map (assign this)
      = some ⟨false, (escape_url_input this).flatMap (escape_url_bytes table)⟩ := by
  unfold escape_url
  unfold escape_url_input at h ⊢
  by_cases hl : (this.length == 0) = true
  · simp only [hl, if_true]
    rfl
  · simp only [hl, if_false, Bool.false_eq_true] at h ⊢
    rw [escape_url_loop_bytes charSigned table _ [] h]
    rfl

theorem html5_fails_entry (b : Nat) (h : html5_passes b = false) :
    string_escape_url_html5_ b = 0 := by
  simp only [html5_passes, Bool.or_eq_false_iff, beq_eq_false_iff_ne, ne_eq] at h
  obtain ⟨⟨⟨⟨⟨h1, h2⟩, h3⟩, h4⟩, h5⟩, h6⟩ := h
  simp [string_escape_url_html5_, h1, h2, h3, h4, h5, h6]

theorem escape_regex_loop (l acc : List Nat) (h : acc ≠ [] ∨ l.head? ≠ some 0) :
    l.foldl escape_regex_step ⟨false, acc⟩ = ⟨false, acc ++ l.flatMap regex_escaped_char⟩ := by
  induction l generalizing acc with
  | nil => simp
  | cons c l ih =>
    have hpush : ∀ (a : List Nat) (v : Nat), (a ≠ [] ∨ v ≠ 0) →
        append_char ⟨false, a⟩ v = ⟨false, a ++ [v]⟩ := by
      intro a v hav
      unfold append_char is_empty
      rcases hav with ha | hv
      · have : a.length ≠ 0 := fun e => ha (List.length_eq_zero.mp e)
        simp [this]
      · simp [hv]
    have hc : acc ≠ [] ∨ c ≠ 0 := by
      rcases h with h | h
      · exact Or.inl h
      · right
        intro e
        exact h (by simp [e])
    have hstep : escape_regex_step ⟨false, acc⟩ c = ⟨false, acc ++ regex_escaped_char c⟩ := by
      by_cases h9 : c = 9
      · subst h9; simp [escape_regex_step, regex_escaped_char, hpush]
      by_cases h10 : c = 10
      · subst h10; simp [escape_regex_step, regex_escaped_char, hpush]
      by_cases h13 : c = 13
      · subst h13; simp [escape_regex_step, regex_escaped_char, hpush]
      by_cases h11 : c = 11
      · subst h11; simp [escape_regex_step, regex_escaped_char, hpush]
      by_cases h12 : c = 12
      · subst h12; simp [escape_regex_step, regex_escaped_char, hpush]
      have hesc : regex_is_escaped c
          = (bytes ".^$*+-?()[]" ++ [123, 125, 92, 47]).contains c := by
        simp [regex_is_escaped, h9, h10, h13, h11, h12]
      unfold escape_regex_step regex_escaped_char
      rw [hesc]
      simp only [h9, h10, h13, h11, h12, beq_iff_eq, if_false]
      by_cases hm : (bytes ".^$*+-?()[]" ++ [123, 125, 92, 47]).contains c = true
      · simp only [hm, if_true]
        rw [hpush acc 92 (Or.inr (by decide)), hpush (acc ++ [92]) c (Or.inl (by simp))]
        simp
      · simp only [hm, if_false, Bool.false_eq_true]
        rw [hpush acc c hc]
    simp only [List.foldl_cons, hstep, List.flatMap_cons]
    rw [ih]
    · simp
    · left
      unfold regex_escaped_char
      intro e
      have := congrArg List.length e
      simp only [List.length_append, List.length_nil] at this
      split at this <;> (try split at this) <;> (try split at this) <;> (try split at this)
        <;> (try split at this) <;> (try split at this) <;> simp at this

theorem length_flatMap_regex (l : List Nat) :
    (l.flatMap regex_escaped_char).length = l.length + l.countP regex_is_escaped := by
  induction l with
  | nil => simp
  | cons c l ih =>
    have hc : (regex_escaped_char c).length = 1 + (if regex_is_escaped c then 1 else 0) := by
      unfold regex_escaped_char
      by_cases h9 : c = 9
      · subst h9; decide
      by_cases h10 : c = 10
      · subst h10; decide
      by_cases h13 : c = 13
      · subst h13; decide
      by_cases h11 : c = 11
      · subst h11; decide
      by_cases h12 : c = 12
      · subst h12; decide
      simp only [h9, h10, h13, h11, h12, beq_iff_eq, if_false]
      split <;> simp
    simp only [List.flatMap_cons, List.length_append, hc, ih, List.length_cons, List.countP_cons]
    split <;> omega

end string

/-! ## Auxiliary facts on entity references -/

namespace string

theorem numeral_foldl_ge (base : Nat) (ds : List Nat) (a : Nat) (hb : 1 ≤ base) :
    a ≤ ds.foldl (fun a c => a * base + digit_value c) a := by
  induction ds generalizing a with
  | nil => simp
  | cons d ds ih =>
    simp only [List.foldl_cons]
    have h1 : a ≤ a * base + digit_value d := by nlinarith
    exact le_trans h1 (ih _)

theorem digit_value_decimal (c : Nat) (h : isdigit c = true) :
    digit_value c = c - 48 ∧ 48 ≤ c ∧ c ≤ 57 := by
  simp only [isdigit, Bool.and_eq_true, decide_eq_true_eq] at h
  simp [digit_value, h]

theorem entity_step_decimal (mn os : List Nat) (cc c : Nat) (h : isdigit c = true)
    (hlt : cc * 10 + digit_value c < 2 ^ 32) :
    entity_step ⟨state.decimal, mn, cc, os⟩ c
      = ⟨state.decimal, mn, cc * 10 + digit_value c, os⟩ := by
  obtain ⟨hv, h1, h2⟩ := digit_value_decimal c h
  have hval : (cc * 10 + c - 48) % 4294967296 = cc * 10 + digit_value c := by
    have : cc * 10 + c - 48 = cc * 10 + digit_value c := by omega
    rw [this, Nat.mod_eq_of_lt (by simpa using hlt)]
  simp [entity_step, entity_switch, h1, h2, hval]

theorem entity_run_decimal (ds : List Nat) (mn os : List Nat) (cc : Nat)
    (h : ∀ c ∈ ds, isdigit c = true)
    (hlt : ds.foldl (fun a c => a * 10 + digit_value c) cc < 2 ^ 32) :
    ds.foldl entity_step ⟨state.decimal, mn, cc, os⟩
      = ⟨state.decimal, mn, ds.foldl (fun a c => a * 10 + digit_value c) cc, os⟩ := by
  induction ds generalizing cc with
  | nil => simp
  | cons d ds ih =>
    simp only [List.foldl_cons] at hlt ⊢
    have hge := numeral_foldl_ge 10 ds (cc * 10 + digit_value d) (by decide)
    rw [entity_step_decimal mn os cc d (h d (by simp)) (by omega)]
    exact ih _ (fun c hc => h c (by simp [hc])) hlt

theorem entity_step_hexadecimal (mn os : List Nat) (cc c : Nat) (h : is_hex_digit c = true)
    (hlt : cc * 16 + digit_value c < 2 ^ 32) :
    entity_step ⟨state.hexadecimal, mn, cc, os⟩ c
      = ⟨state.hexadecimal, mn, cc * 16 + digit_value c, os⟩ := by
  simp only [is_hex_digit, Bool.or_eq_true, Bool.and_eq_true, decide_eq_true_eq] at h
  rcases h with (h | h) | h
  · have hv : digit_value c = c - 48 := by simp [digit_value, h]
    have hval : (cc * 16 + c - 48) % 4294967296 = cc * 16 + digit_value c := by
      have : cc * 16 + c - 48 = cc * 16 + digit_value c := by omega
      rw [this, Nat.mod_eq_of_lt (by simpa using hlt)]
    simp [entity_step, entity_switch, h, hval]
  · have h3 : ¬ (48 ≤ c ∧ c ≤ 57) := by omega
    have hv : digit_value c = c - 87 := by simp [digit_value, h3, h]
    have hval : (cc * 16 + c - 97 + 10) % 4294967296 = cc * 16 + digit_value c := by
      have : cc * 16 + c - 97 + 10 = cc * 16 + digit_value c := by omega
      rw [this, Nat.mod_eq_of_lt (by simpa using hlt)]
    simp [entity_step, entity_switch, h3, h, hval]
  · have h3 : ¬ (48 ≤ c ∧ c ≤ 57) := by omega
    have h4 : ¬ (97 ≤ c ∧ c ≤ 102) := by omega
    have hv : digit_value c = c - 55 := by simp [digit_value, h3, h4, h]
    have hval : (cc * 16 + c - 65 + 10) % 4294967296 = cc * 16 + digit_value c := by
      have : cc * 16 + c - 65 + 10 = cc * 16 + digit_value c := by omega
      rw [this, Nat.mod_eq_of_lt (by simpa using hlt)]
    simp [entity_step, entity_switch, h3, h4, h, hval]

theorem entity_run_hexadecimal (hs : List Nat) (mn os : List Nat) (cc : Nat)
    (h : ∀ c ∈ hs, is_hex_digit c = true)
    (hlt : hs.foldl (fun a c => a * 16 + digit_value c) cc < 2 ^ 32) :
    hs.foldl entity_step ⟨state.hexadecimal, mn, cc, os⟩
      = ⟨state.hexadecimal, mn, hs.foldl (fun a c => a * 16 + digit_value c) cc, os⟩ := by
  induction hs generalizing cc with
  | nil => simp
  | cons d hs ih =>
    simp only [List.foldl_cons] at hlt ⊢
    have hge := numeral_foldl_ge 16 hs (cc * 16 + digit_value d) (by decide)
    rw [entity_step_hexadecimal mn os cc d (h d (by simp)) (by omega)]
    exact ih _ (fun c hc => h c (by simp [hc])) hlt

theorem and_mask (x k : Nat) : x &&& (2 ^ k - 1) = x % 2 ^ k :=
  Nat.and_pow_two_sub_one_eq_mod x k

theorem lor_lt_256 (a b : Nat) (ha : a < 256) (hb : b < 256) : (a ||| b) % 256 = a ||| b := by
  apply Nat.mod_eq_of_lt
  exact Nat.or_lt_two_pow (n := 8) ha hb

/-- Below 0x10000 the bytes written for a code are the specified UTF-8 form. -/
theorem put_code_eq_utf8_form (n : Nat) (h : n < 0x10000) : put_code n = utf8_form n := by
  have h6 : (n &&& 0x3F) < 256 := lt_of_le_of_lt Nat.and_le_right (by decide)
  have h6' : ((n >>> 6) &&& 0x3F) < 256 := lt_of_le_of_lt Nat.and_le_right (by decide)
  unfold put_code utf8_form
  by_cases h1 : n < 0x80
  · have : ¬ n ≥ 0x800 := by omega
    have h2 : ¬ n ≥ 0x80 := by omega
    simp only [this, h2, h1, if_false, if_true]
    rw [Nat.mod_eq_of_lt (by omega)]
  · by_cases h2 : n < 0x800
    · have h3 : ¬ n ≥ 0x800 := by omega
      have h4 : n ≥ 0x80 := by omega
      have h5 : n >>> 6 < 32 := by
        rw [Nat.shiftRight_eq_div_pow]; omega
      have hm : (n >>> 6) &&& 0x1F = n >>> 6 := by
        have := and_mask (n >>> 6) 5
        simp only [Nat.reducePow, Nat.add_one_sub_one] at this
        rw [this, Nat.mod_eq_of_lt h5]
      simp only [h3, h4, h1, h2, if_false, if_true, hm]
      rw [lor_lt_256 _ _ (by decide) (by omega), lor_lt_256 _ _ (by decide) h6]
    · have h3 : n ≥ 0x800 := by omega
      have h5 : n >>> 12 < 16 := by
        rw [Nat.shiftRight_eq_div_pow]; omega
      have hm : (n >>> 12) &&& 0x0F = n >>> 12 := by
        have := and_mask (n >>> 12) 4
        simp only [Nat.reducePow, Nat.add_one_sub_one] at this
        rw [this, Nat.mod_eq_of_lt h5]
      simp only [h3, h1, h2, if_false, if_true, hm]
      rw [lor_lt_256 _ _ (by decide) (by omega), lor_lt_256 _ _ (by decide) h6',
        lor_lt_256 _ _ (by decide) h6]

/-- A decimal reference whose numeral denotes a value below 2^32 writes the bytes of
that code. -/
theorem unescape_entities_decimal (b : Bool) (ds : List Nat) (hne : ds ≠ [])
    (hd : ∀ c ∈ ds, isdigit c = true) (hlt : numeral_value 10 ds < 2 ^ 32) :
    unescape_entities ⟨b, [38, 35] ++ ds ++ [59]⟩ = put_code (numeral_value 10 ds) := by
  cases ds with
  | nil => exact absurd rfl hne
  | cons d ds =>
    obtain ⟨hv, h1, h2⟩ := digit_value_decimal d (hd d (by simp))
    have hfirst : entity_step (entity_step (entity_step ⟨state.none, [], 0, []⟩ 38) 35) d
        = ⟨state.decimal, [], digit_value d, []⟩ := by
      have hx : ¬ (d = 120 ∨ d = 88) := by omega
      simp [entity_step, entity_switch, h1, h2, hv, hx]
    have hval : numeral_value 10 (d :: ds)
        = ds.foldl (fun a c => a * 10 + digit_value c) (digit_value d) := by
      simp [numeral_value]
    rw [hval] at hlt ⊢
    simp only [unescape_entities, List.cons_append, List.nil_append, List.foldl_cons,
      List.foldl_append, List.foldl_nil]
    rw [hfirst, entity_run_decimal ds [] [] _ (fun c hc => hd c (by simp [hc])) hlt]
    simp [entity_step, entity_switch]

/-- A hexadecimal reference (introduced by `x` or `X`) whose numeral denotes a value
below 2^32 writes the bytes of that code. -/
theorem unescape_entities_hexadecimal (b : Bool) (x : Nat) (hx : x = 120 ∨ x = 88)
    (hs : List Nat) (hd : ∀ c ∈ hs, is_hex_digit c = true)
    (hlt : numeral_value 16 hs < 2 ^ 32) :
    unescape_entities ⟨b, [38, 35, x] ++ hs ++ [59]⟩ = put_code (numeral_value 16 hs) := by
  have hfirst : entity_step (entity_step (entity_step ⟨state.none, [], 0, []⟩ 38) 35) x
      = ⟨state.hexadecimal, [], 0, []⟩ := by
    rcases hx with hx | hx <;> subst hx <;> decide
  simp only [unescape_entities, List.cons_append, List.nil_append, List.foldl_cons,
    List.foldl_append, List.foldl_nil]
  rw [hfirst, entity_run_hexadecimal hs [] [] 0 hd hlt]
  simp [entity_step, entity_switch, numeral_value]

set_option maxRecDepth 100000 in
/-- Every name of the table, written as a reference, is replaced by the UTF-8 form of
its code point. -/
theorem unescape_entities_names :
    ∀ e ∈ string_unescape_entity_names_,
      unescape ⟨false, [38] ++ bytes e.1 ++ [59]⟩ escaping.entities
        = ⟨false, utf8_form e.2⟩ := by
  decide

end string

/-! ## Auxiliary facts on the classifier -/

namespace string

theorem is_one_of_digits (c : Nat) :
    is_one_of c (some (bytes "0123456789")) = (decide (48 ≤ c) && decide (c ≤ 57)) := by
  have e : c_str (bytes "0123456789") = [48, 49, 50, 51, 52, 53, 54, 55, 56, 57] := by decide
  rw [Bool.eq_iff_iff]
  simp only [is_one_of, e, List.any_cons, List.any_nil, Bool.or_false, Bool.or_eq_true,
    beq_iff_eq, Bool.and_eq_true, decide_eq_true_eq]
  omega

theorem is_one_of_nonzero_digits (c : Nat) :
    is_one_of c (some (bytes "123456789")) = (decide (49 ≤ c) && decide (c ≤ 57)) := by
  have e : c_str (bytes "123456789") = [49, 50, 51, 52, 53, 54, 55, 56, 57] := by decide
  rw [Bool.eq_iff_iff]
  simp only [is_one_of, e, List.any_cons, List.any_nil, Bool.or_false, Bool.or_eq_true,
    beq_iff_eq, Bool.and_eq_true, decide_eq_true_eq]
  omega

/-- `trim()` of a string that is not empty holds the trimmed bytes. -/
theorem trim_base (this : string) (h : this.is_empty = false) :
    trim this = ⟨false, trimmed this.base⟩ := by
  have hn : this._null = false := by
    simp only [is_empty, Bool.or_eq_false_iff] at h
    exact h.1
  simp only [trim, h, clone, hn, copy, trim_in_place, is_empty, trim_left, trim_right,
    Bool.false_eq_true, if_false, Bool.false_or, trimmed]
  have hb : (this.base.length == 0) = false := by
    simp only [is_empty, Bool.or_eq_false_iff] at h
    exact h.2
  simp only [hb, Bool.false_eq_true, if_false]
  split
  · rename_i he
    have : List.dropWhile isspace this.base = [] := by
      simpa using he
    simp [this, List.rdropWhile]
  · rfl

theorem not_mem_trimmed (s : List Nat) (h : 0 ∉ s) : 0 ∉ trimmed s := by
  intro hm
  unfold trimmed at hm
  have h1 : (0 : Nat) ∈ s.dropWhile isspace :=
    (List.rdropWhile_prefix _ _).subset hm
  exact h (List.dropWhile_subset _ h1)

/-- On a string without NUL bytes `is_decimal_integer` is the grammar on the trimmed
string. -/
theorem is_decimal_integer_eq (this : string) (h0 : 0 ∉ this.base) :
    is_decimal_integer this
      = (!this._null && decimal_integer_grammar (trimmed this.base)) := by
  unfold is_decimal_integer
  by_cases he : (this._null || this.base.length == 0) = true
  · rw [if_pos he]
    simp only [Bool.or_eq_true, beq_iff_eq] at he
    rcases he with he | he
    · simp [he]
    · have : this.base = [] := List.length_eq_zero.mp he
      simp [this, trimmed, decimal_integer_grammar, List.rdropWhile]
  · have hempty : this.is_empty = false := by simpa [is_empty] using he
    have hn : this._null = false := by
      simp only [is_empty, Bool.or_eq_false_iff] at hempty
      exact hempty.1
    rw [if_neg he]
    simp only [trim_base this hempty, hn, Bool.not_false, Bool.true_and]
    have ht0 := not_mem_trimmed this.base h0
    generalize trimmed this.base = s at ht0
    cases s with
    | nil => simp [length, decimal_integer_grammar]
    | cons a s =>
      have ha0 : a ≠ 0 := fun e => ht0 (by simp [e])
      have hs0 : 0 ∉ s := fun e => ht0 (by simp [e])
      have hlen : (length ⟨false, a :: s⟩ == 0) = false := by simp [length]
      simp only [hlen, Bool.false_eq_true, if_false, front, List.getD_cons_zero,
        decimal_integer_grammar, List.head?_cons, List.tail_cons, assign_substr,
        List.drop_one]
      have hsign : (a == 43 || a == 45) = (some a == some 43 || some a == some 45) := by
        simp
      rw [← hsign]
      by_cases hsg : (a == 43 || a == 45) = true
      · simp only [hsg, if_true]
        cases s with
        | nil => simp [is_one_of_nonzero_digits]
        | cons d ds =>
          have hd0 : 0 ∉ d :: ds := hs0
          simp only [List.getD_cons_zero, is_one_of_nonzero_digits, consists_of, is_empty,
            List.length_cons, c_str_of_no_nul _ hd0, List.all_cons, is_one_of_digits]
          rw [Bool.eq_iff_iff]
          simp only [Bool.and_eq_true, decide_eq_true_eq, Bool.false_or, beq_iff_eq,
            Nat.add_one_ne_zero, if_false, List.all_eq_true]
          constructor
          · rintro ⟨h1, h2, h3⟩
            exact ⟨h1, h3⟩
          · rintro ⟨h1, h3⟩
            exact ⟨h1, ⟨by omega, h1.2⟩, h3⟩
      · simp only [hsg, if_false, Bool.false_eq_true]
        simp only [List.getD_cons_zero, is_one_of_nonzero_digits, consists_of, is_empty,
          List.length_cons, c_str_of_no_nul _ ht0, List.all_cons, is_one_of_digits]
        rw [Bool.eq_iff_iff]
        simp only [Bool.and_eq_true, decide_eq_true_eq, Bool.false_or, beq_iff_eq,
          Nat.add_one_ne_zero, if_false, List.all_eq_true]
        constructor
        · rintro ⟨h1, h2, h3⟩
          exact ⟨h1, h3⟩
        · rintro ⟨h1, h3⟩
          exact ⟨h1, ⟨by omega, h1.2⟩, h3⟩

end string

/-! ## The claims C11 to C20 -/

namespace string

/-- C11, as stated, fails on its own example: `escape(url)` of "a b*~" is not
"a+b*~", because the HTML5 table does not hold the tilde (the output is "a+b*%E7"). -/
theorem escape_url_tilde_not_safe :
    escape false ⟨false, bytes "a b*~"⟩ escaping.url = some ⟨false, bytes "a+b*%E7"⟩
    ∧ escape true ⟨false, bytes "a b*~"⟩ escaping.url = some ⟨false, bytes "a+b*%E7"⟩
    ∧ escape false ⟨false, bytes "a b*~"⟩ escaping.url ≠ some ⟨false, bytes "a+b*~"⟩
    ∧ escape true ⟨false, bytes "a b*~"⟩ escaping.url ≠ some ⟨false, bytes "a+b*~"⟩
    ∧ string_escape_url_html5_ 126 = 0 := by
  decide

/-- C11, amended. `escape(url)` and `escape(rfc3986)` write, for each byte of the C string
of the receiver in turn (nothing for a receiver of length 0), the bytes of one pass of the
loop, whatever the other bytes of the receiver are. With the HTML5 table a pass writes an
alphanumeric byte and each of `-`, `.`, `_`, `*` unchanged, writes `+` for a space, and
writes `%` and two more bytes for every other byte; the tilde is such a byte, while with
the RFC3986 table a pass writes the tilde unchanged. Where `char` is signed this is stated
for the receivers whose walked bytes are below 0x80. -/
theorem escape_url_html5_safe_set (charSigned : Bool) (this : string)
    (h : charSigned = true → ∀ b ∈ escape_url_input this, b < 128) :
    escape charSigned this escaping.url
        = some ⟨false,
            (escape_url_input this).flatMap (escape_url_bytes string_escape_url_html5_)⟩
    ∧ escape charSigned this escaping.rfc3986
        = some ⟨false,
            (escape_url_input this).flatMap (escape_url_bytes string_escape_url_rfc3986_)⟩
    ∧ (∀ b, html5_passes b = true →
        escape_url_bytes string_escape_url_html5_ b = [if b == 32 then 43 else b])
    ∧ (∀ b, html5_passes b = false →
        escape_url_bytes string_escape_url_html5_ b
          = [37, (escape_url_hex b).1, (escape_url_hex b).2])
    ∧ html5_passes 126 = false
    ∧ escape_url_bytes string_escape_url_rfc3986_ 126 = [126] := by
  refine ⟨escape_url_eq_bytes charSigned _ this h, escape_url_eq_bytes charSigned _ this h,
    ?_, ?_, by decide, by decide⟩
  · intro b hb
    obtain ⟨_, hne, htab⟩ := html5_passes_facts b hb
    have hnz : (if b == 32 then 43 else b) ≠ 0 := by
      by_cases h32 : b = 32 <;> simp [h32, hne]
    have : ((if b == 32 then 43 else b) != 0) = true := by simpa using hnz
    simp only [escape_url_bytes, htab, this, if_true]
  · intro b hb
    simp [escape_url_bytes, html5_fails_entry b hb]

/-- C11, amended, on "a~b c*" with a signed `char`: the HTML5 variant writes "a%E7b+c*",
the safe bytes on both sides of the tilde unchanged, and the RFC3986 variant keeps the
tilde; "a b*" is written as "a+b*". With an unsigned `char` the bytes E9 61 00 62 are
written as "%9Ea": the walk ends at the NUL. -/
theorem escape_url_html5_safe_set_witness :
    (true = true → ∀ b ∈ escape_url_input ⟨false, bytes "a~b c*"⟩, b < 128)
    ∧ (escape true ⟨false, bytes "a~b c*"⟩ escaping.url
        = some ⟨false, (escape_url_input ⟨false, bytes "a~b c*"⟩).flatMap
            (escape_url_bytes string_escape_url_html5_)⟩
      ∧ escape true ⟨false, bytes "a~b c*"⟩ escaping.rfc3986
        = some ⟨false, (escape_url_input ⟨false, bytes "a~b c*"⟩).flatMap
            (escape_url_bytes string_escape_url_rfc3986_)⟩
      ∧ (∀ b, html5_passes b = true →
          escape_url_bytes string_escape_url_html5_ b = [if b == 32 then 43 else b])
      ∧ (∀ b, html5_passes b = false →
          escape_url_bytes string_escape_url_html5_ b
            = [37, (escape_url_hex b).1, (escape_url_hex b).2])
      ∧ html5_passes 126 = false
      ∧ escape_url_bytes string_escape_url_rfc3986_ 126 = [126])
    ∧ (escape_url_input ⟨false, bytes "a~b c*"⟩).flatMap
          (escape_url_bytes string_escape_url_html5_) = bytes "a%E7b+c*"
    ∧ (escape_url_input ⟨false, bytes "a~b c*"⟩).flatMap
          (escape_url_bytes string_escape_url_rfc3986_) = bytes "a~b%02c%A2"
    ∧ (escape_url_input ⟨false, bytes "a b*"⟩).flatMap
          (escape_url_bytes string_escape_url_html5_) = bytes "a+b*"
    ∧ escape false ⟨false, [0xE9, 97, 0, 98]⟩ escaping.url = some ⟨false, bytes "%9Ea"⟩ :=
  ⟨by decide, escape_url_html5_safe_set true ⟨false, bytes "a~b c*"⟩ (by decide),
    by decide, by decide, by decide,
    (escape_url_html5_safe_set false ⟨false, [0xE9, 97, 0, 98]⟩ (by decide)).1⟩

/-- C12. For every string in which each `%` is followed by two hexadecimal digits,
`unescape(rfc3986)` and `unescape(url)` leave the receiver non-null with each `%XY`
replaced by the byte `16*X+Y`, each `+` by a space and every other byte unchanged. -/
theorem unescape_url_well_formed (this : string) (h : url_well_formed this.base = true) :
    unescape this escaping.rfc3986 = ⟨false, url_decoded this.base⟩
    ∧ unescape this escaping.url = ⟨false, url_decoded this.base⟩ := by
  have hs : unescape_url this = url_decoded this.base := by
    rw [unescape_url_eq_scan]
    have := unescape_url_scan_append this.base.length this.base [] (le_refl _) h
    simpa [unescape_url_scan_nil] using this
  simp [unescape, assign_std, hs]

/-- C12 on the example "a%41+b", which becomes "aA b". -/
theorem unescape_url_well_formed_witness :
    url_well_formed (⟨false, bytes "a%41+b"⟩ : string).base = true
    ∧ (unescape ⟨false, bytes "a%41+b"⟩ escaping.rfc3986
          = ⟨false, url_decoded (bytes "a%41+b")⟩
      ∧ unescape ⟨false, bytes "a%41+b"⟩ escaping.url
          = ⟨false, url_decoded (bytes "a%41+b")⟩)
    ∧ url_decoded (bytes "a%41+b") = bytes "aA b" :=
  ⟨by decide, unescape_url_well_formed ⟨false, bytes "a%41+b"⟩ (by decide), by decide⟩

/-- C13, as stated, fails on its own example: `unescape(rfc3986)` of "ab%4" is "ab4",
not "ab"; only the `%` is dropped. -/
theorem unescape_url_truncated_keeps_rest :
    unescape ⟨false, bytes "ab%4"⟩ escaping.rfc3986 = ⟨false, bytes "ab4"⟩
    ∧ unescape ⟨false, bytes "ab%4"⟩ escaping.rfc3986 ≠ ⟨false, bytes "ab"⟩ := by
  decide

/-- C13, amended. When fewer than two characters remain after a `%` that follows
well-formed input, only the `%` is dropped: what precedes it is decoded as specified
and the remaining character, if there is one, is unescaped as if the `%` were absent;
the operation always returns a string. -/
theorem unescape_url_truncated (b : Bool) (pre t : List Nat)
    (hpre : url_well_formed pre = true) (ht : t.length < 2) :
    unescape ⟨b, pre ++ 37 :: t⟩ escaping.rfc3986
        = ⟨false, url_decoded pre ++ (unescape ⟨false, t⟩ escaping.rfc3986).base⟩
    ∧ unescape ⟨b, pre ++ 37 :: t⟩ escaping.url
        = ⟨false, url_decoded pre ++ (unescape ⟨false, t⟩ escaping.url).base⟩ := by
  have hs : unescape_url ⟨b, pre ++ 37 :: t⟩
      = url_decoded pre ++ unescape_url ⟨false, t⟩ := by
    rw [unescape_url_eq_scan, unescape_url_eq_scan]
    simp only []
    rw [unescape_url_scan_append pre.length pre (37 :: t) (le_refl _) hpre,
      unescape_url_scan_truncated t ht]
  simp [unescape, assign_std, hs]

/-- C13, amended, on "ab%4": the result is "ab4". -/
theorem unescape_url_truncated_witness :
    url_well_formed (bytes "ab") = true
    ∧ (bytes "4").length < 2
    ∧ (unescape ⟨false, bytes "ab" ++ 37 :: bytes "4"⟩ escaping.rfc3986
          = ⟨false, url_decoded (bytes "ab")
              ++ (unescape ⟨false, bytes "4"⟩ escaping.rfc3986).base⟩
      ∧ unescape ⟨false, bytes "ab" ++ 37 :: bytes "4"⟩ escaping.url
          = ⟨false, url_decoded (bytes "ab")
              ++ (unescape ⟨false, bytes "4"⟩ escaping.url).base⟩)
    ∧ url_decoded (bytes "ab") ++ (unescape ⟨false, bytes "4"⟩ escaping.rfc3986).base
        = bytes "ab4" :=
  ⟨by decide, by decide,
    unescape_url_truncated false (bytes "ab") (bytes "4") (by decide) (by decide),
    by decide⟩

/-- C14. `escape(entities)` of "a<b": where `char` is unsigned the output is "a&ltb"
(the reference has lost its `;`), and where `char` is signed the letter a already
leads to an access outside the name table; a byte from 0xA0 on loses the last letter
of its name (0xA0 gives "&nbs;"). -/
theorem escape_entities_example :
    escape false ⟨false, bytes "a<b"⟩ escaping.entities = some ⟨false, bytes "a&ltb"⟩
    ∧ escape true ⟨false, bytes "a<b"⟩ escaping.entities = none
    ∧ escape false ⟨false, bytes "a<b"⟩ escaping.entities ≠ some ⟨false, bytes "a&lt;b"⟩
    ∧ escape true ⟨false, bytes "a<b"⟩ escaping.entities ≠ some ⟨false, bytes "a&lt;b"⟩
    ∧ escape false ⟨false, [0xA0]⟩ escaping.entities = some ⟨false, bytes "&nbs;"⟩
    ∧ escape false ⟨false, bytes "<"⟩ escaping.entities = some ⟨false, bytes "&lt"⟩ := by
  decide

/-- C15. `unescape(entities)` finalises references as UTF-8. For a code point `n`
below 0x10000, a decimal reference `&#D;` whose numeral `D` denotes `n` and a
hexadecimal reference `&#xH;` or `&#XH;` whose numeral `H` (digits of either case)
denotes `n` are replaced by the UTF-8 form of `n` (one byte below 0x80, two bytes
below 0x800, three bytes otherwise), and every name of the table is replaced by the
UTF-8 form of its code point. -/
theorem unescape_entities_utf8 (n : Nat) (b : Bool) (ds hs : List Nat)
    (hn : n < 0x10000)
    (hds : ds ≠ []) (hdd : ∀ c ∈ ds, isdigit c = true) (hdv : numeral_value 10 ds = n)
    (hhd : ∀ c ∈ hs, is_hex_digit c = true) (hhv : numeral_value 16 hs = n) :
    unescape ⟨b, [38, 35] ++ ds ++ [59]⟩ escaping.entities = ⟨false, utf8_form n⟩
    ∧ unescape ⟨b, [38, 35, 120] ++ hs ++ [59]⟩ escaping.entities = ⟨false, utf8_form n⟩
    ∧ unescape ⟨b, [38, 35, 88] ++ hs ++ [59]⟩ escaping.entities = ⟨false, utf8_form n⟩
    ∧ ∀ e ∈ string_unescape_entity_names_,
        unescape ⟨false, [38] ++ bytes e.1 ++ [59]⟩ escaping.entities
          = ⟨false, utf8_form e.2⟩ := by
  have hlt : n < 2 ^ 32 := by
    have : (0x10000 : Nat) < 2 ^ 32 := by decide
    omega
  have hu := put_code_eq_utf8_form n hn
  refine ⟨?_, ?_, ?_, unescape_entities_names⟩
  · simp only [unescape, assign_std]
    rw [unescape_entities_decimal b ds hds hdd (by rw [hdv]; exact hlt), hdv, hu]
  · simp only [unescape, assign_std]
    rw [unescape_entities_hexadecimal b 120 (Or.inl rfl) hs hhd (by rw [hhv]; exact hlt),
      hhv, hu]
  · simp only [unescape, assign_std]
    rw [unescape_entities_hexadecimal b 88 (Or.inr rfl) hs hhd (by rw [hhv]; exact hlt),
      hhv, hu]

/-- C15 on the code point 0x20AC: "&#8364;", "&#x20aC;" and "&euro;" all give the
bytes E2 82 AC, and "&amp;" gives "&". -/
theorem unescape_entities_utf8_witness :
    (8364 : Nat) < 0x10000
    ∧ bytes "8364" ≠ [] ∧ (∀ c ∈ bytes "8364", isdigit c = true)
    ∧ numeral_value 10 (bytes "8364") = 8364
    ∧ (∀ c ∈ bytes "20aC", is_hex_digit c = true)
    ∧ numeral_value 16 (bytes "20aC") = 8364
    ∧ (unescape ⟨false, [38, 35] ++ bytes "8364" ++ [59]⟩ escaping.entities
          = ⟨false, utf8_form 8364⟩
      ∧ unescape ⟨false, [38, 35, 120] ++ bytes "20aC" ++ [59]⟩ escaping.entities
          = ⟨false, utf8_form 8364⟩
      ∧ unescape ⟨false, [38, 35, 88] ++ bytes "20aC" ++ [59]⟩ escaping.entities
          = ⟨false, utf8_form 8364⟩
      ∧ ∀ e ∈ string_unescape_entity_names_,
          unescape ⟨false, [38] ++ bytes e.1 ++ [59]⟩ escaping.entities
            = ⟨false, utf8_form e.2⟩)
    ∧ utf8_form 8364 = [0xE2, 0x82, 0xAC]
    ∧ unescape ⟨false, bytes "&euro;"⟩ escaping.entities = ⟨false, [0xE2, 0x82, 0xAC]⟩
    ∧ unescape ⟨false, bytes "&amp;"⟩ escaping.entities = ⟨false, bytes "&"⟩ :=
  ⟨by decide, by decide, by decide, by decide, by decide, by decide,
    unescape_entities_utf8 8364 false (bytes "8364") (bytes "20aC") (by decide)
      (by decide) (by decide) (by decide) (by decide) (by decide),
    by decide, by decide, by decide⟩

/-- C16, as stated, fails on a string that begins with a NUL byte: `escape(regex)`
of the two bytes NUL, a is the single byte a, so the NUL is not emitted and the
output is shorter than the input. -/
theorem escape_regex_drops_leading_nul :
    escape false ⟨false, [0, 97]⟩ escaping.regex = some ⟨false, [97]⟩
    ∧ escape true ⟨false, [0, 97]⟩ escaping.regex = some ⟨false, [97]⟩
    ∧ regex_is_escaped 0 = false
    ∧ [0, 97].flatMap regex_escaped_char = [0, 97] := by
  decide

/-- C16, amended. On every string that does not begin with a NUL byte `escape(regex)`
is the per-character map: each of `. ^ $ * + - ? ( ) [ ] { } \ /` is emitted after a
backslash, tab, newline, carriage return, vertical tab and form feed are emitted as a
backslash and the letter t, n, r, v, f, every other character is emitted unchanged;
the output length is the input length plus the number of escaped characters. -/
theorem escape_regex_per_character (charSigned : Bool) (this : string)
    (h : this.base.head? ≠ some 0) :
    escape charSigned this escaping.regex
        = some ⟨false, this.base.flatMap regex_escaped_char⟩
    ∧ (this.base.flatMap regex_escaped_char).length
        = this.base.length + this.base.countP regex_is_escaped := by
  refine ⟨?_, length_flatMap_regex _⟩
  have := escape_regex_loop this.base [] (Or.inr h)
  simp only [escape, escape_regex, string.new, this, assign]
  simp

/-- C16, amended, on "a.b|c" followed by a tab: the output is "a\.b|c\t" written out. -/
theorem escape_regex_per_character_witness :
    (⟨false, bytes "a.b|c" ++ [9]⟩ : string).base.head? ≠ some 0
    ∧ (escape false ⟨false, bytes "a.b|c" ++ [9]⟩ escaping.regex
          = some ⟨false, (bytes "a.b|c" ++ [9]).flatMap regex_escaped_char⟩
      ∧ ((bytes "a.b|c" ++ [9]).flatMap regex_escaped_char).length
          = (bytes "a.b|c" ++ [9]).length + (bytes "a.b|c" ++ [9]).countP regex_is_escaped)
    ∧ (bytes "a.b|c" ++ [9]).flatMap regex_escaped_char
        = [97, 92, 46, 98, 124, 99, 92, 116] :=
  ⟨by decide, escape_regex_per_character false ⟨false, bytes "a.b|c" ++ [9]⟩ (by decide),
    by decide⟩

/-- C17, as stated, fails: `to_byte` of "99999999999999999999" is not 255. -/
theorem to_byte_overflow_not_maximum :
    to_byte (fun _ => (ldouble.nan, false)) false ⟨false, bytes "99999999999999999999"⟩ ≠ 255
    ∧ to_byte (fun _ => (ldouble.nan, false)) true ⟨false, bytes "99999999999999999999"⟩
        ≠ 255
    ∧ strtoull (bytes "99999999999999999999") 10 = (2 ^ 64 - 1, true) := by
  decide

/-- C17, amended. Converting "99999999999999999999" with `to_byte` does not wrap
around: `parse_integer` fails on the overflow that `strtoull` reports, and `to_byte`
yields 0, the not-a-number value of the 8-bit unsigned target. -/
theorem to_byte_overflow_sentinel (strtold : List Nat → ldouble × Bool) (erange : Bool) :
    parse_integer erange ⟨false, bytes "99999999999999999999"⟩ = none
    ∧ to_byte strtold erange ⟨false, bytes "99999999999999999999"⟩ = 0 := by
  have h1 : is_empty ⟨false, bytes "99999999999999999999"⟩ = false := by decide
  have h2 : is_boolean ⟨false, bytes "99999999999999999999"⟩ = false := by decide
  have h3 : is_float ⟨false, bytes "99999999999999999999"⟩ = false := by decide
  have h4 : is_integer ⟨false, bytes "99999999999999999999"⟩ = true := by decide
  have h5 : parse_integer erange ⟨false, bytes "99999999999999999999"⟩ = none := by
    cases erange <;> decide
  refine ⟨h5, ?_⟩
  simp [to_byte, parse_cast, h1, h2, h3, h4, h5]

/-- C18. `to_byte` of "-5" is 251: a negative value whose magnitude is within the
range of an unsigned target is negated and wraps instead of giving the minimum 0
(the other two examples hold: "300" gives 255 and `to_short` of "-40000" gives
-32768). -/
theorem to_byte_negative_wraps (strtold : List Nat → ldouble × Bool) (erange : Bool) :
    to_byte strtold erange ⟨false, bytes "-5"⟩ = 251
    ∧ parse_integer erange ⟨false, bytes "-5"⟩ = some (5, true)
    ∧ to_byte strtold erange ⟨false, bytes "300"⟩ = 255
    ∧ to_short strtold erange ⟨false, bytes "-40000"⟩ = -32768 := by
  have a1 : is_empty ⟨false, bytes "-5"⟩ = false := by decide
  have a2 : is_boolean ⟨false, bytes "-5"⟩ = false := by decide
  have a3 : is_float ⟨false, bytes "-5"⟩ = false := by decide
  have a4 : is_integer ⟨false, bytes "-5"⟩ = true := by decide
  have a5 : parse_integer erange ⟨false, bytes "-5"⟩ = some (5, true) := by
    cases erange <;> decide
  have b1 : is_empty ⟨false, bytes "300"⟩ = false := by decide
  have b2 : is_boolean ⟨false, bytes "300"⟩ = false := by decide
  have b3 : is_float ⟨false, bytes "300"⟩ = false := by decide
  have b4 : is_integer ⟨false, bytes "300"⟩ = true := by decide
  have b5 : parse_integer erange ⟨false, bytes "300"⟩ = some (300, false) := by
    cases erange <;> decide
  have c1 : is_empty ⟨false, bytes "-40000"⟩ = false := by decide
  have c2 : is_boolean ⟨false, bytes "-40000"⟩ = false := by decide
  have c3 : is_float ⟨false, bytes "-40000"⟩ = false := by decide
  have c4 : is_integer ⟨false, bytes "-40000"⟩ = true := by decide
  have c5 : parse_integer erange ⟨false, bytes "-40000"⟩ = some (40000, true) := by
    cases erange <;> decide
  refine ⟨?_, a5, ?_, ?_⟩
  · simp [to_byte, parse_cast, a1, a2, a3, a4, a5, int_type.convert]
  · simp [to_byte, parse_cast, b1, b2, b3, b4, b5]
  · simp [to_short, parse_cast, c1, c2, c3, c4, c5]

/-- C19, as stated, fails on a string with an embedded NUL: the two bytes 5, NUL are
classified as a decimal integer although they are not in the grammar. -/
theorem is_decimal_integer_accepts_nul :
    is_decimal_integer ⟨false, [53, 0]⟩ = true
    ∧ decimal_integer_grammar (trimmed [53, 0]) = false := by
  decide

/-- C19, amended. For every string without NUL bytes `is_decimal_integer` is true
exactly when the string is not null and, after trimming the white space at both ends,
is an optional `+` or `-`, then one digit 1-9, then zero or more digits 0-9. -/
theorem is_decimal_integer_grammar (this : string) (h0 : 0 ∉ this.base) :
    is_decimal_integer this = true
      ↔ this._null = false ∧ decimal_integer_grammar (trimmed this.base) = true := by
  rw [is_decimal_integer_eq this h0]
  simp

/-- C19, amended, on " +12 " and on the strings named in the claim: "0", "007", a
lone sign, the empty and the null string are rejected. -/
theorem is_decimal_integer_grammar_witness :
    0 ∉ (⟨false, bytes " +12 "⟩ : string).base
    ∧ (is_decimal_integer ⟨false, bytes " +12 "⟩ = true
        ↔ (⟨false, bytes " +12 "⟩ : string)._null = false
          ∧ decimal_integer_grammar (trimmed (⟨false, bytes " +12 "⟩ : string).base) = true)
    ∧ is_decimal_integer ⟨false, bytes " +12 "⟩ = true
    ∧ is_decimal_integer ⟨false, bytes "0"⟩ = false
    ∧ is_decimal_integer ⟨false, bytes "007"⟩ = false
    ∧ is_decimal_integer ⟨false, bytes "-"⟩ = false
    ∧ is_decimal_integer ⟨false, []⟩ = false
    ∧ is_decimal_integer ⟨true, []⟩ = false :=
  ⟨by decide, is_decimal_integer_grammar ⟨false, bytes " +12 "⟩ (by decide),
    by decide, by decide, by decide, by decide, by decide, by decide⟩

/-- C20. `is_unsigned_decimal_integer` removes the first byte before it tests the
digits: "5" is a decimal integer that starts with a digit but is not classified as
unsigned, and "x12" is classified as unsigned although it is not a decimal integer. -/
theorem is_unsigned_decimal_integer_drops_first :
    is_decimal_integer ⟨false, bytes "5"⟩ = true
    ∧ is_unsigned_decimal_integer ⟨false, bytes "5"⟩ = false
    ∧ is_signed_decimal_integer ⟨false, bytes "5"⟩ = false
    ∧ is_decimal_integer ⟨false, bytes "x12"⟩ = false
    ∧ is_unsigned_decimal_integer ⟨false, bytes "x12"⟩ = true
    ∧ is_unsigned_decimal_integer ⟨false, bytes "123"⟩ = true := by
  decide

end string

/-! ## Auxiliary facts on `escape_json` -/

namespace string

theorem set_append_offset (out X : List Nat) (j b : Nat) :
    (out ++ X).set (out.length + j) b = out ++ X.set j b := by
  induction out with
  | nil => simp
  | cons a out ih =>
    have : (a :: out).length + j = (out.length + j) + 1 := by simp; omega
    rw [this]
    simp [ih]

theorem set_append_length (out X : List Nat) (b : Nat) :
    (out ++ X).set out.length b = out ++ X.set 0 b := by
  have h := set_append_offset out X 0 b
  rwa [Nat.add_zero] at h

/-- The classes of source bytes that `escape_json` tells apart. -/
theorem json_byte_class (c : Nat) :
    c = 34 ∨ c = 92 ∨ c = 8 ∨ c = 12 ∨ c = 10 ∨ c = 13 ∨ c = 9
      ∨ (c ≤ 31 ∧ c ≠ 8 ∧ c ≠ 12 ∧ c ≠ 10 ∧ c ≠ 13 ∧ c ≠ 9)
      ∨ (31 < c ∧ c ≠ 34 ∧ c ≠ 92) := by omega

theorem escape_json_bytes_control (c : Nat)
    (h : c ≤ 31 ∧ c ≠ 8 ∧ c ≠ 12 ∧ c ≠ 10 ∧ c ≠ 13 ∧ c ≠ 9) :
    escape_json_bytes c = 92 :: snprintf_u04X c := by
  obtain ⟨h1, h2, h3, h4, h5, h6⟩ := h
  have h7 : c ≠ 34 := by omega
  have h8 : c ≠ 92 := by omega
  simp [escape_json_bytes, h1, h2, h3, h4, h5, h6, h7, h8]

theorem escape_json_bytes_ordinary (c : Nat) (h : 31 < c ∧ c ≠ 34 ∧ c ≠ 92) :
    escape_json_bytes c = [c] := by
  obtain ⟨h1, h2, h3⟩ := h
  have h4 : c ≠ 8 := by omega
  have h5 : c ≠ 12 := by omega
  have h6 : c ≠ 10 := by omega
  have h7 : c ≠ 13 := by omega
  have h8 : c ≠ 9 := by omega
  have h9 : ¬ c ≤ 31 := by omega
  simp [escape_json_bytes, h2, h3, h4, h5, h6, h7, h8, h9]

theorem escape_json_bytes_length_pos (c : Nat) : 1 ≤ (escape_json_bytes c).length := by
  rcases json_byte_class c with h | h | h | h | h | h | h | h | h
  all_goals first
    | (subst h; decide)
    | (rw [escape_json_bytes_control c h]; simp)
    | (rw [escape_json_bytes_ordinary c h]; simp)

theorem escaped_length_step (acc c : Nat) :
    (if c == 34 || c == 92 || c == 8 || c == 12 || c == 10 || c == 13 || c == 9 then
        acc + 2
      else if c ≤ 0x1F then acc + 1 + 5
      else acc + 1) = acc + (escape_json_bytes c).length := by
  rcases json_byte_class c with h | h | h | h | h | h | h | h | h
  · subst h; rfl
  · subst h; rfl
  · subst h; rfl
  · subst h; rfl
  · subst h; rfl
  · subst h; rfl
  · subst h; rfl
  · rw [escape_json_bytes_control c h]
    obtain ⟨h1, h2, h3, h4, h5, h6⟩ := h
    have h7 : c ≠ 34 := by omega
    have h8 : c ≠ 92 := by omega
    simp [h1, h2, h3, h4, h5, h6, h7, h8, snprintf_u04X]
  · rw [escape_json_bytes_ordinary c h]
    obtain ⟨h1, h2, h3⟩ := h
    have h4 : c ≠ 8 := by omega
    have h5 : c ≠ 12 := by omega
    have h6 : c ≠ 10 := by omega
    have h7 : c ≠ 13 := by omega
    have h8 : c ≠ 9 := by omega
    have h9 : ¬ c ≤ 31 := by omega
    simp [h2, h3, h4, h5, h6, h7, h8, h9]

theorem escaped_length_eq (b : Bool) (s : List Nat) :
    escaped_length ⟨b, s⟩ = (s.flatMap escape_json_bytes).length := by
  have key : ∀ (l : List Nat) (acc : Nat),
      l.foldl (fun result ch =>
        if ch == 34 || ch == 92 || ch == 8 || ch == 12 || ch == 10 || ch == 13 || ch == 9 then
          result + 2
        else if ch ≤ 0x1F then result + 1 + 5
        else result + 1) acc = acc + (l.flatMap escape_json_bytes).length := by
    intro l
    induction l with
    | nil => simp
    | cons c l ih =>
      intro acc
      rw [List.foldl_cons, escaped_length_step, ih]
      simp [List.flatMap_cons]
      omega
  simpa [escaped_length] using key s 0

theorem escape_json_step_two (out tl : List Nat) (k c x : Nat)
    (hc : escape_json_step (out ++ (92 :: 92 :: (List.replicate k 92 ++ tl)), out.length) c
      = (out ++ (x :: 92 :: (List.replicate k 92 ++ tl)), out.length + 2))
    (hb : escape_json_bytes c = [x, 92]) :
    escape_json_step (out ++ (List.replicate (k + 2) 92 ++ tl), out.length) c
      = ((out ++ escape_json_bytes c) ++ (List.replicate k 92 ++ tl),
          (out ++ escape_json_bytes c).length) := by
  rw [hb]
  simp only [List.replicate_succ, List.cons_append] at hc ⊢
  rw [hc]
  simp

theorem escape_json_step_spec (out tl : List Nat) (k c : Nat) (htl : tl ≠ [])
    (hk : (escape_json_bytes c).length ≤ k) :
    ∃ tl2, tl2 ≠ [] ∧
      escape_json_step (out ++ (List.replicate k 92 ++ tl), out.length) c
        = ((out ++ escape_json_bytes c)
            ++ (List.replicate (k - (escape_json_bytes c).length) 92 ++ tl2),
          (out ++ escape_json_bytes c).length) := by
  rcases json_byte_class c with h | h | h | h | h | h | h | h | h
  · subst h
    obtain ⟨j, rfl⟩ : ∃ j, k = j + 2 := ⟨k - 2, by simp [escape_json_bytes] at hk; omega⟩
    refine ⟨tl, htl, ?_⟩
    have := escape_json_step_two out tl j 34 34
      (by simp [escape_json_step, set_append_length]) (by decide)
    simpa [escape_json_bytes] using this
  · subst h
    obtain ⟨j, rfl⟩ : ∃ j, k = j + 2 := ⟨k - 2, by simp [escape_json_bytes] at hk; omega⟩
    refine ⟨tl, htl, ?_⟩
    have := escape_json_step_two out tl j 92 92
      (by simp [escape_json_step]) (by decide)
    simpa [escape_json_bytes] using this
  · subst h
    obtain ⟨j, rfl⟩ : ∃ j, k = j + 2 := ⟨k - 2, by simp [escape_json_bytes] at hk; omega⟩
    refine ⟨tl, htl, ?_⟩
    have := escape_json_step_two out tl j 8 98
      (by simp [escape_json_step, set_append_length]) (by decide)
    simpa [escape_json_bytes] using this
  · subst h
    obtain ⟨j, rfl⟩ : ∃ j, k = j + 2 := ⟨k - 2, by simp [escape_json_bytes] at hk; omega⟩
    refine ⟨tl, htl, ?_⟩
    have := escape_json_step_two out tl j 12 102
      (by simp [escape_json_step, set_append_length]) (by decide)
    simpa [escape_json_bytes] using this
  · subst h
    obtain ⟨j, rfl⟩ : ∃ j, k = j + 2 := ⟨k - 2, by simp [escape_json_bytes] at hk; omega⟩
    refine ⟨tl, htl, ?_⟩
    have := escape_json_step_two out tl j 10 110
      (by simp [escape_json_step, set_append_length]) (by decide)
    simpa [escape_json_bytes] using this
  · subst h
    obtain ⟨j, rfl⟩ : ∃ j, k = j + 2 := ⟨k - 2, by simp [escape_json_bytes] at hk; omega⟩
    refine ⟨tl, htl, ?_⟩
    have := escape_json_step_two out tl j 13 114
      (by simp [escape_json_step, set_append_length]) (by decide)
    simpa [escape_json_bytes] using this
  · subst h
    obtain ⟨j, rfl⟩ : ∃ j, k = j + 2 := ⟨k - 2, by simp [escape_json_bytes] at hk; omega⟩
    refine ⟨tl, htl, ?_⟩
    have := escape_json_step_two out tl j 9 116
      (by simp [escape_json_step, set_append_length]) (by decide)
    simpa [escape_json_bytes] using this
  · have hb := escape_json_bytes_control c h
    rw [hb] at hk ⊢
    obtain ⟨h1, h2, h3, h4, h5, h6⟩ := h
    have h7 : c ≠ 34 := by omega
    have h8 : c ≠ 92 := by omega
    obtain ⟨j, rfl⟩ : ∃ j, k = j + 6 := ⟨k - 6, by simp [snprintf_u04X] at hk; omega⟩
    have hstep : ∀ R : List Nat,
        escape_json_step (out ++ R, out.length) c
          = ((store (out ++ R) (out.length + 1) (snprintf_u04X c ++ [0])).set
              (out.length + 6) 92, out.length + 6) := by
      intro R
      simp [escape_json_step, h1, h2, h3, h4, h5, h6, h7, h8]
    rw [hstep]
    cases j with
    | zero =>
      obtain ⟨x, rest, rfl⟩ : ∃ x rest, tl = x :: rest := by
        cases tl with
        | nil => exact absurd rfl htl
        | cons x rest => exact ⟨x, rest, rfl⟩
      refine ⟨92 :: rest, by simp, ?_⟩
      simp [snprintf_u04X, store, List.replicate_succ, set_append_offset, Nat.add_assoc]
    | succ j =>
      refine ⟨tl, htl, ?_⟩
      simp [snprintf_u04X, store, List.replicate_succ, set_append_offset, Nat.add_assoc]
  · have hb := escape_json_bytes_ordinary c h
    rw [hb] at hk ⊢
    obtain ⟨h1, h2, h3⟩ := h
    have h4 : c ≠ 8 := by omega
    have h5 : c ≠ 12 := by omega
    have h6 : c ≠ 10 := by omega
    have h7 : c ≠ 13 := by omega
    have h8 : c ≠ 9 := by omega
    have h9 : ¬ c ≤ 31 := by omega
    obtain ⟨j, rfl⟩ : ∃ j, k = j + 1 := ⟨k - 1, by simp at hk; omega⟩
    refine ⟨tl, htl, ?_⟩
    simp [escape_json_step, h2, h3, h4, h5, h6, h7, h8, h9, set_append_length,
      List.replicate_succ]

theorem escape_json_fold (s : List Nat) :
    ∀ (out tl : List Nat) (k : Nat), tl ≠ [] → (s.flatMap escape_json_bytes).length ≤ k →
      ∃ tl2, tl2 ≠ [] ∧
        s.foldl escape_json_step (out ++ (List.replicate k 92 ++ tl), out.length)
          = ((out ++ s.flatMap escape_json_bytes)
              ++ (List.replicate (k - (s.flatMap escape_json_bytes).length) 92 ++ tl2),
            (out ++ s.flatMap escape_json_bytes).length) := by
  induction s with
  | nil =>
    intro out tl k htl _
    exact ⟨tl, htl, by simp⟩
  | cons c s ih =>
    intro out tl k htl hk
    simp only [List.flatMap_cons, List.length_append] at hk
    obtain ⟨tl1, htl1, h1⟩ := escape_json_step_spec out tl k c htl (by omega)
    obtain ⟨tl2, htl2, h2⟩ := ih (out ++ escape_json_bytes c) tl1
      (k - (escape_json_bytes c).length) htl1 (by omega)
    refine ⟨tl2, htl2, ?_⟩
    rw [List.foldl_cons, h1, h2]
    simp only [List.flatMap_cons, List.length_append, List.append_assoc, Nat.sub_sub]

theorem escape_json_bytes_length_one (c : Nat) (h : (escape_json_bytes c).length = 1) :
    escape_json_bytes c = [c] := by
  rcases json_byte_class c with e | e | e | e | e | e | e | e | e
  · subst e; simp [escape_json_bytes] at h
  · subst e; simp [escape_json_bytes] at h
  · subst e; simp [escape_json_bytes] at h
  · subst e; simp [escape_json_bytes] at h
  · subst e; simp [escape_json_bytes] at h
  · subst e; simp [escape_json_bytes] at h
  · subst e; simp [escape_json_bytes] at h
  · rw [escape_json_bytes_control c e] at h
    simp [snprintf_u04X] at h
  · exact escape_json_bytes_ordinary c e

theorem flatMap_escape_json_bytes_length (s : List Nat) :
    s.length ≤ (s.flatMap escape_json_bytes).length
      ∧ ((s.flatMap escape_json_bytes).length = s.length → s.flatMap escape_json_bytes = s) := by
  induction s with
  | nil => simp
  | cons c s ih =>
    have hc := escape_json_bytes_length_pos c
    simp only [List.flatMap_cons, List.length_append, List.length_cons]
    refine ⟨by omega, fun h => ?_⟩
    have h1 : (escape_json_bytes c).length = 1 := by omega
    have h2 : (s.flatMap escape_json_bytes).length = s.length := by omega
    rw [escape_json_bytes_length_one c h1, ih.2 h2]
    rfl

/-- The loop of `escape_json` writes the bytes of the source bytes one after the other. -/
theorem escape_json_eq_flatMap (this : string) (h : this._null = false) :
    escape_json this = ⟨false, this.base.flatMap escape_json_bytes⟩ := by
  obtain ⟨n, s⟩ := this
  simp only at h
  subst h
  by_cases h0 : s.length = 0
  · have : s = [] := List.length_eq_zero.mp h0
    subst this
    rfl
  · by_cases h1 : (s.flatMap escape_json_bytes).length = s.length
    · have h2 := (flatMap_escape_json_bytes_length s).2 h1
      have h3 : escaped_length ⟨false, s⟩ = s.length := by rw [escaped_length_eq, h1]
      unfold escape_json
      simp only [length, h3]
      simp [h0, copy, h2]
    · obtain ⟨tl2, _, h2⟩ := escape_json_fold s [] [0]
        (s.flatMap escape_json_bytes).length (by simp) (le_refl _)
      simp only [List.nil_append, List.length_nil, Nat.sub_self, List.replicate_zero] at h2
      have h3 := escaped_length_eq false s
      unfold escape_json
      simp only [length, h3]
      generalize hL : (s.flatMap escape_json_bytes).length = L at h1 h2
      simp only [Bool.false_eq_true, if_false, beq_iff_eq, h0, h1, h2]
      rw [← hL]
      simp

end string

/-! ## Auxiliary facts on the appended tokens -/

namespace string

theorem split_loop_appended (d : List Nat) :
    ∀ (fuel : Nat) (token state : Option (List Nat)) (result : List string) (count : Nat),
      ∃ tokens, (split_loop d fuel token state result count).2 = result ++ tokens
        ∧ ∀ t ∈ tokens, t.is_null = false := by
  intro fuel
  induction fuel with
  | zero =>
    intro token state result count
    exact ⟨[], by simp [split_loop], by simp⟩
  | succ fuel ih =>
    intro token state result count
    cases token with
    | none => exact ⟨[], by simp [split_loop], by simp⟩
    | some token =>
      obtain ⟨tokens, h, hn⟩ := ih (tokenize none d state).1 (tokenize none d state).2
        (result ++ [of_c_str (some token)]) (count + 1)
      refine ⟨of_c_str (some token) :: tokens, ?_, ?_⟩
      · simp only [split_loop]
        rw [h]
        simp
      · intro t ht
        rcases List.mem_cons.mp ht with e | e
        · subst e
          rfl
        · exact hn t e

/-- The token stored for a delimiter byte is the one-byte string. -/
theorem of_c_str_delimiter (c : Nat) (h : c ≠ 0) : of_c_str (some [c, 0]) = ⟨false, [c]⟩ := by
  simp [of_c_str, c_str, List.takeWhile_cons, h]

theorem split_with_delimiters_appended (delimiters omit_ : Option (List Nat)) :
    ∀ (temp : List Nat) (result : List string) (count : Nat),
      ∃ tokens, (split_with_delimiters delimiters omit_ temp result count).2.1 = result ++ tokens
        ∧ (∀ t ∈ tokens, t.is_null = false ∧ 1 ≤ t.length)
        ∧ ∀ x ∈ (split_with_delimiters delimiters omit_ temp result count).1, x ∈ temp := by
  intro temp
  induction temp with
  | nil =>
    intro result count
    exact ⟨[], by simp [split_with_delimiters], by simp, by simp [split_with_delimiters]⟩
  | cons c temp ih =>
    intro result count
    by_cases hc : is_one_of c delimiters = true
    · have h0 : c ≠ 0 := by
        cases delimiters with
        | none => simp [is_one_of] at hc
        | some d => exact is_one_of_ne_zero c d hc
      by_cases ho : (!(omit_.isSome && is_one_of c omit_)) = true
      · obtain ⟨tokens, h, hn, hs⟩ := ih (result ++ [of_c_str (some [c, 0])]) (count + 1)
        refine ⟨of_c_str (some [c, 0]) :: tokens, ?_, ?_, ?_⟩
        · simp only [split_with_delimiters, hc, ho, if_true]
          rw [h]
          simp
        · intro t ht
          rcases List.mem_cons.mp ht with e | e
          · subst e
            rw [of_c_str_delimiter c h0]
            simp [is_null, length]
          · exact hn t e
        · intro x hx
          simp only [split_with_delimiters, hc, ho, if_true] at hx
          exact List.mem_cons_of_mem _ (hs x hx)
      · obtain ⟨tokens, h, hn, hs⟩ := ih result count
        refine ⟨tokens, ?_, hn, ?_⟩
        · simp only [split_with_delimiters, hc, ho, if_true, if_false]
          exact h
        · intro x hx
          simp only [split_with_delimiters, hc, ho, if_true, if_false] at hx
          exact List.mem_cons_of_mem _ (hs x hx)
    · refine ⟨[], ?_, by simp, ?_⟩
      · simp [split_with_delimiters, hc]
      · intro x hx
        simpa [split_with_delimiters, hc] using hx

theorem split_with_tokens_appended (delimiters omit_ : Option (List Nat)) :
    ∀ (fuel : Nat) (temp : List Nat) (result : List string) (count : Nat), 0 ∉ temp →
      ∃ tokens, (split_with_tokens delimiters omit_ fuel temp result count).1 = result ++ tokens
        ∧ ∀ t ∈ tokens, t.is_null = false ∧ 1 ≤ t.length := by
  intro fuel
  induction fuel with
  | zero =>
    intro temp result count _
    exact ⟨[], by simp [split_with_tokens], by simp⟩
  | succ fuel ih =>
    intro temp result count h0
    cases temp with
    | nil => exact ⟨[], by simp [split_with_tokens], by simp⟩
    | cons c temp =>
      have hc : c ≠ 0 := fun e => h0 (by simp [e])
      have htemp : 0 ∉ temp := fun e => h0 (List.mem_cons_of_mem _ e)
      have hgood : ∀ run : List Nat,
          (of_c_str (some (c :: run ++ [0]))).is_null = false
            ∧ 1 ≤ (of_c_str (some (c :: run ++ [0]))).length := by
        intro run
        simp [of_c_str, c_str, List.takeWhile_cons, hc, is_null, length]
      cases hrest : temp.dropWhile (fun x => !is_one_of x delimiters) with
      | nil =>
        refine ⟨[of_c_str (some (c :: temp.takeWhile (fun x => !is_one_of x delimiters) ++ [0]))],
          ?_, ?_⟩
        · simp [split_with_tokens, hrest]
        · intro t ht
          rw [List.mem_singleton.mp ht]
          exact hgood _
      | cons d rest =>
        have hd : is_one_of d delimiters = true := by
          have := head_dropWhile_not (fun x => !is_one_of x delimiters) temp d (by simp [hrest])
          simpa using this
        have hd0 : d ≠ 0 := by
          cases delimiters with
          | none => simp [is_one_of] at hd
          | some dl => exact is_one_of_ne_zero d dl hd
        have hrest0 : 0 ∉ rest := fun e =>
          htemp (List.dropWhile_subset _ (by rw [hrest]; exact List.mem_cons_of_mem _ e))
        simp only [split_with_tokens, hrest]
        generalize hr1 :
          (if (!(omit_.isSome && is_one_of d omit_)) = true then
            result ++ [of_c_str (some (c :: temp.takeWhile (fun x => !is_one_of x delimiters)
              ++ [0]))] ++ [of_c_str (some [d, 0])]
          else result ++ [of_c_str (some (c :: temp.takeWhile (fun x => !is_one_of x delimiters)
              ++ [0]))]) = r1
        generalize (if (!(omit_.isSome && is_one_of d omit_)) = true then count + 1 + 1
          else count + 1) = c1
        obtain ⟨tk1, hk1, hg1⟩ : ∃ tk, r1 = result ++ tk
            ∧ ∀ t ∈ tk, t.is_null = false ∧ 1 ≤ t.length := by
          by_cases ho : (!(omit_.isSome && is_one_of d omit_)) = true
          · rw [if_pos ho] at hr1
            refine ⟨[of_c_str (some (c :: temp.takeWhile (fun x => !is_one_of x delimiters)
              ++ [0])), of_c_str (some [d, 0])], by rw [← hr1]; simp, ?_⟩
            intro t ht
            simp only [List.mem_cons, List.mem_singleton, List.not_mem_nil, or_false] at ht
            rcases ht with e | e
            · rw [e]; exact hgood _
            · rw [e, of_c_str_delimiter d hd0]
              simp [is_null, length]
          · rw [if_neg ho] at hr1
            refine ⟨[of_c_str (some (c :: temp.takeWhile (fun x => !is_one_of x delimiters)
              ++ [0]))], by rw [← hr1], ?_⟩
            intro t ht
            rw [List.mem_singleton.mp ht]
            exact hgood _
        obtain ⟨tk2, hk2, hg2, hs2⟩ := split_with_delimiters_appended delimiters omit_ rest r1 c1
        obtain ⟨tk3, hk3, hg3⟩ := ih (split_with_delimiters delimiters omit_ rest r1 c1).1
          (split_with_delimiters delimiters omit_ rest r1 c1).2.1
          (split_with_delimiters delimiters omit_ rest r1 c1).2.2
          (fun e => hrest0 (hs2 0 e))
        refine ⟨tk1 ++ tk2 ++ tk3, ?_, ?_⟩
        · rw [hk3, hk2, hk1]
          simp
        · intro t ht
          simp only [List.mem_append] at ht
          rcases ht with (e | e) | e
          · exact hg1 t e
          · exact hg2 t e
          · exact hg3 t e

/-- Every string that `split_with` appends is non-null and at least one byte long. -/
theorem split_with_tokens_good (this : string) (delimiters omit_ : Option (List Nat))
    (result : List string) :
    ∃ tokens, (split_with this delimiters result omit_).2 = result ++ tokens
      ∧ ∀ t ∈ tokens, t.is_null = false ∧ 1 ≤ t.length := by
  cases delimiters with
  | none => exact ⟨[], by simp [split_with], by simp⟩
  | some d =>
    by_cases hg : (c_str d == [] || this.is_empty) = true
    · exact ⟨[], by simp only [split_with, hg, if_true]; simp, by simp⟩
    · obtain ⟨tk1, hk1, hg1, hs1⟩ :=
        split_with_delimiters_appended (some d) omit_ (c_str this.base) result 0
      obtain ⟨tk2, hk2, hg2⟩ := split_with_tokens_appended (some d) omit_
        (c_str this.base).length
        (split_with_delimiters (some d) omit_ (c_str this.base) result 0).1
        (split_with_delimiters (some d) omit_ (c_str this.base) result 0).2.1
        (split_with_delimiters (some d) omit_ (c_str this.base) result 0).2.2
        (fun e => no_nul_c_str _ (hs1 0 e))
      refine ⟨tk1 ++ tk2, ?_, ?_⟩
      · simp only [split_with, hg, if_false]
        rw [hk2, hk1]
        simp
      · intro t ht
        rcases List.mem_append.mp ht with e | e
        · exact hg1 t e
        · exact hg2 t e

end string

/-! ## Auxiliary facts on the hash code -/

theorem xor_disjoint (i a b : Nat) (h : b < 2 ^ i) : 2 ^ i * a ^^^ b = 2 ^ i * a + b := by
  apply Nat.eq_of_testBit_eq
  intro j
  simp only [Nat.testBit_mul_pow_two_add _ h, Nat.testBit_xor, Nat.testBit_mul_pow_two]
  by_cases hj : j < i
  · simp [Nat.not_le_of_lt, hj]
  · have hij : i ≤ j := Nat.le_of_not_lt hj
    have hb : b < 2 ^ j := lt_of_lt_of_le h (Nat.pow_le_pow_of_le_right Nat.zero_lt_two hij)
    simp [hij, hj, Nat.testBit_lt_two_pow, hb]

/-- One `k ^= byte << s` of the tail switch, on a word that is free below bit `s + 8`. -/
theorem xor_byte_step (a s b : Nat) (h : b < 256) :
    (a * 2 ^ (s + 8)) ^^^ (b <<< s) = (a * 256 + b) * 2 ^ s := by
  have hb : b * 2 ^ s < 2 ^ (s + 8) := by
    rw [Nat.pow_add, Nat.mul_comm]
    exact Nat.mul_lt_mul_of_pos_left h (Nat.two_pow_pos s)
  rw [Nat.shiftLeft_eq, Nat.mul_comm a, xor_disjoint _ _ _ hb, Nat.pow_add]
  ring

/-- One `w | byte << s` of a word load, on a word below bit `s`. -/
theorem or_byte_step (x s b : Nat) (h : x < 2 ^ s) : x ||| (b <<< s) = x + b * 2 ^ s := by
  rw [Nat.shiftLeft_eq, Nat.mul_comm b, Nat.lor_comm, ← Nat.mul_add_lt_is_or h, Nat.add_comm]

theorem byte_at_lt (data : List Nat) (k : Nat) : byte_at data k < 256 :=
  Nat.mod_lt _ (by decide)

theorem byte_at_of_le (data : List Nat) (k : Nat) (h : data.length ≤ k) : byte_at data k = 0 := by
  have e : data[k]? = none := List.getElem?_eq_none h
  simp [byte_at, e]

theorem byte_at_drop (data : List Nat) (i j : Nat) :
    byte_at (data.drop i) j = byte_at data (i + j) := by
  simp [byte_at, List.getElem?_drop]

/-- A run of at most eight bytes read with the low byte first, byte by byte. -/
theorem little_endian_take (l : List Nat) :
    little_endian (l.take 8)
      = byte_at l 0 + 256 * (byte_at l 1 + 256 * (byte_at l 2 + 256 * (byte_at l 3
        + 256 * (byte_at l 4 + 256 * (byte_at l 5 + 256 * (byte_at l 6
        + 256 * byte_at l 7)))))) := by
  rcases l with _ | ⟨a0, _ | ⟨a1, _ | ⟨a2, _ | ⟨a3, _ | ⟨a4, _ | ⟨a5, _ | ⟨a6, _ | ⟨a7, l⟩⟩⟩⟩⟩⟩⟩⟩ <;>
    simp [little_endian, byte_at]

/-- The eight `|` of a word load give the little-endian value of the eight bytes. -/
theorem or_chain (b0 b1 b2 b3 b4 b5 b6 b7 : Nat) (h0 : b0 < 256) (h1 : b1 < 256)
    (h2 : b2 < 256) (h3 : b3 < 256) (h4 : b4 < 256) (h5 : b5 < 256) (h6 : b6 < 256) :
    ((((((((0 ||| (b0 <<< 0)) ||| (b1 <<< 8)) ||| (b2 <<< 16)) ||| (b3 <<< 24))
        ||| (b4 <<< 32)) ||| (b5 <<< 40)) ||| (b6 <<< 48)) ||| (b7 <<< 56))
      = b0 + 256 * (b1 + 256 * (b2 + 256 * (b3 + 256 * (b4 + 256 * (b5 + 256 * (b6
        + 256 * b7)))))) := by
  have e0 : 0 ||| (b0 <<< 0) = b0 := by simp
  have e1 : b0 ||| (b1 <<< 8) = b0 + b1 * 2 ^ 8 := or_byte_step _ 8 b1 (by omega)
  have e2 : (b0 + b1 * 2 ^ 8) ||| (b2 <<< 16) = b0 + b1 * 2 ^ 8 + b2 * 2 ^ 16 :=
    or_byte_step _ 16 b2 (by omega)
  have e3 : (b0 + b1 * 2 ^ 8 + b2 * 2 ^ 16) ||| (b3 <<< 24)
      = b0 + b1 * 2 ^ 8 + b2 * 2 ^ 16 + b3 * 2 ^ 24 := or_byte_step _ 24 b3 (by omega)
  have e4 : (b0 + b1 * 2 ^ 8 + b2 * 2 ^ 16 + b3 * 2 ^ 24) ||| (b4 <<< 32)
      = b0 + b1 * 2 ^ 8 + b2 * 2 ^ 16 + b3 * 2 ^ 24 + b4 * 2 ^ 32 :=
    or_byte_step _ 32 b4 (by omega)
  have e5 : (b0 + b1 * 2 ^ 8 + b2 * 2 ^ 16 + b3 * 2 ^ 24 + b4 * 2 ^ 32) ||| (b5 <<< 40)
      = b0 + b1 * 2 ^ 8 + b2 * 2 ^ 16 + b3 * 2 ^ 24 + b4 * 2 ^ 32 + b5 * 2 ^ 40 :=
    or_byte_step _ 40 b5 (by omega)
  have e6 : (b0 + b1 * 2 ^ 8 + b2 * 2 ^ 16 + b3 * 2 ^ 24 + b4 * 2 ^ 32 + b5 * 2 ^ 40)
        ||| (b6 <<< 48)
      = b0 + b1 * 2 ^ 8 + b2 * 2 ^ 16 + b3 * 2 ^ 24 + b4 * 2 ^ 32 + b5 * 2 ^ 40 + b6 * 2 ^ 48 :=
    or_byte_step _ 48 b6 (by omega)
  have e7 : (b0 + b1 * 2 ^ 8 + b2 * 2 ^ 16 + b3 * 2 ^ 24 + b4 * 2 ^ 32 + b5 * 2 ^ 40
        + b6 * 2 ^ 48) ||| (b7 <<< 56)
      = b0 + b1 * 2 ^ 8 + b2 * 2 ^ 16 + b3 * 2 ^ 24 + b4 * 2 ^ 32 + b5 * 2 ^ 40 + b6 * 2 ^ 48
        + b7 * 2 ^ 56 := or_byte_step _ 56 b7 (by omega)
  rw [e0, e1, e2, e3, e4, e5, e6, e7]
  omega

/-- The eight `^=` of the tail switch for `k1`, high byte first, give the little-endian
value of the eight bytes. -/
theorem xor_chain (b0 b1 b2 b3 b4 b5 b6 b7 : Nat) (h0 : b0 < 256) (h1 : b1 < 256)
    (h2 : b2 < 256) (h3 : b3 < 256) (h4 : b4 < 256) (h5 : b5 < 256) (h6 : b6 < 256) :
    ((((((((0 ^^^ (b7 <<< 56)) ^^^ (b6 <<< 48)) ^^^ (b5 <<< 40)) ^^^ (b4 <<< 32))
        ^^^ (b3 <<< 24)) ^^^ (b2 <<< 16)) ^^^ (b1 <<< 8)) ^^^ (b0 <<< 0))
      = b0 + 256 * (b1 + 256 * (b2 + 256 * (b3 + 256 * (b4 + 256 * (b5 + 256 * (b6
        + 256 * b7)))))) := by
  have e7 : 0 ^^^ (b7 <<< 56) = b7 * 2 ^ 56 := by simp [Nat.shiftLeft_eq]
  have e6 : (b7 * 2 ^ 56) ^^^ (b6 <<< 48) = (b7 * 256 + b6) * 2 ^ 48 :=
    xor_byte_step b7 48 b6 h6
  have e5 : ((b7 * 256 + b6) * 2 ^ 48) ^^^ (b5 <<< 40) = ((b7 * 256 + b6) * 256 + b5) * 2 ^ 40 :=
    xor_byte_step _ 40 b5 h5
  have e4 : (((b7 * 256 + b6) * 256 + b5) * 2 ^ 40) ^^^ (b4 <<< 32)
      = (((b7 * 256 + b6) * 256 + b5) * 256 + b4) * 2 ^ 32 := xor_byte_step _ 32 b4 h4
  have e3 : ((((b7 * 256 + b6) * 256 + b5) * 256 + b4) * 2 ^ 32) ^^^ (b3 <<< 24)
      = ((((b7 * 256 + b6) * 256 + b5) * 256 + b4) * 256 + b3) * 2 ^ 24 :=
    xor_byte_step _ 24 b3 h3
  have e2 : (((((b7 * 256 + b6) * 256 + b5) * 256 + b4) * 256 + b3) * 2 ^ 24) ^^^ (b2 <<< 16)
      = (((((b7 * 256 + b6) * 256 + b5) * 256 + b4) * 256 + b3) * 256 + b2) * 2 ^ 16 :=
    xor_byte_step _ 16 b2 h2
  have e1 : ((((((b7 * 256 + b6) * 256 + b5) * 256 + b4) * 256 + b3) * 256 + b2) * 2 ^ 16)
        ^^^ (b1 <<< 8)
      = ((((((b7 * 256 + b6) * 256 + b5) * 256 + b4) * 256 + b3) * 256 + b2) * 256 + b1)
        * 2 ^ 8 := xor_byte_step _ 8 b1 h1
  have e0 : (((((((b7 * 256 + b6) * 256 + b5) * 256 + b4) * 256 + b3) * 256 + b2) * 256 + b1)
        * 2 ^ 8) ^^^ (b0 <<< 0)
      = (((((((b7 * 256 + b6) * 256 + b5) * 256 + b4) * 256 + b3) * 256 + b2) * 256 + b1)
        * 256 + b0) * 2 ^ 0 := xor_byte_step _ 0 b0 h0
  rw [e7, e6, e5, e4, e3, e2, e1, e0]
  ring

/-- The seven `^=` of the tail switch for `k2`. -/
theorem xor_chain_seven (b0 b1 b2 b3 b4 b5 b6 : Nat) (h0 : b0 < 256) (h1 : b1 < 256)
    (h2 : b2 < 256) (h3 : b3 < 256) (h4 : b4 < 256) (h5 : b5 < 256) (h6 : b6 < 256) :
    (((((((0 ^^^ (b6 <<< 48)) ^^^ (b5 <<< 40)) ^^^ (b4 <<< 32))
        ^^^ (b3 <<< 24)) ^^^ (b2 <<< 16)) ^^^ (b1 <<< 8)) ^^^ (b0 <<< 0))
      = b0 + 256 * (b1 + 256 * (b2 + 256 * (b3 + 256 * (b4 + 256 * (b5 + 256 * (b6
        + 256 * 0)))))) := by
  have h := xor_chain b0 b1 b2 b3 b4 b5 b6 0 h0 h1 h2 h3 h4 h5 h6
  rw [Nat.zero_shiftLeft, Nat.xor_self] at h
  exact h

/-- The word `block[k]` is the little-endian value of the eight bytes from `8 * k` on. -/
theorem block_at_eq (data : List Nat) (k : Nat) :
    block_at data k = little_endian ((data.drop (8 * k)).take 8) := by
  have hr : List.range 8 = [0, 1, 2, 3, 4, 5, 6, 7] := by decide
  rw [little_endian_take]
  simp only [block_at, hr, List.foldl_cons, List.foldl_nil, byte_at_drop, Nat.mul_zero,
    Nat.mul_one, Nat.reduceMul]
  exact or_chain _ _ _ _ _ _ _ _ (byte_at_lt _ _) (byte_at_lt _ _) (byte_at_lt _ _)
    (byte_at_lt _ _) (byte_at_lt _ _) (byte_at_lt _ _) (byte_at_lt _ _)

theorem murmur3_block_eq (data : List Nat) (h : Nat × Nat) (i : Nat) :
    murmur3_block data h i
      = murmur3_reference_round h (little_endian ((data.drop (16 * i)).take 8))
          (little_endian (((data.drop (16 * i)).drop 8).take 8)) := by
  have e1 : 8 * (i * 2 + 0) = 16 * i := by omega
  have e2 : 8 * (i * 2 + 1) = 16 * i + 8 := by omega
  simp only [murmur3_block, block_at_eq, e1, e2, List.drop_drop, murmur3_reference_round,
    murmur3_reference_mix1, murmur3_reference_mix2]

theorem murmur3_blocks_eq (data : List Nat) :
    ∀ (n off : Nat) (h : Nat × Nat),
      (List.range' off n).foldl (murmur3_block data) h
        = murmur3_reference_blocks n (data.drop (16 * off)) h := by
  intro n
  induction n with
  | zero =>
    intro off h
    simp only [List.range'_zero, List.foldl_nil, murmur3_reference_blocks, fold_blocks]
  | succ n ih =>
    intro off h
    have e : List.drop 16 (List.drop (16 * off) data) = List.drop (16 * (off + 1)) data := by
      rw [List.drop_drop]
      congr 1
    rw [List.range'_succ, List.foldl_cons]
    unfold murmur3_reference_blocks at ih ⊢
    rw [fold_blocks, e, ih, murmur3_block_eq]

/-- One conditional `k ^= byte << s` of the switch: below the case label the byte lies
past the end of the tail, where the unconditional exclusive or changes nothing. -/
theorem murmur3_tail_step (tail : List Nat) (t c j s k : Nat) (ht : tail.length = t)
    (hc : c = j + 1) :
    (if c ≤ t then k ^^^ (byte_at tail j <<< s) else k) = k ^^^ (byte_at tail j <<< s) := by
  by_cases h : c ≤ t
  · rw [if_pos h]
  · rw [if_neg h, byte_at_of_le tail j (by omega)]
    simp

theorem murmur3_tail_eq (tail : List Nat) (h : Nat × Nat) (h16 : tail.length < 16) :
    murmur3_tail tail tail.length h
      = (if 1 ≤ tail.length then
            h.1 ^^^ murmur3_reference_mix1 (little_endian (tail.take 8))
          else h.1,
         if 9 ≤ tail.length then
            h.2 ^^^ murmur3_reference_mix2 (little_endian (tail.drop 8))
          else h.2) := by
  have hk1 := little_endian_take tail
  have hk2 := little_endian_take (tail.drop 8)
  rw [List.take_of_length_le (by rw [List.length_drop]; omega)] at hk2
  simp only [byte_at_drop, Nat.add_zero, Nat.reduceAdd] at hk2
  rw [byte_at_of_le tail 15 (by omega)] at hk2
  rw [hk1, hk2]
  unfold murmur3_tail murmur3_reference_mix1 murmur3_reference_mix2
  dsimp only
  rw [murmur3_tail_step tail _ 15 14 48 0 rfl rfl,
    murmur3_tail_step tail _ 14 13 40 _ rfl rfl, murmur3_tail_step tail _ 13 12 32 _ rfl rfl,
    murmur3_tail_step tail _ 12 11 24 _ rfl rfl, murmur3_tail_step tail _ 11 10 16 _ rfl rfl,
    murmur3_tail_step tail _ 10 9 8 _ rfl rfl, murmur3_tail_step tail _ 9 8 0 _ rfl rfl,
    murmur3_tail_step tail _ 8 7 56 0 rfl rfl, murmur3_tail_step tail _ 7 6 48 _ rfl rfl,
    murmur3_tail_step tail _ 6 5 40 _ rfl rfl, murmur3_tail_step tail _ 5 4 32 _ rfl rfl,
    murmur3_tail_step tail _ 4 3 24 _ rfl rfl, murmur3_tail_step tail _ 3 2 16 _ rfl rfl,
    murmur3_tail_step tail _ 2 1 8 _ rfl rfl, murmur3_tail_step tail _ 1 0 0 _ rfl rfl]
  rw [xor_chain _ _ _ _ _ _ _ _ (byte_at_lt _ _) (byte_at_lt _ _) (byte_at_lt _ _)
      (byte_at_lt _ _) (byte_at_lt _ _) (byte_at_lt _ _) (byte_at_lt _ _),
    xor_chain_seven _ _ _ _ _ _ _ (byte_at_lt _ _) (byte_at_lt _ _) (byte_at_lt _ _)
      (byte_at_lt _ _) (byte_at_lt _ _) (byte_at_lt _ _) (byte_at_lt _ _)]

/-- The embedded `murmur3_x64_128`, run over all the bytes of `data`, computes the
reference MurmurHash3 x64 128 of `data`. -/
theorem murmur3_x64_128_eq_reference (data : List Nat) (seed : Nat) :
    murmur3_x64_128 data data.length seed = murmur3_reference data seed := by
  have hlen : (data.drop (16 * (data.length / 16))).length = data.length % 16 := by
    rw [List.length_drop]
    omega
  have hlt : (data.drop (16 * (data.length / 16))).length < 16 := by
    rw [hlen]
    exact Nat.mod_lt _ (by decide)
  have htail := fun h => murmur3_tail_eq (data.drop (16 * (data.length / 16))) h hlt
  rw [hlen] at htail
  have hblocks := murmur3_blocks_eq data (data.length / 16) 0
  rw [Nat.mul_zero, List.drop_zero] at hblocks
  unfold murmur3_x64_128 murmur3_reference
  dsimp only
  rw [List.range_eq_range', hblocks, Nat.mul_comm (data.length / 16) 16, htail, hlen]

/-! ## Auxiliary facts on the distance and on `snprintf_u04X` -/

namespace string

set_option maxRecDepth 100000 in
theorem distance_kitten_sitting :
    distance ⟨false, bytes "kitten"⟩ (bytes "sitting") = 3
      ∧ distance ⟨false, bytes "abc"⟩ (bytes "abc") = 0 := by decide

theorem distance_of_empty (r : string) (v : List Nat) (h : r.is_empty = true) :
    distance r v = v.length := by
  obtain ⟨n, s⟩ := r
  cases n <;> simp_all [distance, is_empty, length]

theorem distance_to_empty (r : string) (h : r.is_empty = false) :
    distance r [] = r.length := by
  obtain ⟨n, s⟩ := r
  cases n <;> simp_all [distance, is_empty, length]

theorem snprintf_u04X_control :
    ∀ c, c < 32 → snprintf_u04X c = [117, 48, 48, upper_hex (c / 16), upper_hex (c % 16)] := by
  decide

end string

/-! ## The claims C21 to C30 -/

namespace string

/-- C21, refuted on the code: `is_decimal_float` is false on "1.5", ".25" and
"-2.5e10", because `index_of('.')` with its default start position returns -1 even
when the character is there. -/
theorem is_decimal_float_rejects_one_point_five :
    is_decimal_float ⟨false, bytes "1.5"⟩ = false
      ∧ is_decimal_float ⟨false, bytes ".25"⟩ = false
      ∧ is_decimal_float ⟨false, bytes "-2.5e10"⟩ = false
      ∧ index_of ⟨false, bytes "1.5"⟩ 46 none = -1 := by
  decide

/-- C22, refuted on the code: the four examples of the claim parse as stated whatever
`errno` holds, but `parse_integer` never resets `errno`: the call on
"99999999999999999999" leaves it at `ERANGE`, and then the literal "0", which
`is_integer` accepts and which parses to 0 otherwise, is reported as a failure. -/
theorem parse_integer_zero_after_overflow :
    (∀ erange, parse_integer erange ⟨false, bytes "0x1F"⟩ = some (31, false)
        ∧ parse_integer erange ⟨false, bytes "-42"⟩ = some (42, true)
        ∧ parse_integer erange ⟨false, bytes "010"⟩ = some (8, false)
        ∧ parse_integer erange ⟨false, bytes "0b101"⟩ = some (5, false))
      ∧ parse_integer_erange false ⟨false, bytes "99999999999999999999"⟩ = true
      ∧ is_integer ⟨false, bytes "0"⟩ = true
      ∧ parse_integer true ⟨false, bytes "0"⟩ = none
      ∧ parse_integer false ⟨false, bytes "0"⟩ = some (0, false) := by
  refine ⟨fun erange => ?_, ?_⟩
  · cases erange <;> decide
  · decide

/-- C23: `distance` is 3 from "kitten" to "sitting" and 0 from "abc" to "abc"; from a
null or empty receiver to any string `v` it is the length of `v`, and from a non-empty
receiver `r` to the empty string it is the length of `r`. -/
theorem distance_examples_and_base_cases (r : string) (v : List Nat) :
    distance ⟨false, bytes "kitten"⟩ (bytes "sitting") = 3
      ∧ distance ⟨false, bytes "abc"⟩ (bytes "abc") = 0
      ∧ (r.is_empty = true → distance r v = v.length)
      ∧ (r.is_empty = false → distance r [] = r.length) :=
  ⟨distance_kitten_sitting.1, distance_kitten_sitting.2, distance_of_empty r v, distance_to_empty r⟩

/-- C23 at a null receiver and at the receiver "abc". -/
theorem distance_examples_and_base_cases_witness :
    string.is_empty ⟨true, []⟩ = true ∧ string.is_empty ⟨false, bytes "abc"⟩ = false
      ∧ distance ⟨true, []⟩ (bytes "abc") = (bytes "abc").length
      ∧ distance ⟨false, bytes "abc"⟩ [] = string.length ⟨false, bytes "abc"⟩ :=
  ⟨by decide, by decide,
    (distance_examples_and_base_cases ⟨true, []⟩ (bytes "abc")).2.2.1 (by decide),
    (distance_examples_and_base_cases ⟨false, bytes "abc"⟩ (bytes "abc")).2.2.2 (by decide)⟩

/-- C24, refuted on the code: `distance` from "ab" to "ba" is not 1. -/
theorem distance_ab_ba_not_one :
    distance ⟨false, bytes "ab"⟩ (bytes "ba") ≠ 1 := by
  decide

/-- C24, amended: the two bytes of a two-byte string exchanged are two edits, so
`distance` from "ab" to "ba" is 2; the look-back for a transposition is only made from
the third byte of both strings on. -/
theorem distance_two_byte_transposition (a b : Nat) (h : a ≠ b) :
    distance ⟨false, [a, b]⟩ [b, a] = 2 := by
  have h2 : b ≠ a := fun e => h e.symm
  simp [distance, length, distance_cell, delta_at, delta_set, List.range, List.range.loop,
    List.range', h, h2]

/-- C24, amended, at "ab" and "ba". -/
theorem distance_two_byte_transposition_witness :
    (97 : Nat) ≠ 98 ∧ distance ⟨false, [97, 98]⟩ [98, 97] = 2 :=
  ⟨by decide, distance_two_byte_transposition 97 98 (by decide)⟩

/-- C25, refuted on the code: `distance` from "abc" to "acb" is 1, while the Levenshtein
distance of the two strings (insertions, deletions and substitutions of cost one) is 2. -/
theorem distance_not_levenshtein :
    distance ⟨false, bytes "abc"⟩ (bytes "acb") = 1
      ∧ levenshtein Levenshtein.defaultCost (bytes "abc") (bytes "acb") = 2 := by
  decide

/-- C26: for every part and seed, `hash_code` of a null string is 0 and `hash_code` of
an empty string that is not null is 0xFFFFFFFFFFFFFFFF. -/
theorem hash_code_special_cases (this : string) (part : hash_code_part) (seed : Nat) :
    (this.is_null = true → hash_code this part seed = 0)
      ∧ (this.is_null = false → this.length = 0 →
          hash_code this part seed = 0xFFFFFFFFFFFFFFFF) := by
  obtain ⟨n, s⟩ := this
  cases n <;> simp_all [hash_code, is_null, length]

/-- C26 at a null string and at the empty string, for the part `both` and the seed 7. -/
theorem hash_code_special_cases_witness :
    string.is_null ⟨true, []⟩ = true ∧ string.is_null ⟨false, []⟩ = false
      ∧ string.length ⟨false, []⟩ = 0
      ∧ hash_code ⟨true, []⟩ hash_code_part.both 7 = 0
      ∧ hash_code ⟨false, []⟩ hash_code_part.both 7 = 0xFFFFFFFFFFFFFFFF :=
  ⟨by decide, by decide, by decide,
    (hash_code_special_cases ⟨true, []⟩ hash_code_part.both 7).1 (by decide),
    (hash_code_special_cases ⟨false, []⟩ hash_code_part.both 7).2 (by decide) (by decide)⟩

/-- C27: for a non-empty string the parts `low` and `high` of `hash_code` are the words
h1 and h2 of the reference MurmurHash3 x64 128 over all the bytes of the string, started
with h1 = h2 = seed, and `both` is their exclusive or; "hello" with the seed 0 gives
0xCBD8A7B341BD9B02 and 0x5B1E906A48AE1D19, and the 43 bytes of "The quick brown fox
jumps over the lazy dog" (two blocks and a tail) give 0xE34BBC7BBC071B6C and
0x7A433CA9C49A9347. -/
theorem hash_code_murmur3 (this : string) (seed : Nat) (h : this.is_empty = false) :
    hash_code this hash_code_part.low seed = (murmur3_reference this.base seed).1
      ∧ hash_code this hash_code_part.high seed = (murmur3_reference this.base seed).2
      ∧ hash_code this hash_code_part.both seed
        = (murmur3_reference this.base seed).1 ^^^ (murmur3_reference this.base seed).2
      ∧ hash_code ⟨false, bytes "hello"⟩ hash_code_part.low 0 = 0xCBD8A7B341BD9B02
      ∧ hash_code ⟨false, bytes "hello"⟩ hash_code_part.high 0 = 0x5B1E906A48AE1D19
      ∧ hash_code ⟨false, bytes "hello"⟩ hash_code_part.both 0
        = 0xCBD8A7B341BD9B02 ^^^ 0x5B1E906A48AE1D19
      ∧ hash_code ⟨false, bytes "The quick brown fox jumps over the lazy dog"⟩
          hash_code_part.low 0 = 0xE34BBC7BBC071B6C
      ∧ hash_code ⟨false, bytes "The quick brown fox jumps over the lazy dog"⟩
          hash_code_part.high 0 = 0x7A433CA9C49A9347 := by
  refine ⟨?_, ?_, ?_, by decide, by decide, by decide, by decide, by decide⟩
  all_goals
    rw [← murmur3_x64_128_eq_reference]
    obtain ⟨n, s⟩ := this
    cases n <;> simp_all [hash_code, is_empty]

/-- C27 at "hello" with the seed 0, where the reference gives the published words. -/
theorem hash_code_murmur3_witness :
    string.is_empty ⟨false, bytes "hello"⟩ = false
      ∧ hash_code ⟨false, bytes "hello"⟩ hash_code_part.low 0
        = (murmur3_reference (bytes "hello") 0).1
      ∧ hash_code ⟨false, bytes "hello"⟩ hash_code_part.high 0
        = (murmur3_reference (bytes "hello") 0).2
      ∧ murmur3_reference (bytes "hello") 0 = (0xCBD8A7B341BD9B02, 0x5B1E906A48AE1D19) :=
  ⟨by decide, (hash_code_murmur3 ⟨false, bytes "hello"⟩ 0 (by decide)).1,
    (hash_code_murmur3 ⟨false, bytes "hello"⟩ 0 (by decide)).2.1, by decide⟩

/-- C28: every string that `split` or `split_with` appends to the result vector is not
null, and every string that `split_with` appends is at least one byte long, for every
source, delimiter set, omit set and vector, in the overloads for a set and for a single
delimiter. -/
theorem split_tokens_never_null (this : string) (delimiters omit_ : Option (List Nat))
    (delimiter : Nat) (result : List string) :
    (∃ tokens, (split this delimiters result).2 = result ++ tokens
        ∧ ∀ t ∈ tokens, t.is_null = false)
      ∧ (∃ tokens, (split_char this delimiter result).2 = result ++ tokens
        ∧ ∀ t ∈ tokens, t.is_null = false)
      ∧ (∃ tokens, (split_with this delimiters result omit_).2 = result ++ tokens
        ∧ ∀ t ∈ tokens, t.is_null = false ∧ 1 ≤ t.length)
      ∧ (∃ tokens, (split_with_char this delimiter result).2 = result ++ tokens
        ∧ ∀ t ∈ tokens, t.is_null = false ∧ 1 ≤ t.length) := by
  refine ⟨?_, ?_, split_with_tokens_good this delimiters omit_ result, ?_⟩
  · cases delimiters with
    | none => exact ⟨[], by simp [split], by simp⟩
    | some d =>
      by_cases hg : (this._null || this.base.length == 0 || c_str d == []) = true
      · exact ⟨[], by simp only [split, hg, if_true]; simp, by simp⟩
      · simp only [split, hg, if_false]
        exact split_loop_appended d _ _ _ result 0
  · by_cases hd : (delimiter == 0) = true
    · exact ⟨[], by simp only [split_char, hd, if_true]; simp, by simp⟩
    · by_cases hg : (this._null || this.base.length == 0) = true
      · exact ⟨[], by simp only [split_char, hd, hg, if_true, if_false]; simp, by simp⟩
      · simp only [split_char, hd, hg, if_false]
        exact split_loop_appended [delimiter, 0] _ _ _ result 0
  · by_cases hd : delimiter = 0
    · exact ⟨[], by simp [split_with_char, hd], by simp⟩
    · rw [split_with_char_eq this delimiter hd]
      exact split_with_tokens_good this (some [delimiter, 0]) none result

/-- C29, refuted on the code: the vector-returning `split_with` called on "a,b" with the
delimiter set "," and the omit set "," returns "a", "," and "b", because a delimiter
string of length one is passed on to the single-character overload without the omit
set; the appending overload called with the same arguments gives "a" and "b". -/
theorem split_with_vector_ignores_omit :
    split_with_vector ⟨false, bytes "a,b"⟩ (some (bytes ",")) (some (bytes ","))
        = [⟨false, bytes "a"⟩, ⟨false, bytes ","⟩, ⟨false, bytes "b"⟩]
      ∧ (split_with ⟨false, bytes "a,b"⟩ (some (bytes ",")) [] (some (bytes ","))).2
        = [⟨false, bytes "a"⟩, ⟨false, bytes "b"⟩] := by
  decide

/-- C30: `escape(json)` of a string that is not null writes, byte by byte and in order,
the bytes `escape_json_bytes c` of every source byte `c`; for a byte in 0x00..0x1F other
than backspace, form feed, newline, carriage return and tab these are backslash, u, 0, 0
and the two upper-case hexadecimal digits of the byte, and for a byte that is neither a
control byte, a double quote nor a backslash they are the byte itself. -/
theorem escape_json_control_and_ordinary (charSigned : Bool) (this : string)
    (h : this.is_null = false) :
    escape charSigned this escaping.json
        = some ⟨false, this.base.flatMap escape_json_bytes⟩
      ∧ (∀ c, c ≤ 0x1F → c ≠ 8 → c ≠ 12 → c ≠ 10 → c ≠ 13 → c ≠ 9 →
          escape_json_bytes c = [92, 117, 48, 48, upper_hex (c / 16), upper_hex (c % 16)])
      ∧ (∀ c, 0x1F < c → c ≠ 34 → c ≠ 92 → escape_json_bytes c = [c]) := by
  refine ⟨?_, ?_, ?_⟩
  · simp only [escape, escape_json_eq_flatMap this h, assign]
    simp
  · intro c h1 h2 h3 h4 h5 h6
    rw [escape_json_bytes_control c ⟨h1, h2, h3, h4, h5, h6⟩,
      snprintf_u04X_control c (by omega)]
  · intro c h1 h2 h3
    exact escape_json_bytes_ordinary c ⟨h1, h2, h3⟩

/-- C30 at the bytes 0x01, "a" and 0x1F: the result is `\u0001`, "a", `\u001F`. -/
theorem escape_json_control_and_ordinary_witness :
    string.is_null ⟨false, [1, 97, 31]⟩ = false
      ∧ escape false ⟨false, [1, 97, 31]⟩ escaping.json
        = some ⟨false, [92, 117, 48, 48, 48, 49, 97, 92, 117, 48, 48, 49, 70]⟩ :=
  ⟨by decide, (escape_json_control_and_ordinary false ⟨false, [1, 97, 31]⟩ (by decide)).1⟩

end string

/-! ## Auxiliary facts on the table of `distance` -/

namespace string

theorem getD_set_self {α : Type} (l : List α) (i : Nat) (a d : α) (h : i < l.length) :
    (l.set i a).getD i d = a := by
  simp [List.getD_eq_getElem?_getD, List.getElem?_set, h]

theorem getD_set_ne {α : Type} (l : List α) (i r : Nat) (a d : α) (h : r ≠ i) :
    (l.set i a).getD r d = l.getD r d := by
  simp [List.getD_eq_getElem?_getD, List.getElem?_set, Ne.symm h]

theorem delta_at_set (delta : List (List Nat)) (n m i j v r c : Nat)
    (hs : table_shape delta n m) (hi : i < n) (hj : j < m) :
    delta_at (delta_set delta i j v) r c
      = if r = i ∧ c = j then v else delta_at delta r c := by
  obtain ⟨hn, hm⟩ := hs
  unfold delta_at delta_set
  by_cases hr : r = i
  · subst hr
    rw [getD_set_self _ _ _ _ (by omega)]
    by_cases hc : c = j
    · subst hc
      rw [getD_set_self _ _ _ _ (by rw [hm r hi]; exact hj)]
      simp
    · rw [getD_set_ne _ _ _ _ _ hc]
      simp [hc]
  · rw [getD_set_ne _ _ _ _ _ hr]
    simp [hr]

theorem table_shape_set (delta : List (List Nat)) (n m i j v : Nat)
    (hs : table_shape delta n m) : table_shape (delta_set delta i j v) n m := by
  obtain ⟨hn, hm⟩ := hs
  refine ⟨by simp [delta_set, hn], fun r hr => ?_⟩
  unfold delta_set
  by_cases h : r = i
  · subst h
    rw [getD_set_self _ _ _ _ (by omega), List.length_set]
    exact hm r hr
  · rw [getD_set_ne _ _ _ _ _ h]
    exact hm r hr

theorem foldl_range'_invariant {β : Type} (f : β → Nat → β) (P : Nat → β → Prop) :
    ∀ (k s : Nat) (b : β), P s b →
      (∀ j b, s ≤ j → j < s + k → P j b → P (j + 1) (f b j)) →
      P (s + k) ((List.range' s k).foldl f b) := by
  intro k
  induction k with
  | zero =>
    intro s b h _
    simpa using h
  | succ k ih =>
    intro s b h step
    rw [List.range'_succ, List.foldl_cons]
    have h1 := step s b (le_refl _) (by omega) h
    have h2 := ih (s + 1) (f b s) h1 (fun j b hj hlt hp => step j b (by omega) (by omega) hp)
    have e : s + 1 + k = s + (k + 1) := by omega
    rw [e] at h2
    exact h2

/-- The first two loops of `distance` fill the first column and the first row. -/
theorem distance_table_init (pp qq : List Nat) :
    table_filled pp qq
      ((List.range (qq.length + 1)).foldl (fun d i => delta_set d 0 i i)
        ((List.range (pp.length + 1)).map
          (fun i => (List.replicate (qq.length + 1) 0).set 0 i))) 1 1 := by
  have hshape0 : table_shape ((List.range (pp.length + 1)).map
      (fun i => (List.replicate (qq.length + 1) 0).set 0 i)) (pp.length + 1) (qq.length + 1) := by
    refine ⟨by simp, fun r hr => ?_⟩
    simp [List.getD_eq_getElem?_getD, List.getElem?_map, List.getElem?_range hr]
  have hat0 : ∀ r c, r < pp.length + 1 → c < qq.length + 1 →
      delta_at ((List.range (pp.length + 1)).map
        (fun i => (List.replicate (qq.length + 1) 0).set 0 i)) r c = if c = 0 then r else 0 := by
    intro r c hr hc
    unfold delta_at
    simp only [List.getD_eq_getElem?_getD, List.getElem?_map, List.getElem?_range hr,
      Option.map_some', Option.getD_some]
    by_cases h : c = 0
    · subst h
      simp
    · simp [List.getElem?_set, h, List.getElem?_replicate, hc, Ne.symm h]
  have key := foldl_range'_invariant (fun d i => delta_set d 0 i i)
    (fun k d => table_shape d (pp.length + 1) (qq.length + 1)
      ∧ ∀ r c, r < pp.length + 1 → c < qq.length + 1 →
        delta_at d r c = if r = 0 ∧ c < k then c else if c = 0 then r else 0)
    (qq.length + 1) 0 _ ⟨hshape0, fun r c hr hc => by simp [hat0 r c hr hc]⟩
    (fun j d _ hj hp => by
      obtain ⟨hs, hv⟩ := hp
      refine ⟨table_shape_set d _ _ 0 j j hs, fun r c hr hc => ?_⟩
      rw [delta_at_set d _ _ 0 j j r c hs (by omega) (by omega), hv r c hr hc]
      by_cases h1 : r = 0
      · by_cases h2 : c = j
        · simp [h1, h2]
        · have : (c < j + 1) = (c < j) := by
            apply propext
            omega
          simp [h1, h2, this]
      · simp [h1])
  rw [Nat.zero_add, ← List.range_eq_range'] at key
  obtain ⟨hs, hv⟩ := key
  refine ⟨hs, fun r c hr hc hfill => ?_⟩
  rw [hv r c hr hc]
  by_cases h1 : r = 0
  · subst h1
    simp [hc, distance_entry]
  · have hc0 : c = 0 := by omega
    subst hc0
    obtain ⟨r', rfl⟩ : ∃ r', r = r' + 1 := ⟨r - 1, by omega⟩
    simp [distance_entry]

/-- The recurrence of `distance_entry` at the indices `i, j ≥ 1`, written with the reads
of the loop body. -/
theorem distance_entry_step (pp qq : List Nat) (i j : Nat) (hi : 1 ≤ i) (hj : 1 ≤ j) :
    distance_entry pp qq i j
      = (if (decide (i > 2) && decide (j > 2)) = true then
          (if min (distance_entry pp qq (i - 1) j + 1)
                (min (distance_entry pp qq i (j - 1) + 1)
                  (distance_entry pp qq (i - 1) (j - 1)
                    + (if (pp.getD (i - 1) 0 == qq.getD (j - 1) 0) = true then 0 else 1)))
              > (if (pp.getD (i - 1) 0 != qq.getD (j - 2) 0) = true then
                  (if (pp.getD (i - 2) 0 != qq.getD (j - 1) 0) = true then
                    distance_entry pp qq (i - 2) (j - 2) + 1 + 1
                  else distance_entry pp qq (i - 2) (j - 2) + 1) + 1
                else
                  (if (pp.getD (i - 2) 0 != qq.getD (j - 1) 0) = true then
                    distance_entry pp qq (i - 2) (j - 2) + 1 + 1
                  else distance_entry pp qq (i - 2) (j - 2) + 1))
            then
              (if (pp.getD (i - 1) 0 != qq.getD (j - 2) 0) = true then
                  (if (pp.getD (i - 2) 0 != qq.getD (j - 1) 0) = true then
                    distance_entry pp qq (i - 2) (j - 2) + 1 + 1
                  else distance_entry pp qq (i - 2) (j - 2) + 1) + 1
                else
                  (if (pp.getD (i - 2) 0 != qq.getD (j - 1) 0) = true then
                    distance_entry pp qq (i - 2) (j - 2) + 1 + 1
                  else distance_entry pp qq (i - 2) (j - 2) + 1))
            else
              min (distance_entry pp qq (i - 1) j + 1)
                (min (distance_entry pp qq i (j - 1) + 1)
                  (distance_entry pp qq (i - 1) (j - 1)
                    + (if (pp.getD (i - 1) 0 == qq.getD (j - 1) 0) = true then 0 else 1))))
        else
          min (distance_entry pp qq (i - 1) j + 1)
            (min (distance_entry pp qq i (j - 1) + 1)
              (distance_entry pp qq (i - 1) (j - 1)
                + (if (pp.getD (i - 1) 0 == qq.getD (j - 1) 0) = true then 0 else 1)))) := by
  obtain ⟨a, rfl⟩ : ∃ a, i = a + 1 := ⟨i - 1, by omega⟩
  obtain ⟨b, rfl⟩ : ∃ b, j = b + 1 := ⟨j - 1, by omega⟩
  rw [distance_entry]
  simp only [Nat.add_sub_cancel]
  have e1 : a + 1 - 2 = a - 1 := by omega
  have e2 : b + 1 - 2 = b - 1 := by omega
  rw [e1, e2]

/-- One pass of the inner loop of `distance` stores the entry of the recurrence. -/
theorem distance_cell_filled (pp qq : List Nat) (delta : List (List Nat)) (i j : Nat)
    (hi : 1 ≤ i) (hi2 : i ≤ pp.length) (hj : 1 ≤ j) (hj2 : j ≤ qq.length)
    (h : table_filled pp qq delta i j) :
    table_filled pp qq (distance_cell pp qq delta i j) i (j + 1) := by
  obtain ⟨hs, hv⟩ := h
  have h1 := hv (i - 1) j (by omega) (by omega) (Or.inr (Or.inr (Or.inl (by omega))))
  have h2 := hv i (j - 1) (by omega) (by omega) (Or.inr (Or.inr (Or.inr ⟨rfl, by omega⟩)))
  have h3 := hv (i - 1) (j - 1) (by omega) (by omega) (Or.inr (Or.inr (Or.inl (by omega))))
  have h4 := hv (i - 2) (j - 2) (by omega) (by omega) (Or.inr (Or.inr (Or.inl (by omega))))
  unfold distance_cell
  dsimp only
  refine ⟨table_shape_set delta _ _ i j _ hs, fun r c hr hc hfill => ?_⟩
  rw [delta_at_set delta _ _ i j _ r c hs (by omega) (by omega)]
  by_cases hrc : r = i ∧ c = j
  · rw [if_pos hrc, hrc.1, hrc.2, distance_entry_step pp qq i j hi hj, h1, h2, h3, h4]
  · rw [if_neg hrc]
    refine hv r c hr hc ?_
    rcases hfill with e | e | e | ⟨e1, e2⟩
    · exact Or.inl e
    · exact Or.inr (Or.inl e)
    · exact Or.inr (Or.inr (Or.inl e))
    · exact Or.inr (Or.inr (Or.inr ⟨e1, by
        rcases Nat.lt_or_ge c j with h5 | h5
        · exact h5
        · exact absurd ⟨e1, by omega⟩ hrc⟩))

/-- The inner loop of `distance` fills row `i`. -/
theorem distance_row_filled (pp qq : List Nat) (delta : List (List Nat)) (i : Nat)
    (hi : 1 ≤ i) (hi2 : i ≤ pp.length) (h : table_filled pp qq delta i 1) :
    table_filled pp qq
      ((List.range' 1 (qq.length + 1 - 1)).foldl (fun d j => distance_cell pp qq d i j) delta)
      (i + 1) 1 := by
  have key := foldl_range'_invariant (fun d j => distance_cell pp qq d i j)
    (fun j d => table_filled pp qq d i j) (qq.length + 1 - 1) 1 delta h
    (fun j d hj1 hj2 hp => distance_cell_filled pp qq d i j hi hi2 hj1 (by omega) hp)
  obtain ⟨hs, hv⟩ := key
  refine ⟨hs, fun r c hr hc hfill => hv r c hr hc ?_⟩
  rcases hfill with e | e | e | ⟨e1, e2⟩
  · exact Or.inl e
  · exact Or.inr (Or.inl e)
  · rcases Nat.lt_or_ge r i with h5 | h5
    · exact Or.inr (Or.inr (Or.inl h5))
    · exact Or.inr (Or.inr (Or.inr ⟨by omega, by omega⟩))
  · exact Or.inr (Or.inl (by omega))

/-- For a receiver that is not null `distance` returns the entry of the recurrence at
the two lengths. -/
theorem distance_eq_entry (a b : List Nat) :
    distance ⟨false, a⟩ b = distance_entry a b a.length b.length := by
  by_cases ha : a.length = 0
  · have : a = [] := List.length_eq_zero.mp ha
    subst this
    simp [distance, length, distance_entry]
  · by_cases hb : b.length = 0
    · have : b = [] := List.length_eq_zero.mp hb
      subst this
      obtain ⟨k, hk⟩ : ∃ k, a.length = k + 1 := ⟨a.length - 1, by omega⟩
      simp [distance, length, ha, hk, distance_entry]
    · have key := foldl_range'_invariant
        (fun d i => (List.range' 1 (b.length + 1 - 1)).foldl
          (fun d j => distance_cell a b d i j) d)
        (fun i d => table_filled a b d i 1) (a.length + 1 - 1) 1 _
        (distance_table_init a b)
        (fun i d hi1 hi2 hp => distance_row_filled a b d i hi1 (by omega) hp)
      have hv := key.2 a.length b.length (by omega) (by omega)
        (Or.inr (Or.inr (Or.inl (by omega))))
      rw [← hv]
      simp [distance, length, ha, hb]

theorem distance_entry_zero_left (pp qq : List Nat) (j : Nat) :
    distance_entry pp qq 0 j = j := by
  rw [distance_entry]

theorem distance_entry_zero_right (pp qq : List Nat) (i : Nat) :
    distance_entry pp qq i 0 = i := by
  cases i with
  | zero => rw [distance_entry]
  | succ i => rw [distance_entry]

/-- The recurrence of `distance` does not change when the two strings and the two
indices are exchanged. -/
theorem distance_entry_symm (a b : List Nat) :
    ∀ (n i j : Nat), i + j = n → distance_entry a b i j = distance_entry b a j i := by
  intro n
  induction n using Nat.strong_induction_on with
  | _ n ih =>
    intro i j hn
    rcases Nat.eq_zero_or_pos i with hi | hi
    · subst hi
      rw [distance_entry_zero_left, distance_entry_zero_right]
    · rcases Nat.eq_zero_or_pos j with hj | hj
      · subst hj
        rw [distance_entry_zero_left, distance_entry_zero_right]
      · have e1 := ih (i - 1 + j) (by omega) (i - 1) j rfl
        have e2 := ih (i + (j - 1)) (by omega) i (j - 1) rfl
        have e3 := ih (i - 1 + (j - 1)) (by omega) (i - 1) (j - 1) rfl
        have e4 := ih (i - 2 + (j - 2)) (by omega) (i - 2) (j - 2) rfl
        rw [distance_entry_step a b i j hi hj, distance_entry_step b a j i hj hi, e1, e2, e3, e4]
        generalize distance_entry b a j (i - 1) = X
        generalize distance_entry b a (j - 1) i = Y
        generalize distance_entry b a (j - 1) (i - 1) = Z
        generalize distance_entry b a (j - 2) (i - 2) = W
        generalize a.getD (i - 1) 0 = p
        generalize b.getD (j - 1) 0 = q
        generalize a.getD (i - 2) 0 = p2
        generalize b.getD (j - 2) 0 = q2
        have hpq : (q == p) = (p == q) := by
          rw [Bool.eq_iff_iff]
          simp only [beq_iff_eq]
          exact eq_comm
        have h1 : (q != p2) = (p2 != q) := by
          rw [Bool.eq_iff_iff]
          simp only [bne_iff_ne]
          exact ne_comm
        have h2 : (q2 != p) = (p != q2) := by
          rw [Bool.eq_iff_iff]
          simp only [bne_iff_ne]
          exact ne_comm
        rw [hpq, h1, h2, Bool.and_comm (decide (j > 2))]
        generalize (p == q) = c0
        generalize (p2 != q) = c1
        generalize (p != q2) = c2
        generalize (decide (i > 2) && decide (j > 2)) = c3
        cases c0 <;> cases c1 <;> cases c2 <;> cases c3 <;>
          simp only [Bool.false_eq_true, if_true, if_false] <;>
          first
            | omega
            | (split_ifs <;> omega)

/-- An entry of the recurrence is at most the larger index. -/
theorem distance_entry_le (a b : List Nat) :
    ∀ (n i j : Nat), i + j = n → distance_entry a b i j ≤ max i j := by
  intro n
  induction n using Nat.strong_induction_on with
  | _ n ih =>
    intro i j hn
    rcases Nat.eq_zero_or_pos i with hi | hi
    · subst hi
      rw [distance_entry_zero_left]
      omega
    · rcases Nat.eq_zero_or_pos j with hj | hj
      · subst hj
        rw [distance_entry_zero_right]
        omega
      · have e3 := ih (i - 1 + (j - 1)) (by omega) (i - 1) (j - 1) rfl
        rw [distance_entry_step a b i j hi hj]
        generalize distance_entry a b (i - 1) j = X
        generalize distance_entry a b i (j - 1) = Y
        generalize distance_entry a b (i - 1) (j - 1) = Z at e3
        generalize distance_entry a b (i - 2) (j - 2) = W
        generalize (a.getD (i - 1) 0 == b.getD (j - 1) 0) = c0
        generalize (a.getD (i - 2) 0 != b.getD (j - 1) 0) = c1
        generalize (a.getD (i - 1) 0 != b.getD (j - 2) 0) = c2
        generalize (decide (i > 2) && decide (j > 2)) = c3
        cases c0 <;> cases c1 <;> cases c2 <;> cases c3 <;>
          simp only [Bool.false_eq_true, if_true, if_false] <;>
          first
            | omega
            | (split_ifs <;> omega)

/-- An entry off the border is zero exactly when the entry diagonally above is zero and
the two bytes compared are equal. -/
theorem distance_entry_eq_zero_step (a b : List Nat) (i j : Nat) (hi : 1 ≤ i) (hj : 1 ≤ j) :
    distance_entry a b i j = 0
      ↔ distance_entry a b (i - 1) (j - 1) = 0 ∧ a.getD (i - 1) 0 = b.getD (j - 1) 0 := by
  rw [distance_entry_step a b i j hi hj]
  generalize distance_entry a b (i - 1) j = X
  generalize distance_entry a b i (j - 1) = Y
  generalize distance_entry a b (i - 1) (j - 1) = Z
  generalize distance_entry a b (i - 2) (j - 2) = W
  generalize (a.getD (i - 2) 0 != b.getD (j - 1) 0) = c1
  generalize (a.getD (i - 1) 0 != b.getD (j - 2) 0) = c2
  generalize (decide (i > 2) && decide (j > 2)) = c3
  by_cases hpq : a.getD (i - 1) 0 = b.getD (j - 1) 0
  · have h0 : (a.getD (i - 1) 0 == b.getD (j - 1) 0) = true := by simpa using hpq
    rw [h0]
    constructor
    · cases c1 <;> cases c2 <;> cases c3 <;>
        (simp only [Bool.false_eq_true, if_true, if_false]
         intro h
         first
           | omega
           | (split_ifs at h ⊢
              all_goals omega))
    · cases c1 <;> cases c2 <;> cases c3 <;>
        (simp only [Bool.false_eq_true, if_true, if_false]
         intro h
         first
           | omega
           | (split_ifs at h ⊢
              all_goals omega))
  · have h0 : (a.getD (i - 1) 0 == b.getD (j - 1) 0) = false := by simpa using hpq
    rw [h0]
    constructor
    · cases c1 <;> cases c2 <;> cases c3 <;>
        (simp only [Bool.false_eq_true, if_true, if_false]
         intro h
         first
           | omega
           | (split_ifs at h ⊢
              all_goals omega))
    · intro h
      exact absurd h.2 hpq

theorem take_succ_getD (l : List Nat) (k : Nat) (h : k < l.length) :
    l.take (k + 1) = l.take k ++ [l.getD k 0] := by
  rw [List.take_succ, List.getD_eq_getElem?_getD, List.getElem?_eq_getElem h]
  rfl

/-- An entry is zero exactly when the two prefixes that it compares are equal. -/
theorem distance_entry_eq_zero (a b : List Nat) :
    ∀ (n i j : Nat), i + j = n → i ≤ a.length → j ≤ b.length →
      (distance_entry a b i j = 0 ↔ i = j ∧ a.take i = b.take j) := by
  intro n
  induction n using Nat.strong_induction_on with
  | _ n ih =>
    intro i j hn hia hjb
    rcases Nat.eq_zero_or_pos i with hi | hi
    · subst hi
      rw [distance_entry_zero_left]
      constructor
      · intro h
        subst h
        exact ⟨rfl, rfl⟩
      · intro h
        exact h.1.symm
    · rcases Nat.eq_zero_or_pos j with hj | hj
      · subst hj
        rw [distance_entry_zero_right]
        constructor
        · intro h
          omega
        · intro h
          exact h.1
      · obtain ⟨k, rfl⟩ : ∃ k, i = k + 1 := ⟨i - 1, by omega⟩
        obtain ⟨l, rfl⟩ : ∃ l, j = l + 1 := ⟨j - 1, by omega⟩
        rw [distance_entry_eq_zero_step a b (k + 1) (l + 1) hi hj]
        simp only [Nat.add_sub_cancel]
        rw [ih (k + l) (by omega) k l rfl (by omega) (by omega),
          take_succ_getD a k (by omega), take_succ_getD b l (by omega)]
        constructor
        · rintro ⟨⟨h1, h2⟩, h3⟩
          exact ⟨by omega, by rw [h2, h3]⟩
        · rintro ⟨h1, h2⟩
          have h4 := List.append_inj' h2 rfl
          exact ⟨⟨by omega, h4.1⟩, by simpa using h4.2⟩

end string

/-! ## Auxiliary facts on the integer grammars -/

namespace string

theorem is_one_of_octal_digits (c : Nat) :
    is_one_of c (some (bytes "01234567")) = (decide (48 ≤ c) && decide (c ≤ 55)) := by
  have e : c_str (bytes "01234567") = [48, 49, 50, 51, 52, 53, 54, 55] := by decide
  rw [Bool.eq_iff_iff]
  simp only [is_one_of, e, List.any_cons, List.any_nil, Bool.or_false, Bool.or_eq_true,
    beq_iff_eq, Bool.and_eq_true, decide_eq_true_eq]
  omega

theorem compare_to_loop_eq_zero :
    ∀ (p q : List Nat), compare_to_loop p q = 0 → p = q := by
  intro p
  induction p with
  | nil =>
    intro q h
    cases q with
    | nil => rfl
    | cons b q => simp [compare_to_loop] at h
  | cons a p ih =>
    intro q h
    cases q with
    | nil => simp [compare_to_loop] at h
    | cons b q =>
      simp only [compare_to_loop] at h
      by_cases hab : ((a : Int) - b != 0) = true
      · rw [if_pos hab] at h
        simp only [bne_iff_ne, ne_eq] at hab
        exact absurd h hab
      · rw [if_neg hab] at h
        simp only [bne_iff_ne, ne_eq, Decidable.not_not] at hab
        have e : a = b := by omega
        rw [e, ih q h]

/-- A string that starts with the two non-NUL bytes `x`, `y` has them in front. -/
theorem starts_with_pair (l : List Nat) (x y : Nat) (hx : x ≠ 0) (hy : y ≠ 0)
    (h : starts_with ⟨false, l⟩ (some [x, y]) = true) :
    l.getD 0 0 = x ∧ l.getD 1 0 = y := by
  have hp : of_c_str (some [x, y]) = ⟨false, [x, y]⟩ := by
    simp [of_c_str, c_str, List.takeWhile_cons, hx, hy]
  have hc : c_str [x, y] = [x, y] := by
    simp [c_str, List.takeWhile_cons, hx, hy]
  simp only [starts_with, hp, length, Bool.false_eq_true, if_false, List.length_cons,
    List.length_nil, of_std, compare_to, hc] at h
  rcases l with _ | ⟨u, _ | ⟨v, rest⟩⟩
  · simp at h
  · simp at h
  · simp only [List.length_cons, List.take_succ_cons, List.take_zero] at h
    have hlt : ¬ (rest.length + 1 + 1 < 0 + 1 + 1) := by omega
    simp only [hlt, if_false, beq_iff_eq] at h
    have e := compare_to_loop_eq_zero _ _ h
    by_cases hu : u = 0
    · subst hu
      simp [c_str] at e
    · by_cases hv : v = 0
      · subst hv
        simp [c_str, List.takeWhile_cons, hu] at e
      · simp only [c_str, List.takeWhile_cons, bne_iff_ne, ne_eq, hu, hv, not_false_eq_true,
          decide_True, if_true, List.takeWhile_nil, List.cons.injEq, and_true] at e
        simp only [List.getD_cons_zero, List.getD_cons_succ]
        exact e

theorem getD_map_tolower (l : List Nat) (k : Nat) :
    (l.map tolower).getD k 0 = tolower (l.getD k 0) := by
  simp only [List.getD_eq_getElem?_getD, List.getElem?_map]
  cases l[k]? with
  | none => rfl
  | some c => rfl

theorem to_lower_in_place_base (s : List Nat) :
    to_lower_in_place ⟨false, s⟩ = ⟨false, s.map tolower⟩ := by
  cases s with
  | nil => rfl
  | cons a s => simp [to_lower_in_place, is_empty]

theorem tolower_eq_digit (c : Nat) (h : tolower c = 48) : c = 48 := by
  unfold tolower at h
  split_ifs at h with h1
  · simp only [Bool.and_eq_true, decide_eq_true_eq] at h1
    omega
  · exact h

/-- A classifier that returns true was called on a string that is not empty. -/
theorem not_empty_of_guard (this : string)
    (he : ¬ (this._null || this.base.length == 0) = true) : this.is_empty = false := by
  simpa [is_empty] using he

/-- A decimal integer does not start with the digit 0 once trimmed. -/
theorem is_decimal_integer_front (this : string) (h : is_decimal_integer this = true) :
    (trimmed this.base).getD 0 0 ≠ 48 := by
  unfold is_decimal_integer at h
  by_cases he : (this._null || this.base.length == 0) = true
  · rw [if_pos he] at h
    exact absurd h (by decide)
  · rw [if_neg he, trim_base this (not_empty_of_guard this he)] at h
    generalize trimmed this.base = s at h
    by_cases hl : (length ⟨false, s⟩ == 0) = true
    · simp only [hl, if_true] at h
      exact absurd h (by decide)
    · simp only [hl, if_false, front] at h
      intro e48
      rcases s with _ | ⟨a, rest⟩
      · simp at e48
      · simp only [List.getD_cons_zero] at e48
        subst e48
        simp [is_one_of_nonzero_digits] at h

/-- An octal integer starts with the digit 0 once trimmed, and what follows it, if
anything, is an octal digit. -/
theorem is_octal_integer_front (this : string) (h : is_octal_integer this = true) :
    (trimmed this.base).getD 0 0 = 48
      ∧ ((trimmed this.base).getD 1 0 = 0
        ∨ (48 ≤ (trimmed this.base).getD 1 0 ∧ (trimmed this.base).getD 1 0 ≤ 55)) := by
  unfold is_octal_integer at h
  by_cases he : (this._null || this.base.length == 0) = true
  · rw [if_pos he] at h
    exact absurd h (by decide)
  · rw [if_neg he, trim_base this (not_empty_of_guard this he)] at h
    generalize trimmed this.base = s at h
    by_cases hg : (this.length == 0 || front ⟨false, s⟩ != 48) = true
    · rw [if_pos hg] at h
      exact absurd h (by decide)
    · rw [if_neg hg] at h
      simp only [Bool.or_eq_true, beq_iff_eq, bne_iff_ne, ne_eq, not_or, Decidable.not_not,
        front] at hg
      refine ⟨hg.2, ?_⟩
      rcases s with _ | ⟨a, _ | ⟨x, rest⟩⟩
      · simp at hg
      · left
        rfl
      · simp only [List.getD_cons_zero] at hg
        simp only [List.getD_cons_succ, List.getD_cons_zero]
        by_cases hx : x = 0
        · left
          exact hx
        · right
          have ha : a ≠ 0 := by omega
          simp only [consists_of, is_empty, Bool.false_or, List.length_cons, beq_iff_eq,
            Nat.add_one_ne_zero, if_false, c_str, List.takeWhile_cons, bne_iff_ne, ne_eq, ha,
            hx, not_false_eq_true, decide_True, if_true, List.all_cons, Bool.and_eq_true,
            is_one_of_octal_digits, decide_eq_true_eq] at h
          exact h.2.1

/-- A hexadecimal integer starts with 0x or 0X once trimmed. -/
theorem is_hexadecimal_integer_front (this : string)
    (h : is_hexadecimal_integer this = true) :
    (trimmed this.base).getD 0 0 = 48 ∧ tolower ((trimmed this.base).getD 1 0) = 120 := by
  unfold is_hexadecimal_integer at h
  by_cases he : (this._null || this.base.length == 0) = true
  · rw [if_pos he] at h
    exact absurd h (by decide)
  · rw [if_neg he, trim_base this (not_empty_of_guard this he), to_lower_in_place_base] at h
    generalize trimmed this.base = s at h
    have hb : bytes "0x" = [48, 120] := by decide
    by_cases hs : starts_with ⟨false, s.map tolower⟩ (some [48, 120]) = true
    · have hp := starts_with_pair _ 48 120 (by decide) (by decide) hs
      rw [getD_map_tolower, getD_map_tolower] at hp
      exact ⟨tolower_eq_digit _ hp.1, hp.2⟩
    · simp only [hb, hs, Bool.not_false, if_true, Bool.false_eq_true, ite_self] at h

/-- A binary integer starts with 0b or 0B once trimmed. -/
theorem is_binary_integer_front (this : string) (h : is_binary_integer this = true) :
    (trimmed this.base).getD 0 0 = 48 ∧ tolower ((trimmed this.base).getD 1 0) = 98 := by
  unfold is_binary_integer at h
  by_cases he : (this._null || this.base.length == 0) = true
  · rw [if_pos he] at h
    exact absurd h (by decide)
  · rw [if_neg he, trim_base this (not_empty_of_guard this he), to_lower_in_place_base] at h
    generalize trimmed this.base = s at h
    have hb : bytes "0b" = [48, 98] := by decide
    by_cases hs : starts_with ⟨false, s.map tolower⟩ (some [48, 98]) = true
    · have hp := starts_with_pair _ 48 98 (by decide) (by decide) hs
      rw [getD_map_tolower, getD_map_tolower] at hp
      exact ⟨tolower_eq_digit _ hp.1, hp.2⟩
    · simp only [hb, hs, Bool.not_false, Bool.or_true, if_true, Bool.false_eq_true] at h

/-- At most one of the four classifiers accepts a string. -/
theorem accepts_unique (str : string) (g h : integer_grammar)
    (hg : accepts g str = true) (hh : accepts h str = true) : g = h := by
  have key : ∀ x : Nat, (x = 0 ∨ (48 ≤ x ∧ x ≤ 55)) → tolower x ≠ 120 ∧ tolower x ≠ 98 := by
    intro x hx
    unfold tolower
    split_ifs with h1
    · simp only [Bool.and_eq_true, decide_eq_true_eq] at h1
      omega
    · omega
  cases g <;> cases h <;> first
    | rfl
    | (exfalso
       simp only [accepts] at hg hh
       first
         | (have h1 := is_binary_integer_front str hg
            have h2 := is_octal_integer_front str hh
            exact (key _ h2.2).2 h1.2)
         | (have h1 := is_binary_integer_front str hh
            have h2 := is_octal_integer_front str hg
            exact (key _ h2.2).2 h1.2)
         | (have h1 := is_hexadecimal_integer_front str hg
            have h2 := is_octal_integer_front str hh
            exact (key _ h2.2).1 h1.2)
         | (have h1 := is_hexadecimal_integer_front str hh
            have h2 := is_octal_integer_front str hg
            exact (key _ h2.2).1 h1.2)
         | (have h1 := is_binary_integer_front str hg
            have h2 := is_hexadecimal_integer_front str hh
            omega)
         | (have h1 := is_binary_integer_front str hh
            have h2 := is_hexadecimal_integer_front str hg
            omega)
         | (have h1 := is_decimal_integer_front str hg
            first
              | exact h1 (is_binary_integer_front str hh).1
              | exact h1 (is_octal_integer_front str hh).1
              | exact h1 (is_hexadecimal_integer_front str hh).1)
         | (have h1 := is_decimal_integer_front str hh
            first
              | exact h1 (is_binary_integer_front str hg).1
              | exact h1 (is_octal_integer_front str hg).1
              | exact h1 (is_hexadecimal_integer_front str hg).1))

/-- Two lists that both hold every grammar give the same first accepted grammar. -/
theorem find_accepted_eq (str : string) (l1 l2 : List integer_grammar)
    (h1 : ∀ g, g ∈ l1) (h2 : ∀ g, g ∈ l2) :
    l1.find? (fun g => accepts g str) = l2.find? (fun g => accepts g str) := by
  cases e1 : l1.find? (fun g => accepts g str) with
  | none =>
    rw [List.find?_eq_none] at e1
    symm
    rw [List.find?_eq_none]
    intro g _
    exact e1 g (h1 g)
  | some g =>
    have hg := List.find?_some e1
    cases e2 : l2.find? (fun g => accepts g str) with
    | none =>
      rw [List.find?_eq_none] at e2
      exact absurd hg (e2 g (h2 g))
    | some g2 =>
      have hg2 := List.find?_some e2
      rw [accepts_unique str g g2 hg hg2]

/-- `parse_integer` is its rearrangement in the order of the source. -/
theorem parse_integer_eq_in_order (erange : Bool) (this : string) :
    parse_integer erange this
      = parse_integer_in_order erange
          [integer_grammar.binary, integer_grammar.octal, integer_grammar.decimal,
            integer_grammar.hexadecimal] this := by
  unfold parse_integer parse_integer_in_order
  by_cases he : (this._null || this.base.length == 0) = true
  · rw [if_pos he, if_pos he]
  · rw [if_neg he, if_neg he]
    dsimp only
    by_cases hl : ((trim this).length == 0) = true
    · rw [if_pos hl, if_pos hl]
    · rw [if_neg hl, if_neg hl]
      simp only [List.find?, accepts]
      cases hb : is_binary_integer (trim this)
      · cases ho : is_octal_integer (trim this)
        · cases hd : is_decimal_integer (trim this)
          · cases hx : is_hexadecimal_integer (trim this)
            · simp
            · simp [parse_integer_branch]
          · simp [parse_integer_branch]
        · simp [parse_integer_branch]
      · simp [parse_integer_branch]

end string

/-! ## Auxiliary facts on text without complete references -/

namespace string

/-- Outside a reference every byte other than `&` is written as it is. -/
theorem entity_run_plain (s : List Nat) :
    ∀ (mn os : List Nat) (cc : Nat), 38 ∉ s →
      s.foldl entity_step ⟨state.none, mn, cc, os⟩ = ⟨state.none, mn, cc, os ++ s⟩ := by
  induction s with
  | nil =>
    intro mn os cc _
    simp
  | cons c s ih =>
    intro mn os cc h
    have hc : c ≠ 38 := fun e => h (by simp [e])
    have hs : 38 ∉ s := fun e => h (List.mem_cons_of_mem _ e)
    have step : entity_step ⟨state.none, mn, cc, os⟩ c = ⟨state.none, mn, cc, os ++ [c]⟩ := by
      simp [entity_step, entity_switch, hc]
    rw [List.foldl_cons, step, ih mn (os ++ [c]) cc hs]
    simp

/-- Inside a name every letter and digit is collected and nothing is written. -/
theorem entity_run_name (w : List Nat) :
    ∀ (mn os : List Nat) (cc : Nat), (∀ x ∈ w, isalnum x = true) →
      w.foldl entity_step ⟨state.name, mn, cc, os⟩ = ⟨state.name, mn ++ w, cc, os⟩ := by
  induction w with
  | nil =>
    intro mn os cc _
    simp
  | cons c w ih =>
    intro mn os cc h
    have hc : isalnum c = true := h c (by simp)
    have hw : ∀ x ∈ w, isalnum x = true := fun x hx => h x (List.mem_cons_of_mem _ hx)
    have hc2 : ((decide (97 ≤ c) && decide (c ≤ 122) || decide (65 ≤ c) && decide (c ≤ 90))
        || decide (48 ≤ c) && decide (c ≤ 57)) = true := by
      simp only [isalnum, Bool.or_eq_true, Bool.and_eq_true, decide_eq_true_eq] at hc ⊢
      omega
    have step : entity_step ⟨state.name, mn, cc, os⟩ c = ⟨state.name, mn ++ [c], cc, os⟩ := by
      simp only [entity_step, entity_switch, hc2, if_true, Bool.not_true, Bool.false_eq_true,
        if_false, Bool.false_and]
    rw [List.foldl_cons, step, ih (mn ++ [c]) os cc hw]
    simp

/-- A reference whose name is still open at the end of the input is not written. -/
theorem unescape_entities_open_name (b : Bool) (s : List Nat) (c : Nat) (w : List Nat)
    (hs : 38 ∉ s) (hc : (97 ≤ c ∧ c ≤ 122) ∨ (65 ≤ c ∧ c ≤ 90))
    (hw : ∀ x ∈ w, isalnum x = true) :
    unescape_entities ⟨b, s ++ 38 :: c :: w⟩ = s := by
  have hc1 : (decide (97 ≤ c) && decide (c ≤ 122) || decide (65 ≤ c) && decide (c ≤ 90))
      = true := by
    simp only [Bool.or_eq_true, Bool.and_eq_true, decide_eq_true_eq]
    exact hc
  have hc35 : c ≠ 35 := by omega
  have amp : entity_step ⟨state.none, [], 0, s⟩ 38 = ⟨state.begin, [], 0, s⟩ := by
    simp [entity_step, entity_switch]
  have first : entity_step ⟨state.begin, [], 0, s⟩ c = ⟨state.name, [c], 0, s⟩ := by
    simp only [entity_step, entity_switch, beq_iff_eq, hc35, if_false, hc1, if_true,
      Bool.false_eq_true, Bool.not_true, Bool.false_and, List.nil_append]
  unfold unescape_entities
  simp only [List.foldl_append, List.foldl_cons]
  rw [entity_run_plain s [] [] 0 hs, List.nil_append, amp, first, entity_run_name w [c] s 0 hw]

end string

/-! ## Auxiliary facts on the null flag -/

namespace string

theorem append_char_null (this : string) (c : Nat) (h : this._null = false) :
    (append_char this c)._null = false := by
  unfold append_char
  split_ifs <;> simp [h]

theorem append_format_null (this : string) (format : Option (List Nat)) :
    (append_format this format)._null = this._null := by
  unfold append_format
  cases do_format format <;> rfl

theorem ite_some_null {c : Prop} [Decidable c] (x : string) (y : Option string) (r : string)
    (hx : x._null = false) (hy : y = some r → r._null = false) :
    (if c then some x else y) = some r → r._null = false := by
  intro h
  by_cases hc : c
  · rw [if_pos hc, Option.some.injEq] at h
    rw [← h]
    exact hx
  · rw [if_neg hc] at h
    exact hy h

theorem escape_entities_step_null (b : Bool) (result r : string) (s : Nat)
    (h : result._null = false) (hr : escape_entities_step b result s = some r) :
    r._null = false := by
  revert hr
  unfold escape_entities_step
  iterate 14 refine ite_some_null _ _ r (by rw [append_format_null]; exact h) ?_
  intro hr
  split_ifs at hr
  all_goals
    have e := Option.some.inj hr
    rw [← e]
    first
      | (apply append_char_null
         rw [append_format_null]
         exact append_char_null _ _ h)
      | exact append_char_null _ _ h

theorem escape_entities_loop_null (b : Bool) (s : List Nat) :
    ∀ (result r : string), result._null = false →
      escape_entities_loop b s result = some r → r._null = false := by
  induction s with
  | nil =>
    intro result r h hr
    simp only [escape_entities_loop, Option.some.injEq] at hr
    rw [← hr]
    exact h
  | cons c s ih =>
    intro result r h hr
    simp only [escape_entities_loop] at hr
    cases hstep : escape_entities_step b result c with
    | none => simp [hstep] at hr
    | some r1 =>
      rw [hstep] at hr
      exact ih r1 r (escape_entities_step_null b result r1 c h hstep) hr

theorem escape_entities_step_in_range (b : Bool) (result : string) (s : Nat) :
    (escape_entities_step b result s).isSome = escape_entities_in_range b s := by
  by_cases h1 : s = 39
  · subst h1; cases b <;> rfl
  by_cases h2 : s = 34
  · subst h2; cases b <;> rfl
  by_cases h3 : s = 38
  · subst h3; cases b <;> rfl
  by_cases h4 : s = 60
  · subst h4; cases b <;> rfl
  by_cases h5 : s = 62
  · subst h5; cases b <;> rfl
  by_cases h6 : s = 0x80
  · subst h6; cases b <;> rfl
  by_cases h7 : s = 0x85
  · subst h7; cases b <;> rfl
  by_cases h8 : s = 0x86
  · subst h8; cases b <;> rfl
  by_cases h9 : s = 0x87
  · subst h9; cases b <;> rfl
  by_cases h10 : s = 0x89
  · subst h10; cases b <;> rfl
  by_cases h11 : s = 0x95
  · subst h11; cases b <;> rfl
  by_cases h12 : s = 0x96
  · subst h12; cases b <;> rfl
  by_cases h13 : s = 0x97
  · subst h13; cases b <;> rfl
  by_cases h14 : s = 0x99
  · subst h14; cases b <;> rfl
  unfold escape_entities_step escape_entities_in_range
  simp only [beq_iff_eq, h1, h2, h3, h4, h5, h6, h7, h8, h9, h10, h11, h12, h13, h14,
    if_false, Bool.or_false, beq_eq_false_iff_ne, ne_eq, not_false_eq_true]
  cases b with
  | false =>
    simp only [Bool.false_eq_true, if_false, Bool.not_false, Bool.true_or]
    split_ifs <;> rfl
  | true =>
    simp only [if_true, Bool.not_true, Bool.false_or]
    by_cases hr : 0x80 ≤ s ∧ s < 0xA0
    · have e1 : (decide (s < 0x80) || decide (0xA0 ≤ s)) = false := by
        simp only [Bool.or_eq_false_iff, decide_eq_false_iff_not]
        omega
      have e2 : (decide (0x80 ≤ s) && decide (s < 0xA0)) = true := by
        simp only [Bool.and_eq_true, decide_eq_true_eq]
        exact hr
      simp only [e1, e2, Bool.false_eq_true, if_false, Option.isSome_some, Bool.or_true]
    · have e1 : (decide (s < 0x80) || decide (0xA0 ≤ s)) = true := by
        simp only [Bool.or_eq_true, decide_eq_true_eq]
        omega
      have e2 : (decide (0x80 ≤ s) && decide (s < 0xA0)) = false := by
        simp only [Bool.and_eq_false_iff, decide_eq_false_iff_not]
        omega
      simp only [e1, e2, if_true, Option.isSome_none, Bool.or_false]
      simp [h1, h2, h3, h4, h5]

theorem escape_entities_loop_in_range (b : Bool) (s : List Nat) :
    ∀ result : string,
      (escape_entities_loop b s result).isSome = s.all (escape_entities_in_range b) := by
  induction s with
  | nil =>
    intro result
    rfl
  | cons c s ih =>
    intro result
    have hc := escape_entities_step_in_range b result c
    simp only [escape_entities_loop, List.all_cons]
    cases hstep : escape_entities_step b result c with
    | none =>
      rw [hstep] at hc
      rw [← hc]
      rfl
    | some r1 =>
      rw [hstep] at hc
      rw [← hc, ih r1]
      rfl

theorem escape_entities_null_flag (b : Bool) (this : string) :
    (escape b this escaping.entities).map string.is_null
      = if (c_str this.base).all (escape_entities_in_range b) then some false else none := by
  have hall := escape_entities_loop_in_range b (c_str this.base) string.new
  unfold escape escape_entities
  cases hl : escape_entities_loop b (c_str this.base) string.new with
  | none =>
    rw [hl] at hall
    rw [← hall]
    rfl
  | some r =>
    rw [hl] at hall
    rw [← hall]
    have hnull := escape_entities_loop_null b _ string.new r rfl hl
    simp [assign, hnull, is_null]

theorem escape_regex_step_null (result : string) (c : Nat) (h : result._null = false) :
    (escape_regex_step result c)._null = false := by
  unfold escape_regex_step
  split_ifs <;>
    first
      | exact append_char_null _ _ (append_char_null _ _ h)
      | exact append_char_null _ _ h

theorem escape_regex_null (s : List Nat) :
    ∀ (result : string), result._null = false →
      (s.foldl escape_regex_step result)._null = false := by
  induction s with
  | nil =>
    intro result h
    exact h
  | cons c s ih =>
    intro result h
    exact ih _ (escape_regex_step_null result c h)

end string

/-! ## The claims C31 to C40 -/

namespace string

/-- C31: after `nullify()` on any string `is_null()` is true and `length()` is 0, after
`clear()` on any string `is_null()` is false and `length()` is 0, the two results are
different states, and a default-constructed string is empty and not null. -/
theorem nullify_and_clear_states (this : string) :
    (nullify this).is_null = true ∧ (nullify this).length = 0
      ∧ (clear this).is_null = false ∧ (clear this).length = 0
      ∧ nullify this ≠ clear this
      ∧ string.new.is_empty = true ∧ string.new.is_null = false := by
  refine ⟨rfl, rfl, rfl, rfl, by simp [nullify, clear], rfl, rfl⟩

/-- C32, refuted on the code: `index_of` called with the default start returns -1 for
every string and every character, also when the character occurs; on "1.5" the index of
the point is reported as -1, not 1. -/
theorem index_of_default_start_always_fails :
    (∀ (this : string) (value : Nat), index_of this value none = -1)
      ∧ index_of ⟨false, bytes "1.5"⟩ 46 none = -1
      ∧ (bytes "1.5").indexOf 46 = 1 := by
  refine ⟨fun this value => ?_, by decide, by decide⟩
  unfold index_of
  split_ifs <;> rfl

/-- C33, as stated, fails: `unescape(url)` and `escape(url)` turn the null string into
the empty string that is not null. -/
theorem unescape_url_makes_null_empty :
    (unescape ⟨true, []⟩ escaping.url).is_null = false
      ∧ escape false ⟨true, []⟩ escaping.url = some ⟨false, []⟩ := by
  decide

/-- C33, amended. On a receiver that is null, `escape(json)`, `escape(undefined)`,
`unescape(json)`, `unescape(regex)` and `unescape(undefined)` leave the receiver null.
`escape(url)` and `escape(rfc3986)` leave the empty string that is not null, and
`escape(regex)`, `unescape(rfc3986)`, `unescape(url)` and `unescape(entities)` leave a
string that is not null. `escape(entities)` leaves a string that is not null exactly when
every byte of the C string of the buffer keeps the pass of the loop inside the table of
names, which every byte does where `char` is unsigned; otherwise the call has no defined
outcome. When the buffer of the null receiver is empty, all seven leave the empty string
that is not null. -/
theorem escape_unescape_on_null (charSigned : Bool) (this : string)
    (h : this.is_null = true) :
    escape charSigned this escaping.json = some ⟨true, []⟩
      ∧ escape charSigned this escaping.undefined = some this
      ∧ unescape this escaping.json = this
      ∧ unescape this escaping.regex = this
      ∧ unescape this escaping.undefined = this
      ∧ escape charSigned this escaping.url = some ⟨false, []⟩
      ∧ escape charSigned this escaping.rfc3986 = some ⟨false, []⟩
      ∧ (escape charSigned this escaping.entities).map string.is_null
          = (if (c_str this.base).all (escape_entities_in_range charSigned) then some false
              else none)
      ∧ (∀ s, escape_entities_in_range false s = true)
      ∧ (∃ r, escape false this escaping.entities = some r ∧ r.is_null = false)
      ∧ (∃ r, escape charSigned this escaping.regex = some r ∧ r.is_null = false)
      ∧ (unescape this escaping.rfc3986).is_null = false
      ∧ (unescape this escaping.url).is_null = false
      ∧ (unescape this escaping.entities).is_null = false
      ∧ (this.base = [] →
          escape charSigned this escaping.entities = some ⟨false, []⟩
          ∧ escape charSigned this escaping.regex = some ⟨false, []⟩
          ∧ unescape this escaping.rfc3986 = ⟨false, []⟩
          ∧ unescape this escaping.url = ⟨false, []⟩
          ∧ unescape this escaping.entities = ⟨false, []⟩) := by
  obtain ⟨n, s⟩ := this
  have hn : n = true := h
  subst hn
  refine ⟨?_, rfl, ?_, rfl, rfl, ?_, ?_, escape_entities_null_flag charSigned _,
    fun _ => rfl, ?_, ?_, rfl, rfl, rfl, ?_⟩
  · simp [escape, escape_json, length, copy, assign]
  · simp [unescape, unescape_json, length]
  · simp [escape, escape_url, length, assign, string.new]
  · simp [escape, escape_url, length, assign, string.new]
  · have hflag := escape_entities_null_flag false ⟨true, s⟩
    have hall : (c_str s).all (escape_entities_in_range false) = true :=
      List.all_eq_true.mpr (fun _ _ => rfl)
    rw [hall, if_pos rfl] at hflag
    cases he : escape false ⟨true, s⟩ escaping.entities with
    | none =>
      rw [he] at hflag
      exact absurd hflag (by simp)
    | some r =>
      rw [he] at hflag
      exact ⟨r, rfl, Option.some.inj hflag⟩
  · have hnull := escape_regex_null s string.new rfl
    refine ⟨assign ⟨true, s⟩ (escape_regex ⟨true, s⟩), rfl, ?_⟩
    simp only [escape_regex, assign, hnull, is_null]
    rfl
  · intro hs
    have hs2 : s = [] := hs
    subst hs2
    refine ⟨rfl, rfl, rfl, rfl, rfl⟩

/-- C33, amended, on the null string and on the null string with the buffer "a" (what
`append('a')` leaves of the null string), for both kinds of `char`. -/
theorem escape_unescape_on_null_witness :
    string.is_null ⟨true, []⟩ = true ∧ string.is_null ⟨true, [97]⟩ = true
      ∧ escape true ⟨true, []⟩ escaping.json = some ⟨true, []⟩
      ∧ escape false ⟨true, [97]⟩ escaping.json = some ⟨true, []⟩
      ∧ unescape ⟨true, [97]⟩ escaping.json = ⟨true, [97]⟩
      ∧ escape true ⟨true, [97]⟩ escaping.url = some ⟨false, []⟩
      ∧ escape false ⟨true, []⟩ escaping.rfc3986 = some ⟨false, []⟩
      ∧ (escape true ⟨true, [97]⟩ escaping.entities).map string.is_null = none
      ∧ (escape true ⟨true, [60, 0x85]⟩ escaping.entities).map string.is_null = some false
      ∧ (escape false ⟨true, [97]⟩ escaping.entities).map string.is_null = some false
      ∧ (escape true ⟨true, []⟩ escaping.entities = some ⟨false, []⟩
          ∧ escape true ⟨true, []⟩ escaping.regex = some ⟨false, []⟩
          ∧ unescape ⟨true, []⟩ escaping.rfc3986 = ⟨false, []⟩
          ∧ unescape ⟨true, []⟩ escaping.url = ⟨false, []⟩
          ∧ unescape ⟨true, []⟩ escaping.entities = ⟨false, []⟩)
      ∧ (unescape ⟨true, [97]⟩ escaping.url).is_null = false
      ∧ escape true ⟨true, [97]⟩ escaping.regex = some ⟨false, [97]⟩
      ∧ escape false ⟨true, [97]⟩ escaping.entities = some ⟨false, [97]⟩
      ∧ unescape ⟨true, [97]⟩ escaping.entities = ⟨false, [97]⟩ :=
  ⟨by decide, by decide,
    (escape_unescape_on_null true ⟨true, []⟩ (by decide)).1,
    (escape_unescape_on_null false ⟨true, [97]⟩ (by decide)).1,
    (escape_unescape_on_null true ⟨true, [97]⟩ (by decide)).2.2.1,
    (escape_unescape_on_null true ⟨true, [97]⟩ (by decide)).2.2.2.2.2.1,
    (escape_unescape_on_null false ⟨true, []⟩ (by decide)).2.2.2.2.2.2.1,
    (escape_unescape_on_null true ⟨true, [97]⟩ (by decide)).2.2.2.2.2.2.2.1,
    (escape_unescape_on_null true ⟨true, [60, 0x85]⟩ (by decide)).2.2.2.2.2.2.2.1,
    (escape_unescape_on_null false ⟨true, [97]⟩ (by decide)).2.2.2.2.2.2.2.1,
    (escape_unescape_on_null true ⟨true, []⟩ (by decide)).2.2.2.2.2.2.2.2.2.2.2.2.2.2 rfl,
    (escape_unescape_on_null true ⟨true, [97]⟩ (by decide)).2.2.2.2.2.2.2.2.2.2.2.2.1,
    by decide, by decide, by decide⟩

/-- C34, refuted on the code: `append('a')` on the null string pushes the byte but
leaves the null flag set, so afterwards `is_null()` is still true and `length()` is
still 0; on the empty string the same call gives the string "a" of length 1. -/
theorem append_char_keeps_null :
    (append_char ⟨true, []⟩ 97).is_null = true
      ∧ (append_char ⟨true, []⟩ 97).length = 0
      ∧ append_char ⟨true, []⟩ 97 = ⟨true, [97]⟩
      ∧ append_char ⟨false, []⟩ 97 = ⟨false, [97]⟩ := by
  decide

/-- C35: for all strings `a` and `b` that are not null, the distance from `a` to `b` is
the distance from `b` to `a`. -/
theorem distance_symmetric (a b : string) (ha : a.is_null = false) (hb : b.is_null = false) :
    distance a b.base = distance b a.base := by
  obtain ⟨na, a⟩ := a
  obtain ⟨nb, b⟩ := b
  have e1 : na = false := ha
  have e2 : nb = false := hb
  subst e1
  subst e2
  rw [distance_eq_entry, distance_eq_entry]
  exact distance_entry_symm a b _ _ _ rfl

/-- C35 on "kitten" and "sitting". -/
theorem distance_symmetric_witness :
    string.is_null ⟨false, bytes "kitten"⟩ = false
      ∧ string.is_null ⟨false, bytes "sitting"⟩ = false
      ∧ distance ⟨false, bytes "kitten"⟩ (bytes "sitting")
        = distance ⟨false, bytes "sitting"⟩ (bytes "kitten") :=
  ⟨by decide, by decide,
    distance_symmetric ⟨false, bytes "kitten"⟩ ⟨false, bytes "sitting"⟩ (by decide)
      (by decide)⟩

/-- C36: for all strings `a` and `b` that are not null, the distance from `a` to `b` is 0
exactly when `a` and `b` are equal, and it is never above the larger of the two
lengths. -/
theorem distance_separates (a b : string) (ha : a.is_null = false) (hb : b.is_null = false) :
    (distance a b.base = 0 ↔ a = b) ∧ distance a b.base ≤ max a.length b.length := by
  obtain ⟨na, a⟩ := a
  obtain ⟨nb, b⟩ := b
  have e1 : na = false := ha
  have e2 : nb = false := hb
  subst e1
  subst e2
  rw [distance_eq_entry]
  refine ⟨?_, distance_entry_le a b _ _ _ rfl⟩
  rw [distance_entry_eq_zero a b _ _ _ rfl (le_refl _) (le_refl _), List.take_length,
    List.take_length]
  constructor
  · rintro ⟨_, h⟩
    rw [h]
  · intro h
    have e : a = b := by
      injection h
    rw [e]
    exact ⟨rfl, rfl⟩

/-- C36 on "abc" and "abd". -/
theorem distance_separates_witness :
    string.is_null ⟨false, bytes "abc"⟩ = false ∧ string.is_null ⟨false, bytes "abd"⟩ = false
      ∧ (distance ⟨false, bytes "abc"⟩ (bytes "abd") = 0
          ↔ (⟨false, bytes "abc"⟩ : string) = ⟨false, bytes "abd"⟩)
      ∧ distance ⟨false, bytes "abc"⟩ (bytes "abd")
          ≤ max (string.length ⟨false, bytes "abc"⟩) (string.length ⟨false, bytes "abd"⟩) :=
  ⟨by decide, by decide,
    distance_separates ⟨false, bytes "abc"⟩ ⟨false, bytes "abd"⟩ (by decide) (by decide)⟩

/-- C37: for every string at most one of `is_decimal_integer`, `is_hexadecimal_integer`,
`is_octal_integer` and `is_binary_integer` is true, and `parse_integer` rearranged to try
the four grammars in any order returns what `parse_integer` returns. -/
theorem integer_grammars_disjoint (erange : Bool) (this : string)
    (order : List integer_grammar) (horder : ∀ g, g ∈ order) :
    (is_decimal_integer this && is_hexadecimal_integer this) = false
      ∧ (is_decimal_integer this && is_octal_integer this) = false
      ∧ (is_decimal_integer this && is_binary_integer this) = false
      ∧ (is_hexadecimal_integer this && is_octal_integer this) = false
      ∧ (is_hexadecimal_integer this && is_binary_integer this) = false
      ∧ (is_octal_integer this && is_binary_integer this) = false
      ∧ parse_integer_in_order erange order this = parse_integer erange this := by
  have key : ∀ g h : integer_grammar, g ≠ h → (accepts g this && accepts h this) = false := by
    intro g h hne
    by_cases hg : accepts g this = true
    · by_cases hh : accepts h this = true
      · exact absurd (accepts_unique this g h hg hh) hne
      · simp [hh]
    · simp [hg]
  refine ⟨key integer_grammar.decimal integer_grammar.hexadecimal (by decide),
    key integer_grammar.decimal integer_grammar.octal (by decide),
    key integer_grammar.decimal integer_grammar.binary (by decide),
    key integer_grammar.hexadecimal integer_grammar.octal (by decide),
    key integer_grammar.hexadecimal integer_grammar.binary (by decide),
    key integer_grammar.octal integer_grammar.binary (by decide), ?_⟩
  rw [parse_integer_eq_in_order]
  unfold parse_integer_in_order
  dsimp only
  rw [find_accepted_eq (trim this) order
    [integer_grammar.binary, integer_grammar.octal, integer_grammar.decimal,
      integer_grammar.hexadecimal] horder (fun g => by cases g <;> simp)]

/-- C37 on "0x1F" with the grammars tried in the reverse order. -/
theorem integer_grammars_disjoint_witness :
    (∀ g, g ∈ [integer_grammar.hexadecimal, integer_grammar.decimal, integer_grammar.octal,
        integer_grammar.binary])
      ∧ parse_integer_in_order false
          [integer_grammar.hexadecimal, integer_grammar.decimal, integer_grammar.octal,
            integer_grammar.binary] ⟨false, bytes "0x1F"⟩
        = parse_integer false ⟨false, bytes "0x1F"⟩
      ∧ parse_integer false ⟨false, bytes "0x1F"⟩ = some (31, false) :=
  ⟨fun g => by cases g <;> simp,
    (integer_grammars_disjoint false ⟨false, bytes "0x1F"⟩
      [integer_grammar.hexadecimal, integer_grammar.decimal, integer_grammar.octal,
        integer_grammar.binary] (fun g => by cases g <;> simp)).2.2.2.2.2.2,
    by decide⟩

/-- C38: for every string without the byte `&`, `unescape_entities` returns the bytes
of the string unchanged and `unescape(entities)` leaves the receiver holding them; a
receiver that is not null is left as it was. -/
theorem unescape_entities_without_ampersand (this : string) (h : 38 ∉ this.base) :
    unescape_entities this = this.base
      ∧ unescape this escaping.entities = ⟨false, this.base⟩
      ∧ (this.is_null = false → unescape this escaping.entities = this) := by
  have e : unescape_entities this = this.base := by
    unfold unescape_entities
    rw [entity_run_plain this.base [] [] 0 h]
    rfl
  refine ⟨e, ?_, ?_⟩
  · simp [unescape, assign_std, e]
  · intro hn
    obtain ⟨n, s⟩ := this
    have e1 : n = false := hn
    subst e1
    simp only [unescape, assign_std, e]

/-- C38 on the three bytes a, NUL, b. -/
theorem unescape_entities_without_ampersand_witness :
    38 ∉ (⟨false, [97, 0, 98]⟩ : string).base
      ∧ unescape ⟨false, [97, 0, 98]⟩ escaping.entities = ⟨false, [97, 0, 98]⟩ :=
  ⟨by decide, (unescape_entities_without_ampersand ⟨false, [97, 0, 98]⟩ (by decide)).2.1⟩

/-- C39: for every string `s` without `&` and every word that starts with a letter `c`
and goes on with letters and digits `w`, `unescape(entities)` of `s`, `&`, `c`, `w` is
`s` alone: the reference left open at the end of the input is not written. -/
theorem unescape_entities_drops_open_reference (b : Bool) (s : List Nat) (c : Nat)
    (w : List Nat) (hs : 38 ∉ s) (hc : (97 ≤ c ∧ c ≤ 122) ∨ (65 ≤ c ∧ c ≤ 90))
    (hw : ∀ x ∈ w, isalnum x = true) :
    unescape ⟨b, s ++ 38 :: c :: w⟩ escaping.entities = ⟨false, s⟩ := by
  simp only [unescape, assign_std, unescape_entities_open_name b s c w hs hc hw]

/-- C39 on "a&amp", which becomes "a". -/
theorem unescape_entities_drops_open_reference_witness :
    38 ∉ bytes "a" ∧ ((97 ≤ 97 ∧ 97 ≤ 122) ∨ (65 ≤ 97 ∧ 97 ≤ 90))
      ∧ (∀ x ∈ bytes "mp", isalnum x = true)
      ∧ unescape ⟨false, bytes "a" ++ 38 :: 97 :: bytes "mp"⟩ escaping.entities
        = ⟨false, bytes "a"⟩ :=
  ⟨by decide, by decide, by decide,
    unescape_entities_drops_open_reference false (bytes "a") 97 (bytes "mp") (by decide)
      (by decide) (by decide)⟩

/-- C40, refuted on the code: for the byte `<` `escape_entities` writes `&lt` without
the closing `;`, and likewise `&euro`, `&hellip`, `&dagger`, `&ddagger`, `&permil`,
`&endash`, `&emdash` and `&trade` for the bytes 0x80, 0x85, 0x86, 0x87, 0x89, 0x96, 0x97
and 0x99, and `&bulle` for 0x95, whether `char` is signed or not. -/
theorem escape_entities_references_lack_semicolon :
    ∀ charSigned,
      escape_entities charSigned ⟨false, [60]⟩ = some ⟨false, bytes "&lt"⟩
      ∧ escape_entities charSigned ⟨false, [0x80]⟩ = some ⟨false, bytes "&euro"⟩
      ∧ escape_entities charSigned ⟨false, [0x85]⟩ = some ⟨false, bytes "&hellip"⟩
      ∧ escape_entities charSigned ⟨false, [0x86]⟩ = some ⟨false, bytes "&dagger"⟩
      ∧ escape_entities charSigned ⟨false, [0x87]⟩ = some ⟨false, bytes "&ddagger"⟩
      ∧ escape_entities charSigned ⟨false, [0x89]⟩ = some ⟨false, bytes "&permil"⟩
      ∧ escape_entities charSigned ⟨false, [0x95]⟩ = some ⟨false, bytes "&bulle"⟩
      ∧ escape_entities charSigned ⟨false, [0x96]⟩ = some ⟨false, bytes "&endash"⟩
      ∧ escape_entities charSigned ⟨false, [0x97]⟩ = some ⟨false, bytes "&emdash"⟩
      ∧ escape_entities charSigned ⟨false, [0x99]⟩ = some ⟨false, bytes "&trade"⟩ := by
  intro charSigned
  cases charSigned <;> decide

end string

end super
